import Mathlib

/-!
# Drogon ORM `Mapper<T>`: a shallow embedding of `orm_lib/inc/drogon/orm/Mapper.h`

Strings (`std::string`) are lists of characters, `size_t` values are natural
numbers reduced modulo `2 ^ 64` where the source can wrap, loops of the form
`do ... while (1)` carry an explicit iteration budget, and the database client
is a function from the submitted statement to the answer of the backend.
-/

namespace drogon.orm

/-! ## Strings -/

/-- A `std::string`, as the sequence of its characters. -/
abbrev Str := List Char

/-- Width of `size_t` on the target (`2 ^ 64` values). -/
def sizeModulus : Nat := 2 ^ 64

/-- The difference `a - b` of two `size_t` values, which wraps below zero. -/
def sizeSub (a b : Nat) : Nat := if b ≤ a then a - b else sizeModulus - (b - a)

/-- Scan used by `std::string::find`: `rest` is the text from absolute position
`i` on; the answer is the first position at or after `i` where `str` starts, and
`none` stands for `std::string::npos`. -/
def findFrom (str : Str) : Str → Nat → Option Nat
  | [], i => if str.isPrefixOf [] then some i else none
  | c :: rest, i =>
    if str.isPrefixOf (c :: rest) then some i else findFrom str rest (i + 1)

/-- The call `s.find(str, pos)`: the first position `p ≥ pos` with `str`
occurring at `p`; `npos` (here `none`) when there is none, in particular when
`pos > s.size()`. -/
def find (s str : Str) (pos : Nat) : Option Nat :=
  if pos ≤ s.length then findFrom str (s.drop pos) pos else none

/-- The call `s.substr(pos)`. It is only used with `pos ≤ s.size()`. -/
def substr (s : Str) (pos : Nat) : Str := s.drop pos

/-- The call `s.substr(pos, n)`. It is only used with `pos ≤ s.size()`. -/
def substrN (s : Str) (pos n : Nat) : Str := (s.drop pos).take n

/-- Text written by `ret << n` for a `size_t`: the decimal numeral of `n`. -/
def decimal (n : Nat) : Str := Nat.toDigits 10 n

/-! ## The database client -/

/-- Modelled from the spec: the enumeration `ClientType` is declared in
`DbClient.h`, which is not part of the sources at hand. The three dialects the
code names are kept, and `Other` stands for any value that is none of them (the
final `else` of `replaceSqlPlaceHolder`). -/
inductive ClientType
  | PostgreSQL
  | Mysql
  | Sqlite3
  | Other
  deriving DecidableEq, Repr

/-! ## `Mapper::replaceSqlPlaceHolder` (Mapper.h 1455-1503) -/

/-- The `do ... while (1)` loop of the PostgreSQL branch (lines 1466-1478).
The state is `startPos`, the counter `phCount` (a `size_t`, so `phCount++`
wraps) and the text streamed into `ret` so far. Each unit of `fuel` pays for one
iteration; `none` means the budget ran out before the loop returned. -/
def replaceNumbered (sqlStr holderStr : Str) : Nat → Nat → Nat → Str → Option Str
  | 0, _, _, _ => none
  | fuel + 1, startPos, phCount, ret =>
    match find sqlStr holderStr startPos with
    | none => some (ret ++ substr sqlStr startPos)
    | some pos =>
      replaceNumbered sqlStr holderStr fuel (pos + holderStr.length)
        ((phCount + 1) % sizeModulus)
        (ret ++ substrN sqlStr startPos (pos - startPos) ++ "$".toList ++ decimal phCount)

/-- The `do ... while (1)` loop of the Mysql/Sqlite3 branch (lines 1486-1497). -/
def replaceGeneric (sqlStr holderStr : Str) : Nat → Nat → Str → Option Str
  | 0, _, _ => none
  | fuel + 1, startPos, ret =>
    match find sqlStr holderStr startPos with
    | none => some (ret ++ substr sqlStr startPos)
    | some pos =>
      replaceGeneric sqlStr holderStr fuel (pos + holderStr.length)
        (ret ++ substrN sqlStr startPos (pos - startPos) ++ "?".toList)

/-- `replaceSqlPlaceHolder(sqlStr, holderStr)` run with a budget of `fuel` loop
iterations, for a client of dialect `type`. -/
def replaceSqlPlaceHolderFuel (fuel : Nat) (type : ClientType) (sqlStr holderStr : Str) :
    Option Str :=
  if type = ClientType.PostgreSQL then
    replaceNumbered sqlStr holderStr fuel 0 1 []
  else if type = ClientType.Mysql ∨ type = ClientType.Sqlite3 then
    replaceGeneric sqlStr holderStr fuel 0 []
  else
    some sqlStr

/-- `replaceSqlPlaceHolder(sqlStr, holderStr)` with the budget `sqlStr.size() + 1`,
which is enough whenever the placeholder token is not empty (every iteration but
the last consumes at least one character of `sqlStr`). -/
def replaceSqlPlaceHolder (type : ClientType) (sqlStr holderStr : Str) : Option Str :=
  replaceSqlPlaceHolderFuel (sqlStr.length + 1) type sqlStr holderStr


/-! ## Data handed to and received from the client -/

/-- A value written into the binder with `binder << value`. -/
inductive SqlArg
  | size (n : Nat)
  | int (v : Int)
  | text (v : Str)
  | null
  deriving DecidableEq, Repr

/-- Execution mode of a statement (`binder << Mode::Blocking`); statements are
asynchronous unless the blocking mode is requested. -/
inductive Mode
  | NonBlocking
  | Blocking
  deriving DecidableEq, Repr

/-- Exceptions travelling through the error channel: `UnexpectedRows` is built
by the mapper itself, `Failure` is any exception reported by the client. -/
inductive DbException
  | UnexpectedRows (what : Str)
  | Failure (what : Str)
  deriving DecidableEq, Repr

/-- Modelled from the spec: a cell of a result row (`Field.h` is not at hand);
`asSizeT` is what `as<size_t>()` yields for the cell. -/
structure Field where
  asSizeT : Nat

/-- Modelled from the spec: a result row, "a mapping from column name to a
typed, nullable cell value" (`Row.h` is not at hand); `column name` is
`row[name]`. -/
structure Row where
  column : Str → Field

/-- Modelled from the spec: a `Result` (`Result.h` is not at hand), "an ordered
sequence of rows" that "carries row count, and for insert operations on
auto-increment-key backends, the generated key value". -/
structure Result where
  rows : List Row
  affectedRows : Nat
  insertId : Nat

/-- What the client answers to one submitted statement: "exactly one of
success with Result, failure with error". -/
inductive DbOutcome
  | result (r : Result)
  | failure (e : DbException)

/-- Modelled from the spec: the database client (`DbClient.h` is not at hand):
its dialect and its answer to a statement with ordered arguments. -/
structure DbClient where
  type : ClientType
  exec : Str → List SqlArg → DbOutcome

/-- Modelled from the spec: a `Criteria` (`Criteria.h` is not at hand), either
empty ("renders falsy/absent") or a rendered fragment with positional
placeholders together with its bound values in left-to-right order. -/
inductive Criteria
  | empty
  | cond (fragment : Str) (values : List SqlArg)
  deriving DecidableEq, Repr

/-- The conversion `if (criteria)`. -/
def Criteria.toBool : Criteria → Bool
  | .empty => false
  | .cond _ _ => true

/-- The call `criteria.criteriaString()`. -/
def Criteria.criteriaString : Criteria → Str
  | .empty => []
  | .cond fragment _ => fragment

/-- The call `criteria.outputArgs(binder)`: appends the bound values. -/
def Criteria.outputArgs : Criteria → List SqlArg → List SqlArg
  | .empty, binder => binder
  | .cond _ values, binder => binder ++ values

/-! ## The mapped entity type -/

/-- The two shapes of `T::primaryKeyName` the overloads of
`makePrimaryKeyCriteria` select on: `const std::string` and
`const std::vector<std::string>`. -/
inductive PrimaryKeyName
  | single (name : Str)
  | composite (names : List Str)
  deriving DecidableEq, Repr

/-- A value of `TraitsPKType`: a scalar, or a `std::tuple` given by its
components in index order. -/
inductive PrimaryKeyValue
  | scalar (v : SqlArg)
  | tuple (components : List SqlArg)
  deriving DecidableEq, Repr

/-- What `Mapper<T>` consumes from the model type `T` (the model classes are
generated code, not at hand). -/
structure Model (T : Type) where
  tableName : Str
  /-- The test `std::is_same<typename T::PrimaryKeyType, void>::value`. -/
  primaryKeyIsVoid : Bool
  primaryKeyName : PrimaryKeyName
  /-- The call `T::insertColumns()`. -/
  insertColumns : List Str
  /-- The call `obj.updateColumns()`. -/
  updateColumns : T → List Str
  /-- Values appended by `obj.outputArgs(binder)`. -/
  outputArgs : T → List SqlArg
  /-- Values appended by `obj.updateArgs(binder)`. -/
  updateArgs : T → List SqlArg
  /-- The call `obj.getPrimaryKey()`. -/
  getPrimaryKey : T → PrimaryKeyValue
  /-- The constructor `T(row)`. -/
  fromRow : Row → T
  /-- The object after `obj.updateId(id)`. -/
  updateId : T → Nat → T
  /-- The call `T::getColumnName(index)`. -/
  getColumnName : Nat → Str

/-- The sort order of `orderBy`. -/
inductive SortOrder
  | ASC
  | DESC
  deriving DecidableEq, Repr

/-! ## The mapper and its call-state (Mapper.h 403-415) -/

/-- A `Mapper<T>` object: the client handle and the four data members
`_limit`, `_offset`, `_orderbyString`, `_forUpdate` with their initialisers. -/
structure Mapper where
  _client : DbClient
  _limit : Nat := 0
  _offset : Nat := 0
  _orderbyString : Str := []
  _forUpdate : Bool := false

/-- The constructor `Mapper(const DbClientPtr &client)` (line 82). -/
def Mapper.new (client : DbClient) : Mapper := { _client := client }

/-- The private member `clear()` (lines 409-415). -/
def Mapper.clear (m : Mapper) : Mapper :=
  { m with _limit := 0, _offset := 0, _orderbyString := [], _forUpdate := false }

/-- A computation that may stop at a failed `assert`. Assertions are taken as
compiled in. -/
inductive Run (α : Type)
  | finished (a : α)
  | assertFailed
  deriving DecidableEq, Repr

/-- Sequencing of computations that may stop at a failed `assert`. -/
def Run.andThen {α β : Type} : Run α → (α → Run β) → Run β
  | .finished a, f => f a
  | .assertFailed, _ => .assertFailed

/-- The modifier `limit(size_t limit)` (lines 1405-1411). -/
def Mapper.limit (m : Mapper) (limit : Nat) : Run Mapper :=
  if limit > 0 then .finished { m with _limit := limit } else .assertFailed

/-- The modifier `offset(size_t offset)` (lines 1412-1417). -/
def Mapper.offset (m : Mapper) (offset : Nat) : Run Mapper :=
  .finished { m with _offset := offset }

/-- The characters of `s.c_str()` as read by a `%s` conversion: up to the first
NUL character. -/
def cStr (s : Str) : Str := s.takeWhile (fun c => c != Char.ofNat 0)

/-- The modifier `orderBy(const std::string &colName, const SortOrder &order)`
(lines 1418-1441); `utils::formattedString(" order by %s", colName.c_str())`
is the format text with `%s` replaced by the C string. -/
def Mapper.orderBy (m : Mapper) (colName : Str) (order : SortOrder) : Run Mapper :=
  if m._orderbyString.isEmpty then
    let s := " order by ".toList ++ cStr colName
    .finished { m with _orderbyString := if order = SortOrder.DESC then s ++ " desc".toList else s }
  else
    let s := m._orderbyString ++ ",".toList ++ colName
    .finished { m with _orderbyString := if order = SortOrder.DESC then s ++ " desc".toList else s }

/-- The modifier `orderBy(size_t colIndex, const SortOrder &order)`
(lines 1442-1448). -/
def Mapper.orderByIndex {T : Type} (model : Model T) (m : Mapper) (colIndex : Nat)
    (order : SortOrder) : Run Mapper :=
  let colName := model.getColumnName colIndex
  if colName.isEmpty then .assertFailed else m.orderBy colName order

/-- The modifier `forUpdate()` (lines 1449-1454). -/
def Mapper.forUpdate (m : Mapper) : Run Mapper :=
  .finished { m with _forUpdate := true }

/-- One call of a fluent modifier. -/
inductive Modifier
  | limit (l : Nat)
  | offset (o : Nat)
  | orderBy (colName : Str) (order : SortOrder)
  | forUpdate
  deriving DecidableEq, Repr

/-- Effect of one modifier call on the mapper. -/
def Mapper.modify (m : Mapper) : Modifier → Run Mapper
  | .limit l => m.limit l
  | .offset o => m.offset o
  | .orderBy c o => m.orderBy c o
  | .forUpdate => m.forUpdate

/-- A chain of modifier calls `m.a().b()...`, left to right. -/
def Mapper.chain (m : Mapper) : List Modifier → Run Mapper
  | [] => .finished m
  | x :: xs => (m.modify x).andThen (fun m1 => Mapper.chain m1 xs)

/-! ## Primary-key clause and binding (Mapper.h 416-474) -/

/-- The `for` loop of the composite `makePrimaryKeyCriteria` (lines 432-440):
`n` iterations remain, `i` is the loop index, and `size() - 1` is computed in
`size_t`. -/
def makePrimaryKeyCriteriaLoop (names : List Str) : Nat → Nat → Str → Str
  | 0, _, sql => sql
  | n + 1, i, sql =>
    let sql := sql ++ names.getD i [] ++ " = $?".toList
    let sql := if i < sizeSub names.length 1 then sql ++ " and ".toList else sql
    makePrimaryKeyCriteriaLoop names n (i + 1) sql

/-- Both overloads of `makePrimaryKeyCriteria(std::string &sql)`
(lines 416-441); the result is the new value of `sql`. -/
def makePrimaryKeyCriteria (primaryKeyName : PrimaryKeyName) (sql : Str) : Str :=
  match primaryKeyName with
  | .single name => sql ++ " where ".toList ++ name ++ " = $?".toList
  | .composite names =>
    makePrimaryKeyCriteriaLoop names names.length 0 (sql ++ " where ".toList)

/-- The template `tupleToBinder<TP, N>` (lines 460-474) on the tuple `t`:
`N == 1` binds `std::get<0>(t)`, `N > 1` first recurses with `N - 1` and then
binds `std::get<N - 1>(t)`; for `N == 0` no overload is enabled (`none`). -/
def tupleToBinder (t : List SqlArg) : Nat → List SqlArg → Option (List SqlArg)
  | 0, _ => none
  | 1, binder => (t.get? 0).map (fun v => binder ++ [v])
  | n + 2, binder =>
    (tupleToBinder t (n + 1) binder).bind (fun b => (t.get? (n + 1)).map (fun v => b ++ [v]))

/-- Both overloads of `outputPrimeryKeyToBinder` (lines 442-458); `none` when
the key value does not have the shape the selected overload expects, in which
case the instantiation does not compile. -/
def outputPrimeryKeyToBinder (primaryKeyName : PrimaryKeyName) (pk : PrimaryKeyValue)
    (binder : List SqlArg) : Option (List SqlArg) :=
  match primaryKeyName, pk with
  | .single _, .scalar v => some (binder ++ [v])
  | .composite _, .tuple components => tupleToBinder components components.length binder
  | _, _ => none

/-! ## Statement texts -/

/-- The assignment `sql[sql.length() - 1] = c`. -/
def setLast (sql : Str) (c : Char) : Str := sql.set (sql.length - 1) c

/-- Text built by `findByPrimaryKey` before translation (lines 487-493,
525-531, 560-566). -/
def findByPrimaryKeyNeutral {T : Type} (model : Model T) (m : Mapper) : Str :=
  let sql := "select * from ".toList ++ model.tableName
  let sql := makePrimaryKeyCriteria model.primaryKeyName sql
  if m._forUpdate then sql ++ " for update".toList else sql

/-- The text of `sql` and the flag `hasParameters` of `findOne`/`findBy` when
the test `if (hasParameters)` is reached (lines 609-628, 666-685, 721-740,
792-811, 844-863, 892-911). -/
def selectNeutral (tableName : Str) (m : Mapper) (criteria : Criteria) : Str × Bool :=
  let sql := "select * from ".toList ++ tableName
  let hasParameters := false
  let (sql, hasParameters) :=
    if criteria.toBool then (sql ++ " where ".toList ++ criteria.criteriaString, true)
    else (sql, hasParameters)
  let sql := sql ++ m._orderbyString
  let (sql, hasParameters) :=
    if m._limit > 0 then (sql ++ " limit $?".toList, true) else (sql, hasParameters)
  let (sql, hasParameters) :=
    if m._offset > 0 then (sql ++ " offset $?".toList, true) else (sql, hasParameters)
  (sql, hasParameters)

/-- The statement text `findOne`/`findBy` hand to the client (up to lines 634,
691, 746, 817, 869, 917). -/
def selectSql (tableName : Str) (m : Mapper) (criteria : Criteria) : Option Str :=
  let (sql, hasParameters) := selectNeutral tableName m criteria
  let sql := if hasParameters then replaceSqlPlaceHolder m._client.type sql "$?".toList else some sql
  sql.map (fun sql => if m._forUpdate then sql ++ " for update".toList else sql)

/-- The values `findOne`/`findBy` write into the binder (lines 638-643 and the
five copies). -/
def selectArgs (m : Mapper) (criteria : Criteria) : List SqlArg :=
  let binder := []
  let binder := if criteria.toBool then criteria.outputArgs binder else binder
  let binder := if m._limit > 0 then binder ++ [SqlArg.size m._limit] else binder
  if m._offset ≠ 0 then binder ++ [SqlArg.size m._offset] else binder

/-- The statement text of `count` (lines 959-966, 985-992, 1007-1014). -/
def countSql (tableName : Str) (m : Mapper) (criteria : Criteria) : Option Str :=
  let sql := "select count(*) from ".toList ++ tableName
  if criteria.toBool then
    replaceSqlPlaceHolder m._client.type (sql ++ " where ".toList ++ criteria.criteriaString)
      "$?".toList
  else some sql

/-- Text built by `insert` before translation (lines 1034-1052, 1079-1097,
1122-1140). -/
def insertNeutral (tableName : Str) (insertColumns : List Str) (type : ClientType) : Str :=
  let sql := "insert into ".toList ++ tableName ++ " (".toList
  let sql := insertColumns.foldl (fun sql colName => sql ++ colName ++ ",".toList) sql
  let sql := setLast sql ')'
  let sql := sql ++ " values (".toList
  let sql := (List.range insertColumns.length).foldl (fun sql _ => sql ++ "$?,".toList) sql
  let sql := setLast sql ')'
  if type = ClientType.PostgreSQL then sql ++ " returning *".toList else sql

/-- Text built by `update` before translation (lines 1171-1181, 1203-1213,
1228-1238). -/
def updateNeutral (tableName : Str) (updateColumns : List Str)
    (primaryKeyName : PrimaryKeyName) : Str :=
  let sql := "update ".toList ++ tableName ++ " set ".toList
  let sql := updateColumns.foldl (fun sql colName => sql ++ colName ++ " = $?,".toList) sql
  let sql := setLast sql ' '
  makePrimaryKeyCriteria primaryKeyName sql

/-- Text built by `deleteOne` before translation (lines 1259-1264, 1285-1289,
1303-1307). -/
def deleteOneNeutral (tableName : Str) (primaryKeyName : PrimaryKeyName) : Str :=
  let sql := "delete from ".toList ++ tableName
  let sql := sql ++ " ".toList
  makePrimaryKeyCriteria primaryKeyName sql

/-- The statement text of `deleteBy` (lines 1327-1335, 1358-1366, 1383-1390). -/
def deleteBySql (tableName : Str) (m : Mapper) (criteria : Criteria) : Option Str :=
  let sql := "delete from ".toList ++ tableName
  if criteria.toBool then
    replaceSqlPlaceHolder m._client.type (sql ++ " where ".toList ++ criteria.criteriaString)
      "$?".toList
  else some sql

/-! ## Delivery of the answer in the three calling conventions -/

/-- One statement as handed to the client. -/
structure Submission where
  sql : Str
  args : List SqlArg
  mode : Mode
  deriving DecidableEq, Repr

/-- One invocation of a caller-supplied callback: the result callback `rcb` or
the exception callback `ecb`. -/
inductive Call (α : Type)
  | rcb (v : α)
  | ecb (e : DbException)
  deriving DecidableEq, Repr

/-- The shared state of a `std::promise`. -/
inductive Promise (α : Type)
  | pending
  | value (v : α)
  | exception (e : DbException)
  deriving DecidableEq, Repr

/-- The call `prom->set_value(v)`; a promise that is already satisfied keeps
its state. -/
def Promise.set_value {α : Type} : Promise α → α → Promise α
  | .pending, v => .value v
  | p, _ => p

/-- The call `prom->set_exception(e)`; a promise that is already satisfied
keeps its state. -/
def Promise.set_exception {α : Type} : Promise α → DbException → Promise α
  | .pending, e => .exception e
  | p, _ => p

/-- What a blocking operation hands back: the returned value or the exception
raised at the call site. -/
abbrev Blocking (α : Type) := Run (Except DbException α)

/-- What a callback operation does: the callback invocations, in order. -/
abbrev Callbacks (α : Type) := Run (List (Call α))

/-- What a future operation leaves in the promise behind the returned future. -/
abbrev Future (α : Type) := Run (Promise α)

/-- Result of calling a mapper operation: the instantiation is rejected by the
compiler, the placeholder loop exhausts its budget, or the statement is handed
to the client, the mapper is left in state `after` and the answer is
delivered. -/
inductive Outcome (δ : Type)
  | notCompiled
  | stuck
  | ran (submitted : Submission) (after : Mapper) (delivery : δ)

/-- The statement handed to the client, if the operation got that far. -/
def Outcome.submitted? {δ : Type} : Outcome δ → Option Submission
  | .ran s _ _ => some s
  | _ => none

/-- The mapper after the operation, if the operation got under way. -/
def Outcome.after? {δ : Type} : Outcome δ → Option Mapper
  | .ran _ a _ => some a
  | _ => none

/-- What the operation delivers, if the operation got under way. -/
def Outcome.delivery? {δ : Type} : Outcome δ → Option δ
  | .ran _ _ d => some d
  | _ => none

/-- The binder: `sql` (absent when the placeholder loop did not return) and
`args` (absent when binding the key is ill-typed) are handed to the client of
the mapper in state `after`, and `handler` delivers the answer. -/
def execSqlBinder {δ : Type} (after : Mapper) (mode : Mode) (sql : Option Str)
    (args : Option (List SqlArg)) (handler : DbOutcome → δ) : Outcome δ :=
  match sql, args with
  | none, _ => .stuck
  | some _, none => .notCompiled
  | some sql, some args => .ran ⟨sql, args, mode⟩ after (handler (after._client.exec sql args))

/-- Blocking delivery of a single row (lines 496-513, 635-658): `exec` raises
the client's exception; zero rows and more than one row raise
`UnexpectedRows`; one row yields `T(r[0])`. -/
def singleRowBlocking {T : Type} (model : Model T) : DbOutcome → Blocking T
  | .failure e => .finished (.error e)
  | .result r =>
    match r.rows with
    | [] => .finished (.error (.UnexpectedRows "0 rows found".toList))
    | _ :: _ :: _ => .finished (.error (.UnexpectedRows "Found more than one row".toList))
    | [row] => .finished (.ok (model.fromRow row))

/-- Callback delivery of a single row (lines 536-550, 700-714). -/
def singleRowCallback {T : Type} (model : Model T) : DbOutcome → Callbacks T
  | .failure e => .finished [.ecb e]
  | .result r =>
    match r.rows with
    | [] => .finished [.ecb (.UnexpectedRows "0 rows found".toList)]
    | _ :: _ :: _ => .finished [.ecb (.UnexpectedRows "Found more than one row".toList)]
    | [row] => .finished [.rcb (model.fromRow row)]

/-- Future delivery of a single row (lines 572-603, 755-786). -/
def singleRowFuture {T : Type} (model : Model T) : DbOutcome → Future T
  | .failure e => .finished (Promise.pending.set_exception e)
  | .result r =>
    match r.rows with
    | [] => .finished (Promise.pending.set_exception (.UnexpectedRows "0 rows found".toList))
    | _ :: _ :: _ =>
      .finished (Promise.pending.set_exception (.UnexpectedRows "Found more than one row".toList))
    | [row] => .finished (Promise.pending.set_value (model.fromRow row))

/-- Blocking delivery of all rows (lines 818-837). -/
def multipleRowsBlocking {T : Type} (model : Model T) : DbOutcome → Blocking (List T)
  | .failure e => .finished (.error e)
  | .result r => .finished (.ok (r.rows.foldl (fun ret row => ret ++ [model.fromRow row]) []))

/-- Callback delivery of all rows (lines 878-886). -/
def multipleRowsCallback {T : Type} (model : Model T) : DbOutcome → Callbacks (List T)
  | .failure e => .finished [.ecb e]
  | .result r => .finished [.rcb (r.rows.foldl (fun ret row => ret ++ [model.fromRow row]) [])]

/-- Future delivery of all rows (lines 926-938). -/
def multipleRowsFuture {T : Type} (model : Model T) : DbOutcome → Future (List T)
  | .failure e => .finished (Promise.pending.set_exception e)
  | .result r =>
    .finished (Promise.pending.set_value
      (r.rows.foldl (fun ret row => ret ++ [model.fromRow row]) []))

/-- Blocking delivery of `count` (lines 968-978): `assert(r.size() == 1)`, then
`r[0]["count"].as<size_t>()`. -/
def countBlocking : DbOutcome → Blocking Nat
  | .failure e => .finished (.error e)
  | .result r =>
    match r.rows with
    | [row] => .finished (.ok (row.column "count".toList).asSizeT)
    | _ => .assertFailed

/-- Callback delivery of `count` (lines 997-1001). -/
def countCallbackDelivery : DbOutcome → Callbacks Nat
  | .failure e => .finished [.ecb e]
  | .result r =>
    match r.rows with
    | [row] => .finished [.rcb (row.column "count".toList).asSizeT]
    | _ => .assertFailed

/-- Future delivery of `count` (lines 1020-1028). -/
def countFutureDelivery : DbOutcome → Future Nat
  | .failure e => .finished (Promise.pending.set_exception e)
  | .result r =>
    match r.rows with
    | [row] => .finished (Promise.pending.set_value (row.column "count".toList).asSizeT)
    | _ => .assertFailed

/-- Blocking delivery of `insert` (lines 1054-1071); the value is the object
`obj` after the call. -/
def insertBlocking {T : Type} (model : Model T) (type : ClientType) (obj : T) :
    DbOutcome → Blocking T
  | .failure e => .finished (.error e)
  | .result r =>
    if type = ClientType.PostgreSQL then
      match r.rows with
      | [row] => .finished (.ok (model.fromRow row))
      | _ => .assertFailed
    else .finished (.ok (model.updateId obj r.insertId))

/-- Callback delivery of `insert` (lines 1101-1116). -/
def insertCallbackDelivery {T : Type} (model : Model T) (type : ClientType) (obj : T) :
    DbOutcome → Callbacks T
  | .failure e => .finished [.ecb e]
  | .result r =>
    if type = ClientType.PostgreSQL then
      match r.rows with
      | [row] => .finished [.rcb (model.fromRow row)]
      | _ => .assertFailed
    else .finished [.rcb (model.updateId obj r.insertId)]

/-- Future delivery of `insert` (lines 1145-1163). -/
def insertFutureDelivery {T : Type} (model : Model T) (type : ClientType) (obj : T) :
    DbOutcome → Future T
  | .failure e => .finished (Promise.pending.set_exception e)
  | .result r =>
    if type = ClientType.PostgreSQL then
      match r.rows with
      | [row] => .finished (Promise.pending.set_value (model.fromRow row))
      | _ => .assertFailed
    else .finished (Promise.pending.set_value (model.updateId obj r.insertId))

/-- Blocking delivery of the affected-row count (lines 1184-1193, 1267-1275,
1337-1348). -/
def affectedRowsBlocking : DbOutcome → Blocking Nat
  | .failure e => .finished (.error e)
  | .result r => .finished (.ok r.affectedRows)

/-- Callback delivery of the affected-row count (lines 1219-1220, 1294-1295,
1373-1374). -/
def affectedRowsCallback : DbOutcome → Callbacks Nat
  | .failure e => .finished [.ecb e]
  | .result r => .finished [.rcb r.affectedRows]

/-- Future delivery of the affected-row count (lines 1245-1250, 1313-1318,
1397-1402). -/
def affectedRowsFuture : DbOutcome → Future Nat
  | .failure e => .finished (Promise.pending.set_exception e)
  | .result r => .finished (Promise.pending.set_value r.affectedRows)

/-! ## The terminal operations

Every operation is given in its three calling conventions: the blocking member,
the overload taking the callbacks `rcb` and `ecb` (suffix `Callback`), and the
member returning a `std::future`. A `static_assert` on the primary-key type is
a test made before anything else. -/

/-- The member `findByPrimaryKey` (lines 480-514). -/
def Mapper.findByPrimaryKey {T : Type} (model : Model T) (m : Mapper) (key : PrimaryKeyValue) :
    Outcome (Blocking T) :=
  if model.primaryKeyIsVoid then .notCompiled
  else
    let sql := replaceSqlPlaceHolder m._client.type (findByPrimaryKeyNeutral model m) "$?".toList
    let m := m.clear
    execSqlBinder m Mode.Blocking sql (outputPrimeryKeyToBinder model.primaryKeyName key [])
      (singleRowBlocking model)

/-- The member `findByPrimaryKeyCallback` (lines 516-551). -/
def Mapper.findByPrimaryKeyCallback {T : Type} (model : Model T) (m : Mapper) (key : PrimaryKeyValue) :
    Outcome (Callbacks T) :=
  if model.primaryKeyIsVoid then .notCompiled
  else
    let sql := replaceSqlPlaceHolder m._client.type (findByPrimaryKeyNeutral model m) "$?".toList
    let m := m.clear
    execSqlBinder m Mode.NonBlocking sql (outputPrimeryKeyToBinder model.primaryKeyName key [])
      (singleRowCallback model)

/-- The member `findFutureByPrimaryKey` (lines 553-604). -/
def Mapper.findFutureByPrimaryKey {T : Type} (model : Model T) (m : Mapper) (key : PrimaryKeyValue) :
    Outcome (Future T) :=
  if model.primaryKeyIsVoid then .notCompiled
  else
    let sql := replaceSqlPlaceHolder m._client.type (findByPrimaryKeyNeutral model m) "$?".toList
    let m := m.clear
    execSqlBinder m Mode.NonBlocking sql (outputPrimeryKeyToBinder model.primaryKeyName key [])
      (singleRowFuture model)

/-- The member `findOne` (lines 606-659). -/
def Mapper.findOne {T : Type} (model : Model T) (m : Mapper) (criteria : Criteria) :
    Outcome (Blocking T) :=
  let sql := selectSql model.tableName m criteria
  let args := selectArgs m criteria
  let m := m.clear
  execSqlBinder m Mode.Blocking sql (some args) (singleRowBlocking model)

/-- The member `findOneCallback` (lines 661-715). -/
def Mapper.findOneCallback {T : Type} (model : Model T) (m : Mapper) (criteria : Criteria) :
    Outcome (Callbacks T) :=
  let sql := selectSql model.tableName m criteria
  let args := selectArgs m criteria
  let m := m.clear
  execSqlBinder m Mode.NonBlocking sql (some args) (singleRowCallback model)

/-- The member `findFutureOne` (lines 717-787). -/
def Mapper.findFutureOne {T : Type} (model : Model T) (m : Mapper) (criteria : Criteria) :
    Outcome (Future T) :=
  let sql := selectSql model.tableName m criteria
  let args := selectArgs m criteria
  let m := m.clear
  execSqlBinder m Mode.NonBlocking sql (some args) (singleRowFuture model)

/-- The member `findBy` (lines 788-838). -/
def Mapper.findBy {T : Type} (model : Model T) (m : Mapper) (criteria : Criteria) :
    Outcome (Blocking (List T)) :=
  let sql := selectSql model.tableName m criteria
  let args := selectArgs m criteria
  let m := m.clear
  execSqlBinder m Mode.Blocking sql (some args) (multipleRowsBlocking model)

/-- The member `findByCallback` (lines 839-887). -/
def Mapper.findByCallback {T : Type} (model : Model T) (m : Mapper) (criteria : Criteria) :
    Outcome (Callbacks (List T)) :=
  let sql := selectSql model.tableName m criteria
  let args := selectArgs m criteria
  let m := m.clear
  execSqlBinder m Mode.NonBlocking sql (some args) (multipleRowsCallback model)

/-- The member `findFutureBy` (lines 888-939). -/
def Mapper.findFutureBy {T : Type} (model : Model T) (m : Mapper) (criteria : Criteria) :
    Outcome (Future (List T)) :=
  let sql := selectSql model.tableName m criteria
  let args := selectArgs m criteria
  let m := m.clear
  execSqlBinder m Mode.NonBlocking sql (some args) (multipleRowsFuture model)

/-- The member `findAll` (lines 940-944): `findBy` with `Criteria()`. -/
def Mapper.findAll {T : Type} (model : Model T) (m : Mapper) : Outcome (Blocking (List T)) :=
  m.findBy model Criteria.empty

/-- The member `findAllCallback` (lines 945-950): `findByCallback` with `Criteria()`. -/
def Mapper.findAllCallback {T : Type} (model : Model T) (m : Mapper) : Outcome (Callbacks (List T)) :=
  m.findByCallback model Criteria.empty

/-- The member `findFutureAll` (lines 951-955): `findFutureBy` with `Criteria()`. -/
def Mapper.findFutureAll {T : Type} (model : Model T) (m : Mapper) : Outcome (Future (List T)) :=
  m.findFutureBy model Criteria.empty

/-- The member `count` (lines 956-979). -/
def Mapper.count {T : Type} (model : Model T) (m : Mapper) (criteria : Criteria) :
    Outcome (Blocking Nat) :=
  let sql := countSql model.tableName m criteria
  let m := m.clear
  let args := if criteria.toBool then criteria.outputArgs [] else []
  execSqlBinder m Mode.Blocking sql (some args) countBlocking

/-- The member `countCallback` (lines 980-1002). -/
def Mapper.countCallback {T : Type} (model : Model T) (m : Mapper) (criteria : Criteria) :
    Outcome (Callbacks Nat) :=
  let sql := countSql model.tableName m criteria
  let m := m.clear
  let args := if criteria.toBool then criteria.outputArgs [] else []
  execSqlBinder m Mode.NonBlocking sql (some args) countCallbackDelivery

/-- The member `countFuture` (lines 1003-1029). -/
def Mapper.countFuture {T : Type} (model : Model T) (m : Mapper) (criteria : Criteria) :
    Outcome (Future Nat) :=
  let sql := countSql model.tableName m criteria
  let m := m.clear
  let args := if criteria.toBool then criteria.outputArgs [] else []
  execSqlBinder m Mode.NonBlocking sql (some args) countFutureDelivery

/-- The member `insert` (lines 1030-1072). -/
def Mapper.insert {T : Type} (model : Model T) (m : Mapper) (obj : T) : Outcome (Blocking T) :=
  let m := m.clear
  let sql := replaceSqlPlaceHolder m._client.type
    (insertNeutral model.tableName model.insertColumns m._client.type) "$?".toList
  execSqlBinder m Mode.Blocking sql (some (model.outputArgs obj))
    (insertBlocking model m._client.type obj)

/-- The member `insertCallback` (lines 1073-1117). -/
def Mapper.insertCallback {T : Type} (model : Model T) (m : Mapper) (obj : T) : Outcome (Callbacks T) :=
  let m := m.clear
  let sql := replaceSqlPlaceHolder m._client.type
    (insertNeutral model.tableName model.insertColumns m._client.type) "$?".toList
  execSqlBinder m Mode.NonBlocking sql (some (model.outputArgs obj))
    (insertCallbackDelivery model m._client.type obj)

/-- The member `insertFuture` (lines 1118-1164). -/
def Mapper.insertFuture {T : Type} (model : Model T) (m : Mapper) (obj : T) : Outcome (Future T) :=
  let m := m.clear
  let sql := replaceSqlPlaceHolder m._client.type
    (insertNeutral model.tableName model.insertColumns m._client.type) "$?".toList
  execSqlBinder m Mode.NonBlocking sql (some (model.outputArgs obj))
    (insertFutureDelivery model m._client.type obj)

/-- The member `update` (lines 1165-1194). -/
def Mapper.update {T : Type} (model : Model T) (m : Mapper) (obj : T) : Outcome (Blocking Nat) :=
  if model.primaryKeyIsVoid then .notCompiled
  else
    let m := m.clear
    let sql := replaceSqlPlaceHolder m._client.type
      (updateNeutral model.tableName (model.updateColumns obj) model.primaryKeyName) "$?".toList
    execSqlBinder m Mode.Blocking sql
      (outputPrimeryKeyToBinder model.primaryKeyName (model.getPrimaryKey obj)
        (model.updateArgs obj))
      affectedRowsBlocking

/-- The member `updateCallback` (lines 1195-1221). -/
def Mapper.updateCallback {T : Type} (model : Model T) (m : Mapper) (obj : T) : Outcome (Callbacks Nat) :=
  if model.primaryKeyIsVoid then .notCompiled
  else
    let m := m.clear
    let sql := replaceSqlPlaceHolder m._client.type
      (updateNeutral model.tableName (model.updateColumns obj) model.primaryKeyName) "$?".toList
    execSqlBinder m Mode.NonBlocking sql
      (outputPrimeryKeyToBinder model.primaryKeyName (model.getPrimaryKey obj)
        (model.updateArgs obj))
      affectedRowsCallback

/-- The member `updateFuture` (lines 1222-1251). -/
def Mapper.updateFuture {T : Type} (model : Model T) (m : Mapper) (obj : T) : Outcome (Future Nat) :=
  if model.primaryKeyIsVoid then .notCompiled
  else
    let m := m.clear
    let sql := replaceSqlPlaceHolder m._client.type
      (updateNeutral model.tableName (model.updateColumns obj) model.primaryKeyName) "$?".toList
    execSqlBinder m Mode.NonBlocking sql
      (outputPrimeryKeyToBinder model.primaryKeyName (model.getPrimaryKey obj)
        (model.updateArgs obj))
      affectedRowsFuture

/-- The member `deleteOne` (lines 1253-1276). -/
def Mapper.deleteOne {T : Type} (model : Model T) (m : Mapper) (obj : T) : Outcome (Blocking Nat) :=
  if model.primaryKeyIsVoid then .notCompiled
  else
    let m := m.clear
    let sql := replaceSqlPlaceHolder m._client.type
      (deleteOneNeutral model.tableName model.primaryKeyName) "$?".toList
    execSqlBinder m Mode.Blocking sql
      (outputPrimeryKeyToBinder model.primaryKeyName (model.getPrimaryKey obj) [])
      affectedRowsBlocking

/-- The member `deleteOneCallback` (lines 1277-1296). -/
def Mapper.deleteOneCallback {T : Type} (model : Model T) (m : Mapper) (obj : T) : Outcome (Callbacks Nat) :=
  if model.primaryKeyIsVoid then .notCompiled
  else
    let m := m.clear
    let sql := replaceSqlPlaceHolder m._client.type
      (deleteOneNeutral model.tableName model.primaryKeyName) "$?".toList
    execSqlBinder m Mode.NonBlocking sql
      (outputPrimeryKeyToBinder model.primaryKeyName (model.getPrimaryKey obj) [])
      affectedRowsCallback

/-- The member `deleteFutureOne` (lines 1297-1319). -/
def Mapper.deleteFutureOne {T : Type} (model : Model T) (m : Mapper) (obj : T) : Outcome (Future Nat) :=
  if model.primaryKeyIsVoid then .notCompiled
  else
    let m := m.clear
    let sql := replaceSqlPlaceHolder m._client.type
      (deleteOneNeutral model.tableName model.primaryKeyName) "$?".toList
    execSqlBinder m Mode.NonBlocking sql
      (outputPrimeryKeyToBinder model.primaryKeyName (model.getPrimaryKey obj) [])
      affectedRowsFuture

/-- The member `deleteBy` (lines 1321-1349). -/
def Mapper.deleteBy {T : Type} (model : Model T) (m : Mapper) (criteria : Criteria) :
    Outcome (Blocking Nat) :=
  if model.primaryKeyIsVoid then .notCompiled
  else
    let m := m.clear
    let sql := deleteBySql model.tableName m criteria
    let args := if criteria.toBool then criteria.outputArgs [] else []
    execSqlBinder m Mode.Blocking sql (some args) affectedRowsBlocking

/-- The member `deleteByCallback` (lines 1350-1375). -/
def Mapper.deleteByCallback {T : Type} (model : Model T) (m : Mapper) (criteria : Criteria) :
    Outcome (Callbacks Nat) :=
  if model.primaryKeyIsVoid then .notCompiled
  else
    let m := m.clear
    let sql := deleteBySql model.tableName m criteria
    let args := if criteria.toBool then criteria.outputArgs [] else []
    execSqlBinder m Mode.NonBlocking sql (some args) affectedRowsCallback

/-- The member `deleteFutureBy` (lines 1376-1403). -/
def Mapper.deleteFutureBy {T : Type} (model : Model T) (m : Mapper) (criteria : Criteria) :
    Outcome (Future Nat) :=
  if model.primaryKeyIsVoid then .notCompiled
  else
    let m := m.clear
    let sql := deleteBySql model.tableName m criteria
    let args := if criteria.toBool then criteria.outputArgs [] else []
    execSqlBinder m Mode.NonBlocking sql (some args) affectedRowsFuture

/-! ## Vocabulary of the specification

A text with `k` neutral placeholders is a first piece followed by `k` further
pieces, each preceded by the placeholder token; the pieces themselves contain no
placeholder. -/

/-- The neutral placeholder token does not occur in `p`. -/
def PlaceholderFree (p : Str) : Prop := ¬ "$?".toList <:+: p

instance (p : Str) : Decidable (PlaceholderFree p) := by
  unfold PlaceholderFree
  exact inferInstance

/-- The text `p0 $? p1 $? ... $? pk` for `ps = [p1, ..., pk]`. -/
def withNeutralPlaceholders (p0 : Str) (ps : List Str) : Str :=
  p0 ++ (ps.map (fun p => "$?".toList ++ p)).flatten

/-- The text `$n p1 $(n+1) p2 ...` for `ps = [p1, p2, ...]`, the numerals
written in decimal. -/
def numberedFrom : Nat → List Str → Str
  | _, [] => []
  | n, p :: ps => "$".toList ++ decimal n ++ p ++ numberedFrom (n + 1) ps

/-- The text `p0 $1 p1 $2 ... $k pk` for `ps = [p1, ..., pk]`. -/
def withNumberedMarkers (p0 : Str) (ps : List Str) : Str := p0 ++ numberedFrom 1 ps

/-- The text `p0 ? p1 ? ... ? pk` for `ps = [p1, ..., pk]`. -/
def withGenericMarkers (p0 : Str) (ps : List Str) : Str :=
  p0 ++ (ps.map (fun p => "?".toList ++ p)).flatten

/-- The placeholder loop with the marker text `emit` and the counter update
`next` left open; the two loops of `replaceSqlPlaceHolder` are its instances. -/
def replaceWith (emit : Nat → Str) (next : Nat → Nat) (sqlStr holderStr : Str) :
    Nat → Nat → Nat → Str → Option Str
  | 0, _, _, _ => none
  | fuel + 1, startPos, phCount, ret =>
    match find sqlStr holderStr startPos with
    | none => some (ret ++ substr sqlStr startPos)
    | some pos =>
      replaceWith emit next sqlStr holderStr fuel (pos + holderStr.length) (next phCount)
        (ret ++ substrN sqlStr startPos (pos - startPos) ++ emit phCount)

/-- The markers written by `replaceWith` between the pieces `ps`. -/
def markersFrom (emit : Nat → Str) (next : Nat → Nat) : Nat → List Str → Str
  | _, [] => []
  | n, p :: ps => emit n ++ p ++ markersFrom emit next (next n) ps

/-- Splits a text at the placeholder tokens, scanning left to right: the first
piece and the pieces that follow each token. -/
def splitPlaceholders : Str → Str × List Str
  | [] => ([], [])
  | c :: rest =>
    match c, rest with
    | '$', '?' :: tail => ([], (splitPlaceholders tail).1 :: (splitPlaceholders tail).2)
    | c, rest => (c :: (splitPlaceholders rest).1, (splitPlaceholders rest).2)

/-! ## Vocabulary for the outcomes of operations -/

/-- The values of a primary key in binding order. -/
def PrimaryKeyValue.components : PrimaryKeyValue → List SqlArg
  | .scalar v => [v]
  | .tuple components => components

/-- The key value has the shape the primary-key name asks for: a scalar for a
single column, a tuple with at least one component for a column list. -/
def KeyMatches : PrimaryKeyName → PrimaryKeyValue → Bool
  | .single _, .scalar _ => true
  | .composite _, .tuple components => decide (1 ≤ components.length)
  | _, _ => false

/-- The blocking operation returns `v`. -/
def Returns {α : Type} (o : Outcome (Blocking α)) (v : α) : Prop :=
  o.delivery? = some (Run.finished (Except.ok v))

/-- The blocking operation raises `e`. -/
def Raises {α : Type} (o : Outcome (Blocking α)) (e : DbException) : Prop :=
  o.delivery? = some (Run.finished (Except.error e))

/-- The callback operation invokes the result callback with `v`, once, and no
other callback. -/
def CallsResult {α : Type} (o : Outcome (Callbacks α)) (v : α) : Prop :=
  o.delivery? = some (Run.finished [Call.rcb v])

/-- The callback operation invokes the exception callback with `e`, once, and
no other callback. -/
def CallsException {α : Type} (o : Outcome (Callbacks α)) (e : DbException) : Prop :=
  o.delivery? = some (Run.finished [Call.ecb e])

/-- The future of the operation resolves to `v`. -/
def ResolvesTo {α : Type} (o : Outcome (Future α)) (v : α) : Prop :=
  o.delivery? = some (Run.finished (Promise.value v))

/-- The future of the operation is set to the exception `e`. -/
def Rejects {α : Type} (o : Outcome (Future α)) (e : DbException) : Prop :=
  o.delivery? = some (Run.finished (Promise.exception e))

/-- The three calling conventions of one operation deliver equivalent
outcomes: the same value, the same error, a failed assertion alike, and
nothing alike. -/
def ConventionsAgree {α : Type} (b : Outcome (Blocking α)) (c : Outcome (Callbacks α))
    (f : Outcome (Future α)) : Prop :=
  (∀ v, (Returns b v ↔ CallsResult c v) ∧ (CallsResult c v ↔ ResolvesTo f v))
    ∧ (∀ e, (Raises b e ↔ CallsException c e) ∧ (CallsException c e ↔ Rejects f e))
    ∧ ((b.delivery? = some Run.assertFailed ↔ c.delivery? = some Run.assertFailed)
      ∧ (c.delivery? = some Run.assertFailed ↔ f.delivery? = some Run.assertFailed))
    ∧ ((b.delivery? = none ↔ c.delivery? = none) ∧ (c.delivery? = none ↔ f.delivery? = none))

/-- The three deliveries of one answer agree. -/
def DeliveriesAgree {α : Type} (b : Blocking α) (c : Callbacks α) (f : Future α) : Prop :=
  (∃ v, b = Run.finished (Except.ok v) ∧ c = Run.finished [Call.rcb v]
      ∧ f = Run.finished (Promise.value v))
    ∨ (∃ e, b = Run.finished (Except.error e) ∧ c = Run.finished [Call.ecb e]
      ∧ f = Run.finished (Promise.exception e))
    ∨ (b = Run.assertFailed ∧ c = Run.assertFailed ∧ f = Run.assertFailed)

/-! ## The select statement as the specification words it -/

/-- The text ` where c` of a criteria with fragment `c`; nothing for an empty
criteria. -/
def whereClause : Criteria → Str
  | .empty => []
  | .cond fragment _ => " where ".toList ++ fragment

/-- The bound values of a criteria; none for an empty criteria. -/
def criteriaValues : Criteria → List SqlArg
  | .empty => []
  | .cond _ values => values

/-- The text `select * from t [ where c][order-by][ limit $?][ offset $?]`: the
part of the dialect-neutral select statement that carries the placeholders. -/
def selectBody (t : Str) (criteria : Criteria) (orderBy : Str) (limit offset : Nat) : Str :=
  "select * from ".toList ++ t ++ whereClause criteria ++ orderBy
    ++ (if limit > 0 then " limit $?".toList else [])
    ++ (if offset > 0 then " offset $?".toList else [])

/-- Number of neutral placeholder tokens in a text, counted left to right. -/
def placeholderCount : Str → Nat
  | [] => 0
  | c :: rest =>
    match c, rest with
    | '$', '?' :: tail => placeholderCount tail + 1
    | _, rest => placeholderCount rest

/-- The text ` for update` when the flag is set. -/
def forUpdateClause (forUpdate : Bool) : Str :=
  if forUpdate then " for update".toList else []

/-- The bound values `A ++ [limit if limit > 0] ++ [offset if offset > 0]`. -/
def selectValues (criteria : Criteria) (limit offset : Nat) : List SqlArg :=
  criteriaValues criteria ++ (if limit > 0 then [SqlArg.size limit] else [])
    ++ (if offset > 0 then [SqlArg.size offset] else [])

/-- Whether the select statement carries a placeholder: a criteria, a limit or
an offset is present. -/
def selectHasParameters (criteria : Criteria) (limit offset : Nat) : Bool :=
  criteria.toBool || decide (limit > 0) || decide (offset > 0)

/-! ## Chains of modifier calls -/

/-- The call is an `orderBy`. -/
def Modifier.isOrderBy : Modifier → Bool
  | .orderBy _ _ => true
  | _ => false

/-- The `orderBy` calls for the columns and orders `obs`, in order. -/
def orderByCalls (obs : List (Str × SortOrder)) : List Modifier :=
  obs.map (fun p => Modifier.orderBy p.1 p.2)

/-- The calls to be interleaved: `limit(l)`, `offset(o)`, `forUpdate()` when
requested, and the `orderBy` calls. -/
def modifierCalls (l o : Nat) (fu : Bool) (obs : List (Str × SortOrder)) : List Modifier :=
  [Modifier.limit l, Modifier.offset o] ++ (if fu then [Modifier.forUpdate] else [])
    ++ orderByCalls obs

/-- The chain `xs` is an interleaving of the calls that keeps the `orderBy`
calls in their relative order. -/
def IsInterleaving (xs : List Modifier) (l o : Nat) (fu : Bool)
    (obs : List (Str × SortOrder)) : Prop :=
  xs.Perm (modifierCalls l o fu obs) ∧ xs.filter Modifier.isOrderBy = orderByCalls obs

/-- The order-by text after one `orderBy` call on the text `s`. -/
def orderByText (s colName : Str) (order : SortOrder) : Str :=
  if s.isEmpty then
    if order = SortOrder.DESC then " order by ".toList ++ cStr colName ++ " desc".toList
    else " order by ".toList ++ cStr colName
  else
    if order = SortOrder.DESC then s ++ ",".toList ++ colName ++ " desc".toList
    else s ++ ",".toList ++ colName

/-- The limit in force after the calls `xs`, starting from `d`. -/
def finalLimit : Nat → List Modifier → Nat
  | d, [] => d
  | _, .limit l :: xs => finalLimit l xs
  | d, _ :: xs => finalLimit d xs

/-- The offset in force after the calls `xs`, starting from `d`. -/
def finalOffset : Nat → List Modifier → Nat
  | d, [] => d
  | _, .offset o :: xs => finalOffset o xs
  | d, _ :: xs => finalOffset d xs

/-- The order-by text after the calls `xs`, starting from `s`. -/
def finalOrderBy : Str → List Modifier → Str
  | s, [] => s
  | s, .orderBy c o :: xs => finalOrderBy (orderByText s c o) xs
  | s, _ :: xs => finalOrderBy s xs

/-- The for-update flag after the calls `xs`, starting from `b`. -/
def finalForUpdate : Bool → List Modifier → Bool
  | b, [] => b
  | _, .forUpdate :: xs => finalForUpdate true xs
  | b, _ :: xs => finalForUpdate b xs

/-! ## Row-count validation -/

/-- Row-count validation of the single-row operation `op` of entity type
`model` against `client`: the operation hands a statement to the client, and
when the client answers it with a result `r`, then zero rows and two or more
rows fail with `UnexpectedRows`, exactly one row succeeds with the entity
constructed from it, and in the failing cases the outcome is the same whatever
the row constructor `T(row)` is (no entity is constructed). -/
def SingleRowValidated {T δ : Type} (client : DbClient) (op : Model T → Outcome δ)
    (model : Model T) (fails : Outcome δ → DbException → Prop)
    (succeeds : Outcome δ → T → Prop) : Prop :=
  ∃ sub, (op model).submitted? = some sub ∧
    ∀ r, client.exec sub.sql sub.args = DbOutcome.result r →
      (r.rows.length = 0 →
          fails (op model) (DbException.UnexpectedRows "0 rows found".toList))
        ∧ (2 ≤ r.rows.length →
          fails (op model) (DbException.UnexpectedRows "Found more than one row".toList))
        ∧ (∀ row, r.rows = [row] → succeeds (op model) (model.fromRow row))
        ∧ (r.rows.length ≠ 1 →
          ∀ construct : Row → T, op { model with fromRow := construct } = op model)

/-! ## Vocabulary for the statements of the key-based operations -/

/-- The declared key columns: the one column of a single-column key, the
column list of a composite key. -/
def PrimaryKeyName.columns : PrimaryKeyName → List Str
  | .single name => [name]
  | .composite names => names

/-- The primary-key clause ` where k1 = $? and ... and kN = $?`. -/
def primaryKeyClause (primaryKeyName : PrimaryKeyName) : Str :=
  " where ".toList
    ++ List.intercalate " and ".toList
        (primaryKeyName.columns.map (fun k => k ++ " = $?".toList))

/-- The operation `o` hands a statement to `client`, and whenever the client
answers it with a result `r`, the operation reports `r.affectedRows()`. -/
def AffectedRowsReported {δ : Type} (client : DbClient) (o : Outcome δ)
    (reports : Outcome δ → Nat → Prop) : Prop :=
  ∃ sub, o.submitted? = some sub ∧
    ∀ r, client.exec sub.sql sub.args = DbOutcome.result r → reports o r.affectedRows

/-! ## The translation as the specification words it -/

/-- The text `s` with its neutral placeholders, scanned left to right, replaced
by the markers `emit n`, `emit (next n)`, ... and everything else unchanged. -/
def translateWith (emit : Nat → Str) (next : Nat → Nat) : Nat → Str → Str
  | _, [] => []
  | n, c :: rest =>
    match c, rest with
    | '$', '?' :: tail => emit n ++ translateWith emit next (next n) tail
    | c, rest => c :: translateWith emit next n rest

/-- The translation of the text `s` for the dialect `type`: numbered markers
(counted in `size_t`, from 1) for PostgreSQL, the marker `?` for Mysql and
Sqlite3, the text itself otherwise. -/
def translated (type : ClientType) (s : Str) : Str :=
  match type with
  | .PostgreSQL =>
    translateWith (fun n => "$".toList ++ decimal n) (fun n => (n + 1) % sizeModulus) 1 s
  | .Mysql => translateWith (fun _ => "?".toList) (fun n => n) 0 s
  | .Sqlite3 => translateWith (fun _ => "?".toList) (fun n => n) 0 s
  | .Other => s

/-- The text `s` with its placeholders replaced by `$n`, `$(n+1)`, ... -/
def numberedText (n : Nat) (s : Str) : Str :=
  translateWith (fun n => "$".toList ++ decimal n) (fun n => n + 1) n s

/-- The equalities `c1 = $n`, `c2 = $(n+1)`, ... for the columns `c1, c2, ...`. -/
def numberedEqualities : Nat → List Str → List Str
  | _, [] => []
  | n, c :: cs => (c ++ " = $".toList ++ decimal n) :: numberedEqualities (n + 1) cs

/-- The operation hands a statement to its client whose text is what
`replaceSqlPlaceHolder` returns for the text `neutral`. -/
def SubmitsTranslationOf {δ : Type} (o : Outcome δ) (type : ClientType) (neutral : Str) :
    Prop :=
  ∃ sql, replaceSqlPlaceHolder type neutral "$?".toList = some sql
    ∧ o.submitted?.map (fun sub => sub.sql) = some sql

/-- The operation hands a statement to its client whose text is `text`. -/
def SubmitsText {δ : Type} (o : Outcome δ) (text : Str) : Prop :=
  o.submitted?.map (fun sub => sub.sql) = some text

/-! ## Vocabulary for the arguments of the modifiers -/

/-- The value a signed integer argument `n` has after its implicit conversion
to the parameter type `size_t` at a call such as `offset(n)`: `n` modulo
`2 ^ 64`. -/
def toSizeT (n : Int) : Nat := (n % (sizeModulus : Int)).toNat

/-- The item of one `orderBy(colName, order)` call in the order-by fragment:
the column name, followed by ` desc` for the descending order. -/
def orderByItem (colName : Str) (order : SortOrder) : Str :=
  if order = SortOrder.DESC then colName ++ " desc".toList else colName

/-- The order-by fragment of the calls `orderBy(c1, o1), ..., orderBy(cn, on)`:
empty for no call, otherwise ` order by ` followed by the items joined by
commas. -/
def orderByFragment : List (Str × SortOrder) → Str
  | [] => []
  | p :: ps =>
    " order by ".toList
      ++ List.intercalate ",".toList ((p :: ps).map (fun q => orderByItem q.1 q.2))

/-! ## Vocabulary for the error channel -/

/-- The operation `o` hands a statement to `client`, and whenever the client
answers it with the failure `e`, the operation `fails` with `e`. -/
def FailurePassedOn {δ : Type} (client : DbClient) (o : Outcome δ)
    (fails : Outcome δ → DbException → Prop) : Prop :=
  ∃ sub, o.submitted? = some sub ∧
    ∀ e, client.exec sub.sql sub.args = DbOutcome.failure e → fails o e

/-- The callback operation invokes exactly one of the two callbacks, exactly
once: either the result callback or the exception callback, never both. -/
def InvokesOneCallbackOnce {α : Type} (o : Outcome (Callbacks α)) : Prop :=
  ((∃ v, CallsResult o v) ∨ (∃ e, CallsException o e))
    ∧ ¬ ((∃ v, CallsResult o v) ∧ (∃ e, CallsException o e))

/-! ## Vocabulary for the statement handed to the client -/

/-- The statement an operation hands to the client, apart from the execution
mode: the final text and the ordered list of bound values. -/
def Outcome.statement? {δ : Type} (o : Outcome δ) : Option (Str × List SqlArg) :=
  o.submitted?.map (fun sub => (sub.sql, sub.args))

/-- The execution mode an operation asks for, if it hands over a statement. -/
def Outcome.mode? {δ : Type} (o : Outcome δ) : Option Mode :=
  o.submitted?.map (fun sub => sub.mode)

/-- The blocking, callback and future member of one operation hand the
identical statement to the client (the same text, the same bound values in the
same order, or none of them hands over anything); the blocking member asks for
the blocking mode, the other two for the non-blocking mode. -/
def SameStatement {β γ φ : Type} (b : Outcome β) (c : Outcome γ) (f : Outcome φ) : Prop :=
  b.statement? = c.statement? ∧ c.statement? = f.statement?
    ∧ (∀ mode, b.mode? = some mode → mode = Mode.Blocking)
    ∧ (∀ mode, c.mode? = some mode → mode = Mode.NonBlocking)
    ∧ (∀ mode, f.mode? = some mode → mode = Mode.NonBlocking)

/-- The operation `o` on `client` hands over a statement, and whenever the
client answers it with a result `r`: if `r` has exactly one row, the operation
`reports` the cell `count` of that row, converted with `as<size_t>()`; if not,
the assertion `r.size() == 1` fails. -/
def CountCellReported {α : Type} (client : DbClient) (o : Outcome (Run α))
    (reports : Outcome (Run α) → Nat → Prop) : Prop :=
  ∃ sub, o.submitted? = some sub ∧
    ∀ r, client.exec sub.sql sub.args = DbOutcome.result r →
      (∀ row, r.rows = [row] → reports o (row.column "count".toList).asSizeT)
        ∧ (r.rows.length ≠ 1 → o.delivery? = some Run.assertFailed)

/-! ## Vocabulary for the parentheses of a statement -/

/-- The character is a parenthesis. -/
def isParen (c : Char) : Bool := c == '(' || c == ')'

/-- Scan of the parentheses of a text from the nesting depth `d`, left to
right: the depth at the end of the text, or `none` when a `)` is met that
closes nothing. -/
def parenScan : Nat → Str → Option Nat
  | d, [] => some d
  | d, c :: rest =>
    if c = '(' then parenScan (d + 1) rest
    else if c = ')' then
      match d with
      | 0 => none
      | k + 1 => parenScan k rest
    else parenScan d rest

/-- The text is well-parenthesised: every `)` closes an earlier `(` and every
`(` is closed. -/
def WellParenthesised (s : Str) : Prop := parenScan 0 s = some 0

instance (s : Str) : Decidable (WellParenthesised s) := by
  unfold WellParenthesised
  exact inferInstance

/-! ## Sample data -/

/-- A sample client: dialect `type`, answering every statement with `answer`. -/
def sampleClient (type : ClientType) (answer : DbOutcome) : DbClient :=
  { type := type, exec := fun _ _ => answer }

/-- A sample row whose every cell converts to `n`. -/
def sampleRow (n : Nat) : Row := { column := fun _ => { asSizeT := n } }

/-- A sample entity type: the objects are natural numbers, the table `orders`
has the columns `shop`, `num` and `total`, and its primary key is `keyName`. -/
def sampleModel (keyName : PrimaryKeyName) : Model Nat :=
  { tableName := "orders".toList
    primaryKeyIsVoid := false
    primaryKeyName := keyName
    insertColumns := ["shop".toList, "num".toList, "total".toList]
    updateColumns := fun _ => ["total".toList]
    outputArgs := fun obj => [SqlArg.size obj, SqlArg.size obj, SqlArg.size obj]
    updateArgs := fun obj => [SqlArg.size obj]
    getPrimaryKey := fun obj =>
      match keyName with
      | .single _ => PrimaryKeyValue.scalar (SqlArg.size obj)
      | .composite names => PrimaryKeyValue.tuple (names.map (fun _ => SqlArg.size obj))
    fromRow := fun row => (row.column "num".toList).asSizeT
    updateId := fun _ id => id
    getColumnName := fun i => (["shop".toList, "num".toList, "total".toList].getD i []) }

/-- A sample entity type without primary key: `PrimaryKeyType` is `void`; the
table is `log`. -/
def sampleKeylessModel : Model Nat :=
  { sampleModel (PrimaryKeyName.single []) with
    tableName := "log".toList
    primaryKeyIsVoid := true }

theorem holder_eq : "$?".toList = ['$', '?'] := rfl

theorem placeholderFree_cons (c : Char) (p : Str) :
    PlaceholderFree (c :: p) ↔ ¬ (['$', '?'] <+: c :: p) ∧ PlaceholderFree p := by
  unfold PlaceholderFree
  rw [holder_eq, List.infix_cons_iff]
  tauto

theorem holder_prefix_cons (c : Char) (p : Str) :
    ['$', '?'] <+: c :: p ↔ c = '$' ∧ ∃ q, p = '?' :: q := by
  constructor
  · rintro ⟨t, ht⟩
    simp only [List.cons_append, List.nil_append, List.cons.injEq] at ht
    exact ⟨ht.1.symm, t, ht.2.symm⟩
  · rintro ⟨rfl, q, rfl⟩
    exact ⟨q, rfl⟩

theorem holder_isPrefixOf (l : Str) :
    "$?".toList.isPrefixOf l = true ↔ ['$', '?'] <+: l := by
  rw [holder_eq, List.isPrefixOf_iff_prefix]

theorem findFrom_free (p : Str) (i : Nat) (h : PlaceholderFree p) :
    findFrom "$?".toList p i = none := by
  induction p generalizing i with
  | nil => simp [findFrom, holder_eq, List.isPrefixOf]
  | cons c p ih =>
    rw [placeholderFree_cons] at h
    have hp : ¬ ("$?".toList.isPrefixOf (c :: p) = true) := by
      rw [holder_isPrefixOf]; exact h.1
    rw [findFrom, if_neg hp]
    exact ih (i + 1) h.2

theorem findFrom_free_append (p rest : Str) (i : Nat) (h : PlaceholderFree p) :
    findFrom "$?".toList (p ++ '$' :: '?' :: rest) i = some (i + p.length) := by
  induction p generalizing i with
  | nil => simp [findFrom, holder_eq, List.isPrefixOf]
  | cons c p ih =>
    rw [placeholderFree_cons] at h
    have hp : ¬ ("$?".toList.isPrefixOf (c :: (p ++ '$' :: '?' :: rest)) = true) := by
      rw [holder_isPrefixOf, holder_prefix_cons]
      rintro ⟨hc, q, hq⟩
      apply h.1
      rw [holder_prefix_cons]
      refine ⟨hc, ?_⟩
      cases p with
      | nil => simp at hq
      | cons d p' =>
        simp only [List.cons_append, List.cons.injEq] at hq
        exact ⟨p', by rw [hq.1]⟩
    rw [List.cons_append, findFrom, if_neg hp, ih (i + 1) h.2]
    simp only [List.length_cons]
    congr 1
    omega

theorem withNeutralPlaceholders_cons (p0 p1 : Str) (ps : List Str) :
    withNeutralPlaceholders p0 (p1 :: ps)
      = p0 ++ '$' :: '?' :: withNeutralPlaceholders p1 ps := by
  simp [withNeutralPlaceholders, holder_eq]

theorem find_piece_none (pre p : Str) (h : PlaceholderFree p) :
    find (pre ++ p) "$?".toList pre.length = none := by
  unfold find
  rw [if_pos (by simp), List.drop_left]
  exact findFrom_free p _ h

theorem find_piece_some (pre p rest : Str) (h : PlaceholderFree p) :
    find (pre ++ (p ++ '$' :: '?' :: rest)) "$?".toList pre.length
      = some (pre.length + p.length) := by
  unfold find
  rw [if_pos (by simp), List.drop_left]
  exact findFrom_free_append p rest _ h

/-- The generic loop, started behind the prefix `pre` of a text whose remainder
is assembled from placeholder-free pieces, returns after one iteration per
piece and writes the pieces with the markers in between. -/
theorem replaceWith_pieces (emit : Nat → Str) (next : Nat → Nat) (ps : List Str) :
    ∀ (pre p0 ret : Str) (n fuel : Nat), (∀ p ∈ p0 :: ps, PlaceholderFree p) →
      ps.length < fuel →
      replaceWith emit next (pre ++ withNeutralPlaceholders p0 ps) "$?".toList fuel
          pre.length n ret
        = some (ret ++ p0 ++ markersFrom emit next n ps) := by
  induction ps with
  | nil =>
    intro pre p0 ret n fuel hfree hfuel
    obtain ⟨f, rfl⟩ : ∃ f, fuel = f + 1 := ⟨fuel - 1, by simp at hfuel; omega⟩
    have h0 : PlaceholderFree p0 := hfree p0 (by simp)
    simp only [withNeutralPlaceholders, List.map_nil, List.flatten_nil, List.append_nil]
    rw [replaceWith, find_piece_none pre p0 h0]
    simp [substr, markersFrom]
  | cons p1 ps ih =>
    intro pre p0 ret n fuel hfree hfuel
    obtain ⟨f, rfl⟩ : ∃ f, fuel = f + 1 := ⟨fuel - 1, by simp at hfuel; omega⟩
    have h0 : PlaceholderFree p0 := hfree p0 (by simp)
    have hrest : ∀ p ∈ p1 :: ps, PlaceholderFree p := fun p hp =>
      hfree p (List.mem_cons_of_mem _ hp)
    rw [withNeutralPlaceholders_cons, replaceWith, find_piece_some pre p0 _ h0]
    have hs : pre ++ (p0 ++ '$' :: '?' :: withNeutralPlaceholders p1 ps)
        = (pre ++ p0 ++ ['$', '?']) ++ withNeutralPlaceholders p1 ps := by simp
    have hlen : pre.length + p0.length + "$?".toList.length
        = (pre ++ p0 ++ ['$', '?']).length := by simp [holder_eq]; omega
    have hsub : substrN (pre ++ (p0 ++ '$' :: '?' :: withNeutralPlaceholders p1 ps))
        pre.length (pre.length + p0.length - pre.length) = p0 := by
      simp [substrN]
    simp only [hsub]
    rw [hlen, hs, ih (pre ++ p0 ++ ['$', '?']) p1 _ (next n) f hrest
      (by simp at hfuel; omega)]
    simp [markersFrom]

theorem replaceNumbered_eq_replaceWith (sqlStr holderStr : Str) (fuel : Nat) :
    ∀ (startPos phCount : Nat) (ret : Str),
      replaceNumbered sqlStr holderStr fuel startPos phCount ret
        = replaceWith (fun n => "$".toList ++ decimal n) (fun n => (n + 1) % sizeModulus)
            sqlStr holderStr fuel startPos phCount ret := by
  induction fuel with
  | zero => intro _ _ _; rfl
  | succ f ih =>
    intro startPos phCount ret
    rw [replaceNumbered, replaceWith]
    cases find sqlStr holderStr startPos with
    | none => rfl
    | some pos => simp only [ih, List.append_assoc]

theorem replaceGeneric_eq_replaceWith (sqlStr holderStr : Str) (fuel : Nat) :
    ∀ (startPos k : Nat) (ret : Str),
      replaceGeneric sqlStr holderStr fuel startPos ret
        = replaceWith (fun _ => "?".toList) (fun n => n)
            sqlStr holderStr fuel startPos k ret := by
  induction fuel with
  | zero => intro _ _ _; rfl
  | succ f ih =>
    intro startPos k ret
    rw [replaceGeneric, replaceWith]
    cases find sqlStr holderStr startPos with
    | none => rfl
    | some pos => simp only [ih _ k]

theorem markersFrom_numbered (ps : List Str) :
    ∀ n, n + ps.length ≤ sizeModulus →
      markersFrom (fun n => "$".toList ++ decimal n) (fun n => (n + 1) % sizeModulus) n ps
        = numberedFrom n ps := by
  induction ps with
  | nil => intro _ _; rfl
  | cons p ps ih =>
    intro n hn
    simp only [List.length_cons] at hn
    cases ps with
    | nil => simp [markersFrom, numberedFrom]
    | cons q qs =>
      simp only [List.length_cons] at hn ih
      have hmod : (n + 1) % sizeModulus = n + 1 := Nat.mod_eq_of_lt (by omega)
      rw [markersFrom, numberedFrom, hmod, ih (n + 1) (by omega)]

theorem markersFrom_generic (ps : List Str) (n : Nat) :
    markersFrom (fun _ => "?".toList) (fun n => n) n ps
      = (ps.map (fun p => "?".toList ++ p)).flatten := by
  induction ps with
  | nil => rfl
  | cons p ps ih => simpa [markersFrom] using ih

/-! ## Every text splits into placeholder-free pieces -/

theorem splitPlaceholders_holder (tail : Str) :
    splitPlaceholders ('$' :: '?' :: tail)
      = ([], (splitPlaceholders tail).1 :: (splitPlaceholders tail).2) := by
  rw [splitPlaceholders]

theorem splitPlaceholders_other (c : Char) (rest : Str)
    (h : ¬ (['$', '?'] <+: c :: rest)) :
    splitPlaceholders (c :: rest)
      = (c :: (splitPlaceholders rest).1, (splitPlaceholders rest).2) := by
  rw [splitPlaceholders]
  intro tail hc hr
  exact h ((holder_prefix_cons c rest).2 ⟨hc, tail, hr⟩)

theorem splitPlaceholders_head (rest q : Str)
    (h : (splitPlaceholders rest).1 = '?' :: q) : ∃ r, rest = '?' :: r := by
  cases rest with
  | nil => simp [splitPlaceholders] at h
  | cons d r =>
    by_cases hd : ['$', '?'] <+: d :: r
    · obtain ⟨rfl, t, rfl⟩ := (holder_prefix_cons d r).1 hd
      rw [splitPlaceholders_holder] at h
      simp at h
    · rw [splitPlaceholders_other d r hd] at h
      simp only [List.cons.injEq] at h
      exact ⟨r, by rw [h.1]⟩

theorem splitPlaceholders_spec (s : Str) :
    (∀ p ∈ (splitPlaceholders s).1 :: (splitPlaceholders s).2, PlaceholderFree p)
      ∧ s = withNeutralPlaceholders (splitPlaceholders s).1 (splitPlaceholders s).2 := by
  suffices H : ∀ n (s : Str), s.length = n →
      (∀ p ∈ (splitPlaceholders s).1 :: (splitPlaceholders s).2, PlaceholderFree p)
        ∧ s = withNeutralPlaceholders (splitPlaceholders s).1 (splitPlaceholders s).2 from
    H s.length s rfl
  intro n
  induction n using Nat.strong_induction_on with
  | _ n ih =>
    intro s hn
    cases s with
    | nil =>
      refine ⟨?_, by simp [splitPlaceholders, withNeutralPlaceholders]⟩
      intro p hp
      simp [splitPlaceholders] at hp
      subst hp
      unfold PlaceholderFree
      decide
    | cons c rest =>
      by_cases hd : ['$', '?'] <+: c :: rest
      · obtain ⟨rfl, t, rfl⟩ := (holder_prefix_cons c rest).1 hd
        obtain ⟨hfree, heq⟩ := ih t.length (by simp at hn; omega) t rfl
        rw [splitPlaceholders_holder]
        refine ⟨?_, ?_⟩
        · intro p hp
          simp only [List.mem_cons] at hp
          rcases hp with rfl | hp
          · unfold PlaceholderFree; decide
          · exact hfree p (by simpa using hp)
        · rw [withNeutralPlaceholders_cons]
          simp only [List.nil_append]
          rw [← heq]
      · obtain ⟨hfree, heq⟩ := ih rest.length (by simp at hn; omega) rest rfl
        rw [splitPlaceholders_other c rest hd]
        refine ⟨?_, ?_⟩
        · intro p hp
          simp only [List.mem_cons] at hp
          rcases hp with rfl | hp
          · rw [placeholderFree_cons]
            refine ⟨?_, hfree _ (by simp)⟩
            rw [holder_prefix_cons]
            rintro ⟨hc, q, hq⟩
            obtain ⟨r, hr⟩ := splitPlaceholders_head rest q hq
            exact hd ((holder_prefix_cons c rest).2 ⟨hc, r, hr⟩)
          · exact hfree p (by simp [hp])
        · have : withNeutralPlaceholders (c :: (splitPlaceholders rest).1)
              (splitPlaceholders rest).2
              = c :: withNeutralPlaceholders (splitPlaceholders rest).1
                  (splitPlaceholders rest).2 := by
            simp [withNeutralPlaceholders]
          rw [this, ← heq]

theorem withNeutralPlaceholders_length (p0 : Str) (ps : List Str) :
    2 * ps.length ≤ (withNeutralPlaceholders p0 ps).length := by
  induction ps generalizing p0 with
  | nil => simp
  | cons p ps ih =>
    rw [withNeutralPlaceholders_cons]
    have := ih p
    simp only [List.length_append, List.length_cons]
    omega

/-! ## Placeholder translation -/

theorem replaceNumbered_pieces (p0 : Str) (ps : List Str) (fuel : Nat)
    (hfree : ∀ p ∈ p0 :: ps, PlaceholderFree p) (hfuel : ps.length < fuel) :
    replaceNumbered (withNeutralPlaceholders p0 ps) "$?".toList fuel 0 1 []
      = some (p0 ++ markersFrom (fun n => "$".toList ++ decimal n)
          (fun n => (n + 1) % sizeModulus) 1 ps) := by
  rw [replaceNumbered_eq_replaceWith]
  have h := replaceWith_pieces (fun n => "$".toList ++ decimal n)
    (fun n => (n + 1) % sizeModulus) ps [] p0 [] 1 fuel hfree hfuel
  simpa using h

theorem replaceGeneric_pieces (p0 : Str) (ps : List Str) (fuel : Nat)
    (hfree : ∀ p ∈ p0 :: ps, PlaceholderFree p) (hfuel : ps.length < fuel) :
    replaceGeneric (withNeutralPlaceholders p0 ps) "$?".toList fuel 0 []
      = some (withGenericMarkers p0 ps) := by
  rw [replaceGeneric_eq_replaceWith _ _ _ _ 0]
  have h := replaceWith_pieces (fun _ => "?".toList) (fun n => n) ps [] p0 [] 0 fuel hfree hfuel
  rw [markersFrom_generic] at h
  simpa [withGenericMarkers] using h

theorem pieces_lt_length_succ (p0 : Str) (ps : List Str) :
    ps.length < (withNeutralPlaceholders p0 ps).length + 1 := by
  have := withNeutralPlaceholders_length p0 ps
  omega

/-- C1: for the PostgreSQL dialect, every SQL text is a sequence of
placeholder-free pieces `p0, p1, ..., pk` separated by `k` tokens `$?`, and for
every such text (of a length that fits `size_t`) `replaceSqlPlaceHolder(s, "$?")`
returns, after at most `k + 1` loop iterations, the pieces unchanged and in
order with the N-th token replaced by `$` and the decimal numeral of N, for
N = 1, ..., k. -/
theorem replaceSqlPlaceHolder_postgresql_numbers :
    (∀ s : Str, ∃ (p0 : Str) (ps : List Str),
        (∀ p ∈ p0 :: ps, PlaceholderFree p) ∧ s = withNeutralPlaceholders p0 ps) ∧
    (∀ (p0 : Str) (ps : List Str), (∀ p ∈ p0 :: ps, PlaceholderFree p) →
        (withNeutralPlaceholders p0 ps).length < sizeModulus →
        (∀ fuel, ps.length < fuel →
          replaceSqlPlaceHolderFuel fuel ClientType.PostgreSQL
              (withNeutralPlaceholders p0 ps) "$?".toList
            = some (withNumberedMarkers p0 ps)) ∧
        replaceSqlPlaceHolder ClientType.PostgreSQL (withNeutralPlaceholders p0 ps)
            "$?".toList
          = some (withNumberedMarkers p0 ps)) := by
  refine ⟨fun s => ⟨_, _, splitPlaceholders_spec s⟩, ?_⟩
  intro p0 ps hfree hsize
  have hlen := withNeutralPlaceholders_length p0 ps
  have key : ∀ fuel, ps.length < fuel →
      replaceSqlPlaceHolderFuel fuel ClientType.PostgreSQL
          (withNeutralPlaceholders p0 ps) "$?".toList
        = some (withNumberedMarkers p0 ps) := by
    intro fuel hfuel
    unfold replaceSqlPlaceHolderFuel
    rw [if_pos rfl, replaceNumbered_pieces p0 ps fuel hfree hfuel,
      markersFrom_numbered ps 1 (by omega)]
    rfl
  exact ⟨key, key _ (pieces_lt_length_succ p0 ps)⟩

/-- Witness of C1 on `select * from t where a = $? and b = $? limit $?`. -/
theorem replaceSqlPlaceHolder_postgresql_numbers_witness :
    (∀ p ∈ "select * from t where a = ".toList :: [" and b = ".toList, " limit ".toList, []],
        PlaceholderFree p) ∧
    (withNeutralPlaceholders "select * from t where a = ".toList
        [" and b = ".toList, " limit ".toList, []]).length < sizeModulus ∧
    withNeutralPlaceholders "select * from t where a = ".toList
        [" and b = ".toList, " limit ".toList, []]
      = "select * from t where a = $? and b = $? limit $?".toList ∧
    withNumberedMarkers "select * from t where a = ".toList
        [" and b = ".toList, " limit ".toList, []]
      = "select * from t where a = $1 and b = $2 limit $3".toList ∧
    replaceSqlPlaceHolder ClientType.PostgreSQL
        (withNeutralPlaceholders "select * from t where a = ".toList
          [" and b = ".toList, " limit ".toList, []]) "$?".toList
      = some (withNumberedMarkers "select * from t where a = ".toList
          [" and b = ".toList, " limit ".toList, []]) :=
  ⟨by decide, by decide, by decide, by decide,
    (replaceSqlPlaceHolder_postgresql_numbers.2 "select * from t where a = ".toList
      [" and b = ".toList, " limit ".toList, []] (by decide) (by decide)).2⟩

/-- C2: for the Mysql and Sqlite3 dialects, every SQL text is a sequence of
placeholder-free pieces `p0, ..., pk` separated by `k` tokens `$?`, and for
every such text `replaceSqlPlaceHolder(s, "$?")` returns, after at most `k + 1`
loop iterations, the pieces unchanged and in order with each of the `k` tokens
replaced by the single character `?`. -/
theorem replaceSqlPlaceHolder_mysql_sqlite3_generic :
    (∀ s : Str, ∃ (p0 : Str) (ps : List Str),
        (∀ p ∈ p0 :: ps, PlaceholderFree p) ∧ s = withNeutralPlaceholders p0 ps) ∧
    (∀ (type : ClientType) (p0 : Str) (ps : List Str),
        type = ClientType.Mysql ∨ type = ClientType.Sqlite3 →
        (∀ p ∈ p0 :: ps, PlaceholderFree p) →
        (∀ fuel, ps.length < fuel →
          replaceSqlPlaceHolderFuel fuel type (withNeutralPlaceholders p0 ps) "$?".toList
            = some (withGenericMarkers p0 ps)) ∧
        replaceSqlPlaceHolder type (withNeutralPlaceholders p0 ps) "$?".toList
          = some (withGenericMarkers p0 ps)) := by
  refine ⟨fun s => ⟨_, _, splitPlaceholders_spec s⟩, ?_⟩
  intro type p0 ps htype hfree
  have key : ∀ fuel, ps.length < fuel →
      replaceSqlPlaceHolderFuel fuel type (withNeutralPlaceholders p0 ps) "$?".toList
        = some (withGenericMarkers p0 ps) := by
    intro fuel hfuel
    unfold replaceSqlPlaceHolderFuel
    have hne : type ≠ ClientType.PostgreSQL := by rcases htype with h | h <;> simp [h]
    rw [if_neg hne, if_pos htype, replaceGeneric_pieces p0 ps fuel hfree hfuel]
  exact ⟨key, key _ (pieces_lt_length_succ p0 ps)⟩

/-- Witness of C2 on `insert into t (a,b) values ($?,$?)` for Sqlite3. -/
theorem replaceSqlPlaceHolder_mysql_sqlite3_generic_witness :
    (ClientType.Sqlite3 = ClientType.Mysql ∨ ClientType.Sqlite3 = ClientType.Sqlite3) ∧
    (∀ p ∈ "insert into t (a,b) values (".toList :: [",".toList, ")".toList],
        PlaceholderFree p) ∧
    withNeutralPlaceholders "insert into t (a,b) values (".toList [",".toList, ")".toList]
      = "insert into t (a,b) values ($?,$?)".toList ∧
    withGenericMarkers "insert into t (a,b) values (".toList [",".toList, ")".toList]
      = "insert into t (a,b) values (?,?)".toList ∧
    replaceSqlPlaceHolder ClientType.Sqlite3
        (withNeutralPlaceholders "insert into t (a,b) values (".toList
          [",".toList, ")".toList]) "$?".toList
      = some (withGenericMarkers "insert into t (a,b) values (".toList
          [",".toList, ")".toList]) :=
  ⟨by decide, by decide, by decide, by decide,
    (replaceSqlPlaceHolder_mysql_sqlite3_generic.2 ClientType.Sqlite3
      "insert into t (a,b) values (".toList [",".toList, ")".toList]
      (by decide) (by decide)).2⟩

/-! ## Where the placeholder token can occur in a concatenation -/

theorem digitChar_ne (d : Nat) (h : d < 10) :
    Nat.digitChar d ≠ '$' ∧ Nat.digitChar d ≠ '?' := by
  interval_cases d <;> decide

theorem toDigitsCore_chars (fuel : Nat) :
    ∀ (n : Nat) (ds : List Char), (∀ c ∈ ds, c ≠ '$' ∧ c ≠ '?') →
      ∀ c ∈ Nat.toDigitsCore 10 fuel n ds, c ≠ '$' ∧ c ≠ '?' := by
  induction fuel with
  | zero => intro n ds h; simpa [Nat.toDigitsCore] using h
  | succ f ih =>
    intro n ds h
    have hd : ∀ c ∈ Nat.digitChar (n % 10) :: ds, c ≠ '$' ∧ c ≠ '?' := by
      intro c hc
      rcases List.mem_cons.1 hc with rfl | hc
      · exact digitChar_ne _ (Nat.mod_lt _ (by decide))
      · exact h c hc
    rw [Nat.toDigitsCore]
    split_ifs
    · exact hd
    · exact ih _ _ hd

theorem toDigitsCore_ne_nil (fuel : Nat) :
    ∀ (n : Nat) (ds : List Char), ds ≠ [] → Nat.toDigitsCore 10 fuel n ds ≠ [] := by
  induction fuel with
  | zero => intro n ds h; simpa [Nat.toDigitsCore] using h
  | succ f ih =>
    intro n ds _
    rw [Nat.toDigitsCore]
    split_ifs
    · simp
    · exact ih _ _ (by simp)

theorem decimal_chars (n : Nat) : ∀ c ∈ decimal n, c ≠ '$' ∧ c ≠ '?' :=
  toDigitsCore_chars (n + 1) n [] (by simp)

theorem decimal_ne_nil (n : Nat) : decimal n ≠ [] := by
  unfold decimal Nat.toDigits
  rw [Nat.toDigitsCore]
  split_ifs
  · simp
  · exact toDigitsCore_ne_nil _ _ _ (by simp)

theorem placeholderFree_of_no_question (x : Str) (h : '?' ∉ x) : PlaceholderFree x := by
  intro hx
  exact h (hx.subset (by simp [holder_eq]))

/-- An occurrence of the token in `a ++ b` lies in `a`, lies in `b`, or
straddles the seam: `a` ends in `$` and `b` starts with `?`. -/
theorem holder_infix_append (a b : Str) (h : "$?".toList <:+: a ++ b) :
    "$?".toList <:+: a ∨ "$?".toList <:+: b
      ∨ (a.getLast? = some '$' ∧ b.head? = some '?') := by
  induction a with
  | nil => exact Or.inr (Or.inl (by simpa using h))
  | cons c a ih =>
    rw [holder_eq] at h ih ⊢
    rw [List.cons_append, List.infix_cons_iff] at h
    rcases h with h | h
    · rw [holder_prefix_cons] at h
      obtain ⟨rfl, q, hq⟩ := h
      cases a with
      | nil =>
        simp only [List.nil_append] at hq
        exact Or.inr (Or.inr ⟨by simp, by simp [hq]⟩)
      | cons d a' =>
        simp only [List.cons_append, List.cons.injEq] at hq
        refine Or.inl ?_
        rw [hq.1]
        exact (List.prefix_iff_eq_append.2 (by simp)).isInfix
    · rcases ih h with h1 | h1 | ⟨h1, h2⟩
      · exact Or.inl (List.infix_cons h1)
      · exact Or.inr (Or.inl h1)
      · refine Or.inr (Or.inr ⟨?_, h2⟩)
        cases a with
        | nil => simp at h1
        | cons d a' => simpa [List.getLast?_cons_cons] using h1

theorem placeholderFree_append (a b : Str) (ha : PlaceholderFree a) (hb : PlaceholderFree b)
    (hseam : ¬ (a.getLast? = some '$' ∧ b.head? = some '?')) : PlaceholderFree (a ++ b) := by
  intro h
  rcases holder_infix_append a b h with h | h | h
  · exact ha h
  · exact hb h
  · exact hseam h

/-! ## The translated text and the placeholder token -/

theorem withGenericMarkers_cons (p0 p1 : Str) (ps : List Str) :
    withGenericMarkers p0 (p1 :: ps) = p0 ++ '?' :: withGenericMarkers p1 ps := by
  simp [withGenericMarkers]

theorem numbered_marker_free (n : Nat) : PlaceholderFree ("$".toList ++ decimal n) := by
  apply placeholderFree_of_no_question
  intro h
  rcases List.mem_append.1 h with h | h
  · revert h; decide
  · exact (decimal_chars n _ h).2 rfl

theorem numbered_marker_getLast (n : Nat) :
    ("$".toList ++ decimal n).getLast? ≠ some '$' := by
  intro h
  rw [List.getLast?_append_of_ne_nil _ (decimal_ne_nil n)] at h
  exact (decimal_chars n _ (List.mem_of_getLast?_eq_some h)).1 rfl

/-- The text written by the PostgreSQL loop contains no neutral placeholder,
whatever the counter does. -/
theorem numbered_output_free (next : Nat → Nat) (ps : List Str) :
    ∀ (p : Str) (n : Nat), PlaceholderFree p → (∀ q ∈ ps, PlaceholderFree q) →
      PlaceholderFree (p ++ markersFrom (fun n => "$".toList ++ decimal n) next n ps) := by
  induction ps with
  | nil => intro p n hp _; simpa [markersFrom] using hp
  | cons p1 ps ih =>
    intro p n hp hps
    have hX := ih p1 (next n) (hps p1 (by simp)) (fun q hq => hps q (by simp [hq]))
    have hY : PlaceholderFree (("$".toList ++ decimal n)
        ++ (p1 ++ markersFrom (fun n => "$".toList ++ decimal n) next (next n) ps)) :=
      placeholderFree_append _ _ (numbered_marker_free n) hX
        (fun h => numbered_marker_getLast n h.1)
    have hZ := placeholderFree_append p _ hp hY (by
      rintro ⟨_, h⟩
      revert h
      simp)
    simpa [markersFrom, List.append_assoc] using hZ

/-- The text written by the Mysql/Sqlite3 loop contains no neutral placeholder
when no token of the input is directly preceded by `$`. -/
theorem generic_output_free (ps : List Str) :
    ∀ p0 : Str, (∀ p ∈ p0 :: ps, PlaceholderFree p) →
      ¬ "$$?".toList <:+: withNeutralPlaceholders p0 ps →
      PlaceholderFree (withGenericMarkers p0 ps) := by
  induction ps with
  | nil => intro p0 h _; simpa [withGenericMarkers] using h p0 (by simp)
  | cons p1 ps ih =>
    intro p0 hfree hno
    rw [withNeutralPlaceholders_cons] at hno
    have hX : PlaceholderFree (withGenericMarkers p1 ps) := by
      apply ih p1 (fun p hp => hfree p (List.mem_cons_of_mem _ hp))
      intro h
      apply hno
      have hsuf : withNeutralPlaceholders p1 ps
          <:+ p0 ++ '$' :: '?' :: withNeutralPlaceholders p1 ps :=
        ⟨p0 ++ ['$', '?'], by simp⟩
      exact h.trans hsuf.isInfix
    have hY : PlaceholderFree ('?' :: withGenericMarkers p1 ps) := by
      rw [placeholderFree_cons]
      refine ⟨?_, hX⟩
      rw [holder_prefix_cons]
      rintro ⟨h, _⟩
      revert h
      decide
    rw [withGenericMarkers_cons]
    apply placeholderFree_append p0 _ (hfree p0 (by simp)) hY
    rintro ⟨hlast, _⟩
    apply hno
    obtain ⟨q, hq⟩ : ∃ q, p0 = q ++ ['$'] := by
      have hne : p0 ≠ [] := by rintro rfl; simp at hlast
      refine ⟨p0.dropLast, ?_⟩
      have h1 := List.dropLast_append_getLast hne
      have h2 : p0.getLast hne = '$' := by
        rw [List.getLast?_eq_getLast _ hne] at hlast
        exact Option.some.inj hlast
      rw [h2] at h1
      exact h1.symm
    refine ⟨q, withNeutralPlaceholders p1 ps, ?_⟩
    rw [hq]
    simp

theorem replaceSqlPlaceHolder_of_free (type : ClientType) (out : Str)
    (h : PlaceholderFree out) : replaceSqlPlaceHolder type out "$?".toList = some out := by
  have hfree : ∀ p ∈ out :: ([] : List Str), PlaceholderFree p := by simpa using h
  have hw : withNeutralPlaceholders out [] = out := by simp [withNeutralPlaceholders]
  unfold replaceSqlPlaceHolder replaceSqlPlaceHolderFuel
  split_ifs
  · have := replaceNumbered_pieces out [] (out.length + 1) hfree (by simp)
    rw [hw] at this
    simpa [markersFrom] using this
  · have := replaceGeneric_pieces out [] (out.length + 1) hfree (by simp)
    rw [hw] at this
    simpa [withGenericMarkers] using this
  · rfl

/-- C3, counterexample: for the Mysql dialect the text `$$?` is translated to
`$?`, which is translated once more to `?`; translating twice differs from
translating once. -/
theorem replaceSqlPlaceHolder_mysql_not_idempotent :
    replaceSqlPlaceHolder ClientType.Mysql "$$?".toList "$?".toList = some "$?".toList ∧
    replaceSqlPlaceHolder ClientType.Mysql "$?".toList "$?".toList = some "?".toList ∧
    (replaceSqlPlaceHolder ClientType.Mysql "$$?".toList "$?".toList).bind
        (fun t => replaceSqlPlaceHolder ClientType.Mysql t "$?".toList)
      ≠ replaceSqlPlaceHolder ClientType.Mysql "$$?".toList "$?".toList := by
  decide

/-- C3, amended: placeholder translation returns and is idempotent for every
dialect on every SQL text in which, when the dialect is Mysql or Sqlite3, no
token `$?` is directly preceded by `$`: translating the translated text returns
it unchanged. For PostgreSQL and for an untranslated dialect this covers every
SQL text. -/
theorem replaceSqlPlaceHolder_idempotent (type : ClientType) (s : Str)
    (h : type = ClientType.Mysql ∨ type = ClientType.Sqlite3 → ¬ "$$?".toList <:+: s) :
    ∃ out, replaceSqlPlaceHolder type s "$?".toList = some out
      ∧ replaceSqlPlaceHolder type out "$?".toList = some out
      ∧ (replaceSqlPlaceHolder type s "$?".toList).bind
          (fun t => replaceSqlPlaceHolder type t "$?".toList)
        = replaceSqlPlaceHolder type s "$?".toList := by
  by_cases hpg : type = ClientType.PostgreSQL
  case neg =>
    by_cases hg : type = ClientType.Mysql ∨ type = ClientType.Sqlite3
    case neg =>
      have hid : ∀ t : Str, replaceSqlPlaceHolder type t "$?".toList = some t := by
        intro t
        unfold replaceSqlPlaceHolder replaceSqlPlaceHolderFuel
        rw [if_neg hpg, if_neg hg]
      exact ⟨s, hid s, hid s, by rw [hid s]; simpa using hid s⟩
    case pos =>
      obtain ⟨hfree, hs⟩ := splitPlaceholders_spec s
      generalize (splitPlaceholders s).1 = p0 at hfree hs
      generalize (splitPlaceholders s).2 = ps at hfree hs
      subst hs
      have h1 : replaceSqlPlaceHolder type (withNeutralPlaceholders p0 ps) "$?".toList
          = some (withGenericMarkers p0 ps) := by
        unfold replaceSqlPlaceHolder replaceSqlPlaceHolderFuel
        rw [if_neg hpg, if_pos hg,
          replaceGeneric_pieces p0 ps _ hfree (pieces_lt_length_succ p0 ps)]
      have h3 := replaceSqlPlaceHolder_of_free type _ (generic_output_free ps p0 hfree (h hg))
      exact ⟨_, h1, h3, by rw [h1]; simpa using h3⟩
  case pos =>
    obtain ⟨hfree, hs⟩ := splitPlaceholders_spec s
    generalize (splitPlaceholders s).1 = p0 at hfree hs
    generalize (splitPlaceholders s).2 = ps at hfree hs
    subst hs
    have h1 : replaceSqlPlaceHolder type (withNeutralPlaceholders p0 ps) "$?".toList
        = some (p0 ++ markersFrom (fun n => "$".toList ++ decimal n)
            (fun n => (n + 1) % sizeModulus) 1 ps) := by
      unfold replaceSqlPlaceHolder replaceSqlPlaceHolderFuel
      rw [if_pos hpg, replaceNumbered_pieces p0 ps _ hfree (pieces_lt_length_succ p0 ps)]
    have h3 := replaceSqlPlaceHolder_of_free type _
      (numbered_output_free (fun n => (n + 1) % sizeModulus) ps p0 1
        (hfree p0 (by simp)) (fun q hq => hfree q (by simp [hq])))
    exact ⟨_, h1, h3, by rw [h1]; simpa using h3⟩


/-- Witness of the amended C3 on `a = $? and b = $?` for Mysql. -/
theorem replaceSqlPlaceHolder_idempotent_witness :
    (ClientType.Mysql = ClientType.Mysql ∨ ClientType.Mysql = ClientType.Sqlite3 →
      ¬ "$$?".toList <:+: "a = $? and b = $?".toList) ∧
    ∃ out, replaceSqlPlaceHolder ClientType.Mysql "a = $? and b = $?".toList "$?".toList
        = some out
      ∧ replaceSqlPlaceHolder ClientType.Mysql out "$?".toList = some out
      ∧ (replaceSqlPlaceHolder ClientType.Mysql "a = $? and b = $?".toList "$?".toList).bind
          (fun t => replaceSqlPlaceHolder ClientType.Mysql t "$?".toList)
        = replaceSqlPlaceHolder ClientType.Mysql "a = $? and b = $?".toList "$?".toList :=
  ⟨fun _ => by decide,
    replaceSqlPlaceHolder_idempotent ClientType.Mysql "a = $? and b = $?".toList
      (fun _ => by decide)⟩

/-- With the token `$?` the placeholder loop always returns within the budget
of `replaceSqlPlaceHolder`. -/
theorem replaceSqlPlaceHolder_returns (type : ClientType) (s : Str) :
    ∃ out, replaceSqlPlaceHolder type s "$?".toList = some out := by
  obtain ⟨hfree, hs⟩ := splitPlaceholders_spec s
  generalize (splitPlaceholders s).1 = p0 at hfree hs
  generalize (splitPlaceholders s).2 = ps at hfree hs
  subst hs
  unfold replaceSqlPlaceHolder replaceSqlPlaceHolderFuel
  split_ifs
  · exact ⟨_, replaceNumbered_pieces p0 ps _ hfree (pieces_lt_length_succ p0 ps)⟩
  · exact ⟨_, replaceGeneric_pieces p0 ps _ hfree (pieces_lt_length_succ p0 ps)⟩
  · exact ⟨_, rfl⟩

/-! ## Primary-key clause and binding -/

theorem makePrimaryKeyCriteriaLoop_eq (names rest : List Str) :
    ∀ (pre : List Str) (sql : Str), names = pre ++ rest →
      makePrimaryKeyCriteriaLoop names rest.length pre.length sql
        = sql ++ List.intercalate " and ".toList (rest.map (fun k => k ++ " = $?".toList)) := by
  induction rest with
  | nil =>
    intro pre sql _
    rw [List.length_nil, makePrimaryKeyCriteriaLoop]
    simp [List.intercalate]
  | cons c rest ih =>
    intro pre sql hnames
    have hget : names.getD pre.length [] = c := by
      rw [hnames, List.getD_append_right _ _ _ _ (le_refl _)]
      simp
    have hlen : names.length = pre.length + rest.length + 1 := by
      rw [hnames]; simp; omega
    have hsub : sizeSub names.length 1 = pre.length + rest.length := by
      unfold sizeSub
      rw [if_pos (by omega)]
      omega
    have hnext := ih (pre ++ [c]) (sql ++ c ++ " = $?".toList ++ " and ".toList)
      (by simpa using hnames)
    simp only [List.length_append, List.length_singleton] at hnext
    rw [List.length_cons, makePrimaryKeyCriteriaLoop, hget, hsub]
    cases rest with
    | nil =>
      rw [if_neg (by simp), List.length_nil, makePrimaryKeyCriteriaLoop]
      simp [List.intercalate]
    | cons d r =>
      rw [if_pos (by simp)]
      simp only [hnext]
      simp [List.intercalate]

theorem tupleToBinder_eq (t binder : List SqlArg) (n : Nat) (h1 : 1 ≤ n) (hn : n ≤ t.length) :
    tupleToBinder t n binder = some (binder ++ t.take n) := by
  induction n with
  | zero => omega
  | succ k ih =>
    cases k with
    | zero =>
      cases t with
      | nil => simp at hn
      | cons a t => simp [tupleToBinder]
    | succ j =>
      have hlt : j + 1 < t.length := by omega
      rw [tupleToBinder, ih (by omega) (by omega)]
      simp [List.get?_eq_getElem?, List.getElem?_eq_getElem hlt, List.take_succ]

/-- C4: for a composite primary key with declared columns `k1..kN`, `N ≥ 1`,
`makePrimaryKeyCriteria` appends ` where k1 = $? and ... and kN = $?` (the `N`
equalities in declared order, joined by ` and `), `outputPrimeryKeyToBinder`
appends the `N` components of the key tuple in index order, and the blocking
`findByPrimaryKey` submits the translated select statement with exactly the key
components, in that order, as its bound values. -/
theorem composite_primary_key_clause_and_binding {T : Type} (model : Model T) (m : Mapper)
    (names : List Str) (key : List SqlArg) (sql : Str) (binder : List SqlArg)
    (hN : 1 ≤ names.length) (hkey : key.length = names.length)
    (hname : model.primaryKeyName = PrimaryKeyName.composite names)
    (hpk : model.primaryKeyIsVoid = false) :
    makePrimaryKeyCriteria (PrimaryKeyName.composite names) sql
        = sql ++ " where ".toList
          ++ List.intercalate " and ".toList (names.map (fun k => k ++ " = $?".toList))
      ∧ (names.map (fun k => k ++ " = $?".toList)).length = names.length
      ∧ outputPrimeryKeyToBinder (PrimaryKeyName.composite names) (PrimaryKeyValue.tuple key)
          binder = some (binder ++ key)
      ∧ ∃ translated,
          replaceSqlPlaceHolder m._client.type
              ("select * from ".toList ++ model.tableName ++ " where ".toList
                ++ List.intercalate " and ".toList (names.map (fun k => k ++ " = $?".toList))
                ++ (if m._forUpdate then " for update".toList else []))
              "$?".toList = some translated
          ∧ (m.findByPrimaryKey model (PrimaryKeyValue.tuple key)).submitted?
              = some ⟨translated, key, Mode.Blocking⟩ := by
  have hclause : ∀ sql, makePrimaryKeyCriteria (PrimaryKeyName.composite names) sql
      = sql ++ " where ".toList
        ++ List.intercalate " and ".toList (names.map (fun k => k ++ " = $?".toList)) := by
    intro sql
    have := makePrimaryKeyCriteriaLoop_eq names names [] (sql ++ " where ".toList) rfl
    simpa [makePrimaryKeyCriteria] using this
  have hbind : ∀ binder, outputPrimeryKeyToBinder (PrimaryKeyName.composite names)
      (PrimaryKeyValue.tuple key) binder = some (binder ++ key) := by
    intro binder
    have := tupleToBinder_eq key binder key.length (by omega) (le_refl _)
    simpa [outputPrimeryKeyToBinder] using this
  refine ⟨hclause sql, by simp, hbind binder, ?_⟩
  obtain ⟨translated, htr⟩ := replaceSqlPlaceHolder_returns m._client.type
    ("select * from ".toList ++ model.tableName ++ " where ".toList
      ++ List.intercalate " and ".toList (names.map (fun k => k ++ " = $?".toList))
      ++ (if m._forUpdate then " for update".toList else []))
  refine ⟨translated, htr, ?_⟩
  have hneutral : findByPrimaryKeyNeutral model m
      = "select * from ".toList ++ model.tableName ++ " where ".toList
        ++ List.intercalate " and ".toList (names.map (fun k => k ++ " = $?".toList))
        ++ (if m._forUpdate then " for update".toList else []) := by
    unfold findByPrimaryKeyNeutral
    rw [hname]
    simp only [hclause]
    split_ifs <;> simp
  unfold Mapper.findByPrimaryKey
  rw [hpk, hneutral, htr, hname]
  simp only [hbind]
  simp [execSqlBinder, Outcome.submitted?]

/-- Witness of C4: the key `(shop, num)` of the sample table, bound to `(7, 42)`. -/
theorem composite_primary_key_clause_and_binding_witness :
    makePrimaryKeyCriteria (PrimaryKeyName.composite ["shop".toList, "num".toList])
        "select * from orders".toList
      = "select * from orders where shop = $? and num = $?".toList
    ∧ (Mapper.findByPrimaryKey
          (sampleModel (PrimaryKeyName.composite ["shop".toList, "num".toList]))
          (Mapper.new (sampleClient ClientType.PostgreSQL (DbOutcome.result ⟨[], 0, 0⟩)))
          (PrimaryKeyValue.tuple [SqlArg.size 7, SqlArg.size 42])).submitted?
      = some ⟨"select * from orders where shop = $1 and num = $2".toList,
          [SqlArg.size 7, SqlArg.size 42], Mode.Blocking⟩ := by
  have h := composite_primary_key_clause_and_binding
    (sampleModel (PrimaryKeyName.composite ["shop".toList, "num".toList]))
    (Mapper.new (sampleClient ClientType.PostgreSQL (DbOutcome.result ⟨[], 0, 0⟩)))
    ["shop".toList, "num".toList] [SqlArg.size 7, SqlArg.size 42]
    "select * from orders".toList [] (by decide) (by decide) rfl rfl
  refine ⟨h.1.trans (by decide), ?_⟩
  obtain ⟨translated, h1, h2⟩ := h.2.2.2
  rw [h2]
  have h3 : replaceSqlPlaceHolder ClientType.PostgreSQL
      "select * from orders where shop = $? and num = $?".toList "$?".toList
      = some "select * from orders where shop = $1 and num = $2".toList := by decide
  have h4 : some translated
      = some "select * from orders where shop = $1 and num = $2".toList :=
    h1.symm.trans h3
  rw [Option.some.inj h4]

/-- C5: for a single-column primary key named `k`, `makePrimaryKeyCriteria`
appends exactly ` where k = $?`, `outputPrimeryKeyToBinder` appends exactly one
value, the key itself, and the blocking `findByPrimaryKey` submits the
translated statement `select * from t where k = $?` (followed by ` for update`
when requested) with the key as its only bound value. -/
theorem single_primary_key_clause_and_binding {T : Type} (model : Model T) (m : Mapper)
    (k : Str) (v : SqlArg) (sql : Str) (binder : List SqlArg)
    (hname : model.primaryKeyName = PrimaryKeyName.single k)
    (hpk : model.primaryKeyIsVoid = false) :
    makePrimaryKeyCriteria (PrimaryKeyName.single k) sql
        = sql ++ " where ".toList ++ k ++ " = $?".toList
      ∧ outputPrimeryKeyToBinder (PrimaryKeyName.single k) (PrimaryKeyValue.scalar v) binder
          = some (binder ++ [v])
      ∧ ∃ translated,
          replaceSqlPlaceHolder m._client.type
              ("select * from ".toList ++ model.tableName ++ " where ".toList ++ k
                ++ " = $?".toList ++ (if m._forUpdate then " for update".toList else []))
              "$?".toList = some translated
          ∧ (m.findByPrimaryKey model (PrimaryKeyValue.scalar v)).submitted?
              = some ⟨translated, [v], Mode.Blocking⟩ := by
  refine ⟨rfl, rfl, ?_⟩
  obtain ⟨translated, htr⟩ := replaceSqlPlaceHolder_returns m._client.type
    ("select * from ".toList ++ model.tableName ++ " where ".toList ++ k
      ++ " = $?".toList ++ (if m._forUpdate then " for update".toList else []))
  refine ⟨translated, htr, ?_⟩
  have hneutral : findByPrimaryKeyNeutral model m
      = "select * from ".toList ++ model.tableName ++ " where ".toList ++ k
        ++ " = $?".toList ++ (if m._forUpdate then " for update".toList else []) := by
    unfold findByPrimaryKeyNeutral
    rw [hname]
    unfold makePrimaryKeyCriteria
    split_ifs <;> simp
  unfold Mapper.findByPrimaryKey
  rw [hpk, hneutral, htr, hname]
  simp [execSqlBinder, Outcome.submitted?, outputPrimeryKeyToBinder]

/-- Witness of C5: the key `num` of the sample table, bound to `42`, on Mysql
with `forUpdate()` requested. -/
theorem single_primary_key_clause_and_binding_witness :
    (Mapper.findByPrimaryKey (sampleModel (PrimaryKeyName.single "num".toList))
        { _client := sampleClient ClientType.Mysql (DbOutcome.result ⟨[], 0, 0⟩),
          _forUpdate := true }
        (PrimaryKeyValue.scalar (SqlArg.size 42))).submitted?
      = some ⟨"select * from orders where num = ? for update".toList,
          [SqlArg.size 42], Mode.Blocking⟩ := by
  obtain ⟨translated, h1, h2⟩ := (single_primary_key_clause_and_binding
    (sampleModel (PrimaryKeyName.single "num".toList))
    { _client := sampleClient ClientType.Mysql (DbOutcome.result ⟨[], 0, 0⟩),
      _forUpdate := true }
    "num".toList (SqlArg.size 42) [] [] rfl rfl).2.2
  rw [h2]
  have h3 : replaceSqlPlaceHolder ClientType.Mysql
      "select * from orders where num = $? for update".toList "$?".toList
      = some "select * from orders where num = ? for update".toList := by decide
  have h4 : some translated = some "select * from orders where num = ? for update".toList :=
    h1.symm.trans h3
  rw [Option.some.inj h4]

/-! ## Every operation hands one statement to the client -/

theorem outputPrimeryKeyToBinder_of_matches (name : PrimaryKeyName) (key : PrimaryKeyValue)
    (binder : List SqlArg) (h : KeyMatches name key = true) :
    outputPrimeryKeyToBinder name key binder = some (binder ++ key.components) := by
  cases name <;> cases key <;> simp [KeyMatches] at h
  · rfl
  · rename_i names components
    have := tupleToBinder_eq components binder components.length h (le_refl _)
    simpa [outputPrimeryKeyToBinder, PrimaryKeyValue.components] using this

theorem selectSql_returns (tableName : Str) (m : Mapper) (criteria : Criteria) :
    ∃ sql, selectSql tableName m criteria = some sql := by
  unfold selectSql
  cases (selectNeutral tableName m criteria) with
  | mk sql hasParameters =>
    cases hasParameters with
    | false => exact ⟨_, rfl⟩
    | true =>
      obtain ⟨out, hout⟩ := replaceSqlPlaceHolder_returns m._client.type sql
      exact ⟨if m._forUpdate then out ++ " for update".toList else out, by
        simp only [hout, if_true, Option.map_some']⟩

theorem countSql_returns (tableName : Str) (m : Mapper) (criteria : Criteria) :
    ∃ sql, countSql tableName m criteria = some sql := by
  unfold countSql
  split_ifs
  · exact replaceSqlPlaceHolder_returns _ _
  · exact ⟨_, rfl⟩

theorem deleteBySql_returns (tableName : Str) (m : Mapper) (criteria : Criteria) :
    ∃ sql, deleteBySql tableName m criteria = some sql := by
  unfold deleteBySql
  split_ifs
  · exact replaceSqlPlaceHolder_returns _ _
  · exact ⟨_, rfl⟩

theorem findOne_ran {T : Type} (model : Model T) (m : Mapper) (criteria : Criteria) :
    ∃ sql, selectSql model.tableName m criteria = some sql
      ∧ m.findOne model criteria
        = Outcome.ran ⟨sql, selectArgs m criteria, Mode.Blocking⟩ (Mapper.new m._client)
            (singleRowBlocking model (m._client.exec sql (selectArgs m criteria)))
      ∧ m.findOneCallback model criteria
        = Outcome.ran ⟨sql, selectArgs m criteria, Mode.NonBlocking⟩ (Mapper.new m._client)
            (singleRowCallback model (m._client.exec sql (selectArgs m criteria)))
      ∧ m.findFutureOne model criteria
        = Outcome.ran ⟨sql, selectArgs m criteria, Mode.NonBlocking⟩ (Mapper.new m._client)
            (singleRowFuture model (m._client.exec sql (selectArgs m criteria))) := by
  obtain ⟨sql, hsql⟩ := selectSql_returns model.tableName m criteria
  refine ⟨sql, hsql, ?_, ?_, ?_⟩
  · simp only [Mapper.findOne, hsql]; rfl
  · simp only [Mapper.findOneCallback, hsql]; rfl
  · simp only [Mapper.findFutureOne, hsql]; rfl

theorem findBy_ran {T : Type} (model : Model T) (m : Mapper) (criteria : Criteria) :
    ∃ sql, selectSql model.tableName m criteria = some sql
      ∧ m.findBy model criteria
        = Outcome.ran ⟨sql, selectArgs m criteria, Mode.Blocking⟩ (Mapper.new m._client)
            (multipleRowsBlocking model (m._client.exec sql (selectArgs m criteria)))
      ∧ m.findByCallback model criteria
        = Outcome.ran ⟨sql, selectArgs m criteria, Mode.NonBlocking⟩ (Mapper.new m._client)
            (multipleRowsCallback model (m._client.exec sql (selectArgs m criteria)))
      ∧ m.findFutureBy model criteria
        = Outcome.ran ⟨sql, selectArgs m criteria, Mode.NonBlocking⟩ (Mapper.new m._client)
            (multipleRowsFuture model (m._client.exec sql (selectArgs m criteria))) := by
  obtain ⟨sql, hsql⟩ := selectSql_returns model.tableName m criteria
  refine ⟨sql, hsql, ?_, ?_, ?_⟩
  · simp only [Mapper.findBy, hsql]; rfl
  · simp only [Mapper.findByCallback, hsql]; rfl
  · simp only [Mapper.findFutureBy, hsql]; rfl

theorem count_ran {T : Type} (model : Model T) (m : Mapper) (criteria : Criteria) :
    ∃ sql args, countSql model.tableName m criteria = some sql
      ∧ args = (if criteria.toBool then criteria.outputArgs [] else [])
      ∧ m.count model criteria
        = Outcome.ran ⟨sql, args, Mode.Blocking⟩ (Mapper.new m._client)
            (countBlocking (m._client.exec sql args))
      ∧ m.countCallback model criteria
        = Outcome.ran ⟨sql, args, Mode.NonBlocking⟩ (Mapper.new m._client)
            (countCallbackDelivery (m._client.exec sql args))
      ∧ m.countFuture model criteria
        = Outcome.ran ⟨sql, args, Mode.NonBlocking⟩ (Mapper.new m._client)
            (countFutureDelivery (m._client.exec sql args)) := by
  obtain ⟨sql, hsql⟩ := countSql_returns model.tableName m criteria
  refine ⟨sql, _, hsql, rfl, ?_, ?_, ?_⟩
  · simp only [Mapper.count, hsql]; rfl
  · simp only [Mapper.countCallback, hsql]; rfl
  · simp only [Mapper.countFuture, hsql]; rfl

theorem insert_ran {T : Type} (model : Model T) (m : Mapper) (obj : T) :
    ∃ sql, replaceSqlPlaceHolder m._client.type
          (insertNeutral model.tableName model.insertColumns m._client.type) "$?".toList
        = some sql
      ∧ m.insert model obj
        = Outcome.ran ⟨sql, model.outputArgs obj, Mode.Blocking⟩ (Mapper.new m._client)
            (insertBlocking model m._client.type obj
              (m._client.exec sql (model.outputArgs obj)))
      ∧ m.insertCallback model obj
        = Outcome.ran ⟨sql, model.outputArgs obj, Mode.NonBlocking⟩ (Mapper.new m._client)
            (insertCallbackDelivery model m._client.type obj
              (m._client.exec sql (model.outputArgs obj)))
      ∧ m.insertFuture model obj
        = Outcome.ran ⟨sql, model.outputArgs obj, Mode.NonBlocking⟩ (Mapper.new m._client)
            (insertFutureDelivery model m._client.type obj
              (m._client.exec sql (model.outputArgs obj))) := by
  obtain ⟨sql, hsql⟩ := replaceSqlPlaceHolder_returns m._client.type
    (insertNeutral model.tableName model.insertColumns m._client.type)
  have hsql2 : replaceSqlPlaceHolder m.clear._client.type
      (insertNeutral model.tableName model.insertColumns m.clear._client.type) "$?".toList
      = some sql := hsql
  refine ⟨sql, hsql, ?_, ?_, ?_⟩
  · simp only [Mapper.insert, hsql2]; rfl
  · simp only [Mapper.insertCallback, hsql2]; rfl
  · simp only [Mapper.insertFuture, hsql2]; rfl

theorem findByPrimaryKey_ran {T : Type} (model : Model T) (m : Mapper) (key : PrimaryKeyValue)
    (hpk : model.primaryKeyIsVoid = false) (hkey : KeyMatches model.primaryKeyName key = true) :
    ∃ sql, replaceSqlPlaceHolder m._client.type (findByPrimaryKeyNeutral model m) "$?".toList
        = some sql
      ∧ m.findByPrimaryKey model key
        = Outcome.ran ⟨sql, key.components, Mode.Blocking⟩ (Mapper.new m._client)
            (singleRowBlocking model (m._client.exec sql key.components))
      ∧ m.findByPrimaryKeyCallback model key
        = Outcome.ran ⟨sql, key.components, Mode.NonBlocking⟩ (Mapper.new m._client)
            (singleRowCallback model (m._client.exec sql key.components))
      ∧ m.findFutureByPrimaryKey model key
        = Outcome.ran ⟨sql, key.components, Mode.NonBlocking⟩ (Mapper.new m._client)
            (singleRowFuture model (m._client.exec sql key.components)) := by
  obtain ⟨sql, hsql⟩ := replaceSqlPlaceHolder_returns m._client.type
    (findByPrimaryKeyNeutral model m)
  have hargs := outputPrimeryKeyToBinder_of_matches model.primaryKeyName key [] hkey
  rw [List.nil_append] at hargs
  refine ⟨sql, hsql, ?_, ?_, ?_⟩
  · simp only [Mapper.findByPrimaryKey, hpk, hsql, hargs]; rfl
  · simp only [Mapper.findByPrimaryKeyCallback, hpk, hsql, hargs]; rfl
  · simp only [Mapper.findFutureByPrimaryKey, hpk, hsql, hargs]; rfl

theorem update_ran {T : Type} (model : Model T) (m : Mapper) (obj : T)
    (hpk : model.primaryKeyIsVoid = false)
    (hkey : KeyMatches model.primaryKeyName (model.getPrimaryKey obj) = true) :
    ∃ sql args, replaceSqlPlaceHolder m._client.type
          (updateNeutral model.tableName (model.updateColumns obj) model.primaryKeyName)
          "$?".toList = some sql
      ∧ args = model.updateArgs obj ++ (model.getPrimaryKey obj).components
      ∧ m.update model obj
        = Outcome.ran ⟨sql, args, Mode.Blocking⟩ (Mapper.new m._client)
            (affectedRowsBlocking (m._client.exec sql args))
      ∧ m.updateCallback model obj
        = Outcome.ran ⟨sql, args, Mode.NonBlocking⟩ (Mapper.new m._client)
            (affectedRowsCallback (m._client.exec sql args))
      ∧ m.updateFuture model obj
        = Outcome.ran ⟨sql, args, Mode.NonBlocking⟩ (Mapper.new m._client)
            (affectedRowsFuture (m._client.exec sql args)) := by
  obtain ⟨sql, hsql⟩ := replaceSqlPlaceHolder_returns m._client.type
    (updateNeutral model.tableName (model.updateColumns obj) model.primaryKeyName)
  have hsql2 : replaceSqlPlaceHolder m.clear._client.type
      (updateNeutral model.tableName (model.updateColumns obj) model.primaryKeyName)
      "$?".toList = some sql := hsql
  have hargs := outputPrimeryKeyToBinder_of_matches model.primaryKeyName
    (model.getPrimaryKey obj) (model.updateArgs obj) hkey
  refine ⟨sql, _, hsql, rfl, ?_, ?_, ?_⟩
  · simp only [Mapper.update, hpk, hsql2, hargs]; rfl
  · simp only [Mapper.updateCallback, hpk, hsql2, hargs]; rfl
  · simp only [Mapper.updateFuture, hpk, hsql2, hargs]; rfl

theorem deleteOne_ran {T : Type} (model : Model T) (m : Mapper) (obj : T)
    (hpk : model.primaryKeyIsVoid = false)
    (hkey : KeyMatches model.primaryKeyName (model.getPrimaryKey obj) = true) :
    ∃ sql args, replaceSqlPlaceHolder m._client.type
          (deleteOneNeutral model.tableName model.primaryKeyName) "$?".toList = some sql
      ∧ args = (model.getPrimaryKey obj).components
      ∧ m.deleteOne model obj
        = Outcome.ran ⟨sql, args, Mode.Blocking⟩ (Mapper.new m._client)
            (affectedRowsBlocking (m._client.exec sql args))
      ∧ m.deleteOneCallback model obj
        = Outcome.ran ⟨sql, args, Mode.NonBlocking⟩ (Mapper.new m._client)
            (affectedRowsCallback (m._client.exec sql args))
      ∧ m.deleteFutureOne model obj
        = Outcome.ran ⟨sql, args, Mode.NonBlocking⟩ (Mapper.new m._client)
            (affectedRowsFuture (m._client.exec sql args)) := by
  obtain ⟨sql, hsql⟩ := replaceSqlPlaceHolder_returns m._client.type
    (deleteOneNeutral model.tableName model.primaryKeyName)
  have hsql2 : replaceSqlPlaceHolder m.clear._client.type
      (deleteOneNeutral model.tableName model.primaryKeyName) "$?".toList = some sql := hsql
  have hargs := outputPrimeryKeyToBinder_of_matches model.primaryKeyName
    (model.getPrimaryKey obj) [] hkey
  rw [List.nil_append] at hargs
  refine ⟨sql, _, hsql, rfl, ?_, ?_, ?_⟩
  · simp only [Mapper.deleteOne, hpk, hsql2, hargs]; rfl
  · simp only [Mapper.deleteOneCallback, hpk, hsql2, hargs]; rfl
  · simp only [Mapper.deleteFutureOne, hpk, hsql2, hargs]; rfl

theorem deleteBy_ran {T : Type} (model : Model T) (m : Mapper) (criteria : Criteria)
    (hpk : model.primaryKeyIsVoid = false) :
    ∃ sql args, deleteBySql model.tableName m criteria = some sql
      ∧ args = (if criteria.toBool then criteria.outputArgs [] else [])
      ∧ m.deleteBy model criteria
        = Outcome.ran ⟨sql, args, Mode.Blocking⟩ (Mapper.new m._client)
            (affectedRowsBlocking (m._client.exec sql args))
      ∧ m.deleteByCallback model criteria
        = Outcome.ran ⟨sql, args, Mode.NonBlocking⟩ (Mapper.new m._client)
            (affectedRowsCallback (m._client.exec sql args))
      ∧ m.deleteFutureBy model criteria
        = Outcome.ran ⟨sql, args, Mode.NonBlocking⟩ (Mapper.new m._client)
            (affectedRowsFuture (m._client.exec sql args)) := by
  obtain ⟨sql, hsql⟩ := deleteBySql_returns model.tableName m criteria
  have hsql2 : deleteBySql model.tableName m.clear criteria = some sql := hsql
  refine ⟨sql, _, hsql, rfl, ?_, ?_, ?_⟩
  · simp only [Mapper.deleteBy, hpk, hsql2]; rfl
  · simp only [Mapper.deleteByCallback, hpk, hsql2]; rfl
  · simp only [Mapper.deleteFutureBy, hpk, hsql2]; rfl

theorem outputPrimeryKeyToBinder_of_not_matches (name : PrimaryKeyName)
    (key : PrimaryKeyValue) (binder : List SqlArg) (h : KeyMatches name key = false) :
    outputPrimeryKeyToBinder name key binder = none := by
  cases name <;> cases key <;> simp [KeyMatches] at h <;> first | rfl | (subst h; rfl)

theorem execSqlBinder_delivery_none {δ : Type} (after : Mapper) (mode : Mode)
    (sql : Option Str) (handler : DbOutcome → δ) :
    (execSqlBinder after mode sql none handler).delivery? = none := by
  cases sql <;> rfl

/-! ## The three deliveries of one answer -/

theorem singleRow_deliveries_agree {T : Type} (model : Model T) (o : DbOutcome) :
    DeliveriesAgree (singleRowBlocking model o) (singleRowCallback model o)
      (singleRowFuture model o) := by
  cases o with
  | failure e => exact Or.inr (Or.inl ⟨e, rfl, rfl, rfl⟩)
  | result r =>
    obtain ⟨rows, a, i⟩ := r
    match rows with
    | [] => exact Or.inr (Or.inl ⟨_, rfl, rfl, rfl⟩)
    | [row] => exact Or.inl ⟨_, rfl, rfl, rfl⟩
    | _ :: _ :: _ => exact Or.inr (Or.inl ⟨_, rfl, rfl, rfl⟩)

theorem multipleRows_deliveries_agree {T : Type} (model : Model T) (o : DbOutcome) :
    DeliveriesAgree (multipleRowsBlocking model o) (multipleRowsCallback model o)
      (multipleRowsFuture model o) := by
  cases o with
  | failure e => exact Or.inr (Or.inl ⟨e, rfl, rfl, rfl⟩)
  | result r => exact Or.inl ⟨_, rfl, rfl, rfl⟩

theorem count_deliveries_agree (o : DbOutcome) :
    DeliveriesAgree (countBlocking o) (countCallbackDelivery o) (countFutureDelivery o) := by
  cases o with
  | failure e => exact Or.inr (Or.inl ⟨e, rfl, rfl, rfl⟩)
  | result r =>
    obtain ⟨rows, a, i⟩ := r
    match rows with
    | [] => exact Or.inr (Or.inr ⟨rfl, rfl, rfl⟩)
    | [row] => exact Or.inl ⟨_, rfl, rfl, rfl⟩
    | _ :: _ :: _ => exact Or.inr (Or.inr ⟨rfl, rfl, rfl⟩)

theorem insert_deliveries_agree {T : Type} (model : Model T) (type : ClientType) (obj : T)
    (o : DbOutcome) :
    DeliveriesAgree (insertBlocking model type obj o) (insertCallbackDelivery model type obj o)
      (insertFutureDelivery model type obj o) := by
  cases o with
  | failure e => exact Or.inr (Or.inl ⟨e, rfl, rfl, rfl⟩)
  | result r =>
    obtain ⟨rows, a, i⟩ := r
    by_cases ht : type = ClientType.PostgreSQL
    · match rows with
      | [] =>
        exact Or.inr (Or.inr ⟨by simp [insertBlocking, ht],
          by simp [insertCallbackDelivery, ht], by simp [insertFutureDelivery, ht]⟩)
      | [row] =>
        exact Or.inl ⟨model.fromRow row, by simp [insertBlocking, ht],
          by simp [insertCallbackDelivery, ht],
          by simp [insertFutureDelivery, ht, Promise.set_value]⟩
      | _ :: _ :: _ =>
        exact Or.inr (Or.inr ⟨by simp [insertBlocking, ht],
          by simp [insertCallbackDelivery, ht], by simp [insertFutureDelivery, ht]⟩)
    · exact Or.inl ⟨model.updateId obj i, by simp [insertBlocking, ht],
        by simp [insertCallbackDelivery, ht],
        by simp [insertFutureDelivery, ht, Promise.set_value]⟩

theorem affectedRows_deliveries_agree (o : DbOutcome) :
    DeliveriesAgree (affectedRowsBlocking o) (affectedRowsCallback o) (affectedRowsFuture o) := by
  cases o with
  | failure e => exact Or.inr (Or.inl ⟨e, rfl, rfl, rfl⟩)
  | result r => exact Or.inl ⟨_, rfl, rfl, rfl⟩

theorem conventionsAgree_of_ran {α : Type} {b : Outcome (Blocking α)}
    {c : Outcome (Callbacks α)} {f : Outcome (Future α)} {sb sc sf : Submission}
    {ab ac af : Mapper} {db : Blocking α} {dc : Callbacks α} {df : Future α}
    (hb : b = Outcome.ran sb ab db) (hc : c = Outcome.ran sc ac dc)
    (hf : f = Outcome.ran sf af df) (h : DeliveriesAgree db dc df) :
    ConventionsAgree b c f := by
  subst hb hc hf
  unfold ConventionsAgree Returns Raises CallsResult CallsException ResolvesTo Rejects
  simp only [Outcome.delivery?]
  rcases h with ⟨v, rfl, rfl, rfl⟩ | ⟨e, rfl, rfl, rfl⟩ | ⟨rfl, rfl, rfl⟩ <;> simp

theorem conventionsAgree_of_none {α : Type} {b : Outcome (Blocking α)}
    {c : Outcome (Callbacks α)} {f : Outcome (Future α)}
    (hb : b.delivery? = none) (hc : c.delivery? = none) (hf : f.delivery? = none) :
    ConventionsAgree b c f := by
  unfold ConventionsAgree Returns Raises CallsResult CallsException ResolvesTo Rejects
  simp [hb, hc, hf]

/-! ## Call-state after a terminal operation -/

/-- C6: every terminal operation that compiles, in each calling convention,
leaves the mapper in the call-state of a freshly constructed mapper (limit 0,
offset 0, empty order-by text, for-update false), whatever the call-state
before and whatever the client answers (a result or an error). The operations
guarded by the `static_assert` on the primary key (`findByPrimaryKey`, `update`,
`deleteOne`, `deleteBy`) compile when the primary-key type is not `void` and the
key value has the shape of the key name. -/
theorem call_state_cleared_after_terminal_operation {T : Type} (model : Model T)
    (m : Mapper) :
    (∀ key, model.primaryKeyIsVoid = false → KeyMatches model.primaryKeyName key = true →
        (m.findByPrimaryKey model key).after? = some (Mapper.new m._client)
        ∧ (m.findByPrimaryKeyCallback model key).after? = some (Mapper.new m._client)
        ∧ (m.findFutureByPrimaryKey model key).after? = some (Mapper.new m._client))
    ∧ (∀ obj, model.primaryKeyIsVoid = false →
        KeyMatches model.primaryKeyName (model.getPrimaryKey obj) = true →
        (m.update model obj).after? = some (Mapper.new m._client)
        ∧ (m.updateCallback model obj).after? = some (Mapper.new m._client)
        ∧ (m.updateFuture model obj).after? = some (Mapper.new m._client)
        ∧ (m.deleteOne model obj).after? = some (Mapper.new m._client)
        ∧ (m.deleteOneCallback model obj).after? = some (Mapper.new m._client)
        ∧ (m.deleteFutureOne model obj).after? = some (Mapper.new m._client))
    ∧ (∀ criteria, model.primaryKeyIsVoid = false →
        (m.deleteBy model criteria).after? = some (Mapper.new m._client)
        ∧ (m.deleteByCallback model criteria).after? = some (Mapper.new m._client)
        ∧ (m.deleteFutureBy model criteria).after? = some (Mapper.new m._client))
    ∧ (∀ criteria,
        (m.findOne model criteria).after? = some (Mapper.new m._client)
        ∧ (m.findOneCallback model criteria).after? = some (Mapper.new m._client)
        ∧ (m.findFutureOne model criteria).after? = some (Mapper.new m._client)
        ∧ (m.findBy model criteria).after? = some (Mapper.new m._client)
        ∧ (m.findByCallback model criteria).after? = some (Mapper.new m._client)
        ∧ (m.findFutureBy model criteria).after? = some (Mapper.new m._client)
        ∧ (m.count model criteria).after? = some (Mapper.new m._client)
        ∧ (m.countCallback model criteria).after? = some (Mapper.new m._client)
        ∧ (m.countFuture model criteria).after? = some (Mapper.new m._client))
    ∧ ((m.findAll model).after? = some (Mapper.new m._client)
        ∧ (m.findAllCallback model).after? = some (Mapper.new m._client)
        ∧ (m.findFutureAll model).after? = some (Mapper.new m._client))
    ∧ (∀ obj,
        (m.insert model obj).after? = some (Mapper.new m._client)
        ∧ (m.insertCallback model obj).after? = some (Mapper.new m._client)
        ∧ (m.insertFuture model obj).after? = some (Mapper.new m._client))
    ∧ ((Mapper.new m._client)._limit = 0 ∧ (Mapper.new m._client)._offset = 0
        ∧ (Mapper.new m._client)._orderbyString = []
        ∧ (Mapper.new m._client)._forUpdate = false) := by
  refine ⟨?_, ?_, ?_, ?_, ?_, ?_, ⟨rfl, rfl, rfl, rfl⟩⟩
  · intro key hpk hkey
    obtain ⟨sql, _, h1, h2, h3⟩ := findByPrimaryKey_ran model m key hpk hkey
    rw [h1, h2, h3]
    exact ⟨rfl, rfl, rfl⟩
  · intro obj hpk hkey
    obtain ⟨sql, args, _, _, h1, h2, h3⟩ := update_ran model m obj hpk hkey
    obtain ⟨sql2, args2, _, _, h4, h5, h6⟩ := deleteOne_ran model m obj hpk hkey
    rw [h1, h2, h3, h4, h5, h6]
    exact ⟨rfl, rfl, rfl, rfl, rfl, rfl⟩
  · intro criteria hpk
    obtain ⟨sql, args, _, _, h1, h2, h3⟩ := deleteBy_ran model m criteria hpk
    rw [h1, h2, h3]
    exact ⟨rfl, rfl, rfl⟩
  · intro criteria
    obtain ⟨sql, _, h1, h2, h3⟩ := findOne_ran model m criteria
    obtain ⟨sql2, _, h4, h5, h6⟩ := findBy_ran model m criteria
    obtain ⟨sql3, args3, _, _, h7, h8, h9⟩ := count_ran model m criteria
    rw [h1, h2, h3, h4, h5, h6, h7, h8, h9]
    exact ⟨rfl, rfl, rfl, rfl, rfl, rfl, rfl, rfl, rfl⟩
  · obtain ⟨sql, _, h1, h2, h3⟩ := findBy_ran model m Criteria.empty
    unfold Mapper.findAll Mapper.findAllCallback Mapper.findFutureAll
    rw [h1, h2, h3]
    exact ⟨rfl, rfl, rfl⟩
  · intro obj
    obtain ⟨sql, _, h1, h2, h3⟩ := insert_ran model m obj
    rw [h1, h2, h3]
    exact ⟨rfl, rfl, rfl⟩

/-- Witness of C6: `findByPrimaryKey` on the sample table, called on a mapper
with limit 5, offset 2, an order-by text and for-update set, against a client
that reports an error. -/
theorem call_state_cleared_after_terminal_operation_witness :
    (sampleModel (PrimaryKeyName.single "num".toList)).primaryKeyIsVoid = false
    ∧ KeyMatches (sampleModel (PrimaryKeyName.single "num".toList)).primaryKeyName
        (PrimaryKeyValue.scalar (SqlArg.size 42)) = true
    ∧ (Mapper.findByPrimaryKey (sampleModel (PrimaryKeyName.single "num".toList))
          { _client := sampleClient ClientType.PostgreSQL
              (DbOutcome.failure (DbException.Failure "connection lost".toList)),
            _limit := 5, _offset := 2, _orderbyString := " order by num".toList,
            _forUpdate := true }
          (PrimaryKeyValue.scalar (SqlArg.size 42))).after?
        = some (Mapper.new (sampleClient ClientType.PostgreSQL
            (DbOutcome.failure (DbException.Failure "connection lost".toList)))) :=
  ⟨rfl, rfl,
    ((call_state_cleared_after_terminal_operation
      (sampleModel (PrimaryKeyName.single "num".toList))
      { _client := sampleClient ClientType.PostgreSQL
          (DbOutcome.failure (DbException.Failure "connection lost".toList)),
        _limit := 5, _offset := 2, _orderbyString := " order by num".toList,
        _forUpdate := true }).1
      (PrimaryKeyValue.scalar (SqlArg.size 42)) rfl rfl).1⟩

/-! ## Counting placeholders -/

theorem placeholderCount_holder (tail : Str) :
    placeholderCount ('$' :: '?' :: tail) = placeholderCount tail + 1 := by
  rw [placeholderCount]

theorem placeholderCount_other (c : Char) (rest : Str) (h : ¬ (['$', '?'] <+: c :: rest)) :
    placeholderCount (c :: rest) = placeholderCount rest := by
  rw [placeholderCount]
  intro tail hc hr
  exact h ((holder_prefix_cons c rest).2 ⟨hc, tail, hr⟩)

/-- The placeholders counted are the tokens at which the text splits. -/
theorem placeholderCount_eq_split (s : Str) :
    placeholderCount s = (splitPlaceholders s).2.length := by
  suffices H : ∀ n (s : Str), s.length = n →
      placeholderCount s = (splitPlaceholders s).2.length from H s.length s rfl
  intro n
  induction n using Nat.strong_induction_on with
  | _ n ih =>
    intro s hn
    cases s with
    | nil => rfl
    | cons c rest =>
      by_cases hd : ['$', '?'] <+: c :: rest
      · obtain ⟨rfl, t, rfl⟩ := (holder_prefix_cons c rest).1 hd
        rw [placeholderCount_holder, splitPlaceholders_holder,
          ih t.length (by simp at hn; omega) t rfl]
        rfl
      · rw [placeholderCount_other c rest hd, splitPlaceholders_other c rest hd,
          ih rest.length (by simp at hn; omega) rest rfl]

/-- Placeholders add up over a concatenation whose seam does not form a token. -/
theorem placeholderCount_append (a b : Str)
    (h : ¬ (a.getLast? = some '$' ∧ b.head? = some '?')) :
    placeholderCount (a ++ b) = placeholderCount a + placeholderCount b := by
  suffices H : ∀ n (a : Str), a.length = n →
      ¬ (a.getLast? = some '$' ∧ b.head? = some '?') →
      placeholderCount (a ++ b) = placeholderCount a + placeholderCount b from
    H a.length a rfl h
  intro n
  induction n using Nat.strong_induction_on with
  | _ n ih =>
    intro a hn hseam
    cases a with
    | nil => simp [placeholderCount]
    | cons c rest =>
      have hrest : ¬ (rest.getLast? = some '$' ∧ b.head? = some '?') ∨ rest = [] := by
        cases rest with
        | nil => exact Or.inr rfl
        | cons d r =>
          refine Or.inl (fun hx => hseam ?_)
          simpa [List.getLast?_cons_cons] using hx
      by_cases hd : ['$', '?'] <+: c :: rest
      · obtain ⟨rfl, t, rfl⟩ := (holder_prefix_cons c rest).1 hd
        have ht : ¬ (t.getLast? = some '$' ∧ b.head? = some '?') ∨ t = [] := by
          cases t with
          | nil => exact Or.inr rfl
          | cons d r =>
            refine Or.inl (fun hx => hseam ?_)
            simpa [List.getLast?_cons_cons] using hx
        rw [List.cons_append, List.cons_append, placeholderCount_holder,
          placeholderCount_holder]
        rcases ht with ht | rfl
        · rw [ih t.length (by simp at hn; omega) t rfl ht]
          omega
        · simp [placeholderCount]
          omega
      · have hd2 : ¬ (['$', '?'] <+: c :: (rest ++ b)) := by
          rw [holder_prefix_cons]
          rintro ⟨hc, q, hq⟩
          cases rest with
          | nil =>
            apply hseam
            simp only [List.nil_append] at hq
            exact ⟨by simp [hc], by simp [hq]⟩
          | cons d r =>
            simp only [List.cons_append, List.cons.injEq] at hq
            exact hd ((holder_prefix_cons c (d :: r)).2 ⟨hc, r, by rw [hq.1]⟩)
        rw [List.cons_append, placeholderCount_other _ _ hd2, placeholderCount_other _ _ hd]
        rcases hrest with hrest | rfl
        · exact ih rest.length (by simp at hn; omega) rest rfl hrest
        · simp [placeholderCount]

theorem placeholderCount_append_of_head (a b : Str) (h : b.head? ≠ some '?') :
    placeholderCount (a ++ b) = placeholderCount a + placeholderCount b :=
  placeholderCount_append a b (fun hx => h hx.2)

theorem placeholderCount_append_of_last (a b : Str) (h : a.getLast? ≠ some '$') :
    placeholderCount (a ++ b) = placeholderCount a + placeholderCount b :=
  placeholderCount_append a b (fun hx => h hx.1)

theorem placeholderCount_forUpdate (x : Str) (f : Bool) :
    placeholderCount (x ++ forUpdateClause f) = placeholderCount x := by
  cases f
  · simp [forUpdateClause]
  · rw [placeholderCount_append_of_head _ _ (by decide)]
    rfl

theorem placeholderCount_limit (x : Str) (l : Nat) :
    placeholderCount (x ++ (if l > 0 then " limit $?".toList else []))
      = placeholderCount x + (if l > 0 then 1 else 0) := by
  split_ifs
  · rw [placeholderCount_append_of_head _ _ (by decide)]
    rfl
  · simp

theorem placeholderCount_offset (x : Str) (o : Nat) :
    placeholderCount (x ++ (if o > 0 then " offset $?".toList else []))
      = placeholderCount x + (if o > 0 then 1 else 0) := by
  split_ifs
  · rw [placeholderCount_append_of_head _ _ (by decide)]
    rfl
  · simp

theorem placeholderCount_where (x : Str) (criteria : Criteria) :
    placeholderCount (x ++ whereClause criteria)
      = placeholderCount x + placeholderCount criteria.criteriaString := by
  cases criteria with
  | empty => simp [whereClause, Criteria.criteriaString, placeholderCount]
  | cond c A =>
    have h1 : (" where ".toList ++ c).head? ≠ some '?' := by
      simp
    have h2 : " where ".toList.getLast? ≠ some '$' := by decide
    rw [whereClause, placeholderCount_append_of_head _ _ h1,
      placeholderCount_append_of_last _ _ h2]
    simp [Criteria.criteriaString]
    rfl

/-- The neutral select statement carries as many placeholders as there are
bound values, when the table name and the order-by text carry none and the
criteria fragment carries one per criteria value. -/
theorem select_placeholders (t : Str) (criteria : Criteria) (ob : Str) (l o : Nat) (f : Bool)
    (ht : placeholderCount t = 0) (hob : placeholderCount ob = 0)
    (hobh : ob.head? ≠ some '?')
    (hc : placeholderCount criteria.criteriaString = (criteriaValues criteria).length) :
    placeholderCount (selectBody t criteria ob l o ++ forUpdateClause f)
      = (selectValues criteria l o).length := by
  have h0 : "select * from ".toList.getLast? ≠ some '$' := by decide
  unfold selectBody selectValues
  rw [placeholderCount_forUpdate, placeholderCount_offset, placeholderCount_limit,
    placeholderCount_append_of_head _ _ hobh, placeholderCount_where,
    placeholderCount_append_of_last _ _ h0, ht, hob, hc]
  have hz : placeholderCount "select * from ".toList = 0 := rfl
  rw [hz]
  simp only [List.length_append]
  split_ifs <;> simp

/-! ## The select statement -/

theorem selectNeutral_eq (t : Str) (m : Mapper) (criteria : Criteria) :
    selectNeutral t m criteria
      = (selectBody t criteria m._orderbyString m._limit m._offset,
          selectHasParameters criteria m._limit m._offset) := by
  unfold selectNeutral selectBody selectHasParameters
  cases criteria <;> by_cases hl : m._limit > 0 <;> by_cases ho : m._offset > 0 <;>
    simp [Criteria.toBool, Criteria.criteriaString, whereClause, hl, ho]

theorem selectArgs_eq (m : Mapper) (criteria : Criteria) :
    selectArgs m criteria = selectValues criteria m._limit m._offset := by
  unfold selectArgs selectValues
  have ho : (m._offset ≠ 0) = (m._offset > 0) := by
    simp [Nat.pos_iff_ne_zero]
  cases criteria <;> by_cases hl : m._limit > 0 <;> by_cases ho : m._offset > 0 <;>
    simp [Criteria.toBool, Criteria.outputArgs, criteriaValues, hl, ho] <;> omega

theorem selectSql_eq (t : Str) (m : Mapper) (criteria : Criteria) :
    selectSql t m criteria
      = ((if selectHasParameters criteria m._limit m._offset = true then
            replaceSqlPlaceHolder m._client.type
              (selectBody t criteria m._orderbyString m._limit m._offset) "$?".toList
          else some (selectBody t criteria m._orderbyString m._limit m._offset)).map
          (fun body => body ++ forUpdateClause m._forUpdate)) := by
  unfold selectSql
  rw [selectNeutral_eq]
  simp only [forUpdateClause]
  congr 1
  funext body
  split_ifs <;> simp

/-- C7: for `findBy` and `findOne` (in each convention) on table `t` with
criteria fragment `c` and values `A` (or an empty criteria), order-by text `ob`,
limit `l`, offset `o` and for-update flag `f`, the text built before
translation is `select * from t [ where c] ob [ limit $?][ offset $?]`; the
statement handed to the client is that text, translated for the dialect when a
criteria, a limit or an offset is present, followed by ` for update` when `f`
is set, so that for an untranslated dialect it is the neutral statement itself;
and the bound values are `A ++ [l if l > 0] ++ [o if o > 0]`. When the table
name and the order-by text carry no placeholder and the criteria fragment
carries one placeholder per criteria value, the neutral statement carries
exactly as many placeholders as there are bound values, those of the criteria
first, then the limit, then the offset. -/
theorem findBy_findOne_statement {T : Type} (model : Model T) (m : Mapper)
    (criteria : Criteria) :
    (selectNeutral model.tableName m criteria).1
        = selectBody model.tableName criteria m._orderbyString m._limit m._offset
    ∧ (placeholderCount model.tableName = 0 → placeholderCount m._orderbyString = 0 →
        m._orderbyString.head? ≠ some '?' →
        placeholderCount criteria.criteriaString = (criteriaValues criteria).length →
        placeholderCount
            (selectBody model.tableName criteria m._orderbyString m._limit m._offset
              ++ forUpdateClause m._forUpdate)
          = (selectValues criteria m._limit m._offset).length)
    ∧ ∃ body,
        (if selectHasParameters criteria m._limit m._offset = true then
            replaceSqlPlaceHolder m._client.type
              (selectBody model.tableName criteria m._orderbyString m._limit m._offset)
              "$?".toList
          else some (selectBody model.tableName criteria m._orderbyString m._limit m._offset))
          = some body
        ∧ (m._client.type = ClientType.Other →
            body = selectBody model.tableName criteria m._orderbyString m._limit m._offset)
        ∧ (m.findBy model criteria).submitted?
            = some ⟨body ++ forUpdateClause m._forUpdate,
                selectValues criteria m._limit m._offset, Mode.Blocking⟩
        ∧ (m.findByCallback model criteria).submitted?
            = some ⟨body ++ forUpdateClause m._forUpdate,
                selectValues criteria m._limit m._offset, Mode.NonBlocking⟩
        ∧ (m.findFutureBy model criteria).submitted?
            = some ⟨body ++ forUpdateClause m._forUpdate,
                selectValues criteria m._limit m._offset, Mode.NonBlocking⟩
        ∧ (m.findOne model criteria).submitted?
            = some ⟨body ++ forUpdateClause m._forUpdate,
                selectValues criteria m._limit m._offset, Mode.Blocking⟩
        ∧ (m.findOneCallback model criteria).submitted?
            = some ⟨body ++ forUpdateClause m._forUpdate,
                selectValues criteria m._limit m._offset, Mode.NonBlocking⟩
        ∧ (m.findFutureOne model criteria).submitted?
            = some ⟨body ++ forUpdateClause m._forUpdate,
                selectValues criteria m._limit m._offset, Mode.NonBlocking⟩ := by
  refine ⟨by rw [selectNeutral_eq],
    fun ht hob hobh hc => select_placeholders _ _ _ _ _ _ ht hob hobh hc, ?_⟩
  obtain ⟨sql, hsql, h1, h2, h3⟩ := findBy_ran model m criteria
  obtain ⟨sql2, hsql2, h4, h5, h6⟩ := findOne_ran model m criteria
  have hsame : sql2 = sql := Option.some.inj (hsql2.symm.trans hsql)
  subst hsame
  rw [selectSql_eq] at hsql
  rw [h1, h2, h3, h4, h5, h6, selectArgs_eq]
  simp only [Outcome.submitted?]
  cases hbody : (if selectHasParameters criteria m._limit m._offset = true then
      replaceSqlPlaceHolder m._client.type
        (selectBody model.tableName criteria m._orderbyString m._limit m._offset) "$?".toList
    else some (selectBody model.tableName criteria m._orderbyString m._limit m._offset)) with
  | none => rw [hbody] at hsql; simp at hsql
  | some body =>
    rw [hbody] at hsql
    have hs : sql2 = body ++ forUpdateClause m._forUpdate := by
      simpa using hsql.symm
    subst hs
    refine ⟨body, rfl, ?_, rfl, rfl, rfl, rfl, rfl, rfl⟩
    intro hother
    split_ifs at hbody
    · unfold replaceSqlPlaceHolder replaceSqlPlaceHolderFuel at hbody
      rw [hother] at hbody
      simpa using hbody.symm
    · simpa using hbody.symm

/-- Witness of C7: `findBy` on the sample table with the criteria
`total > $?` bound to 100, an order-by text, limit 5, offset 2 and for-update,
on PostgreSQL. -/
theorem findBy_findOne_statement_witness :
    placeholderCount
        ("select * from orders where total > $? order by num limit $? offset $?".toList
          ++ " for update".toList) = 3
    ∧ (Mapper.findBy (sampleModel (PrimaryKeyName.single "num".toList))
          { _client := sampleClient ClientType.PostgreSQL (DbOutcome.result ⟨[], 0, 0⟩),
            _limit := 5, _offset := 2, _orderbyString := " order by num".toList,
            _forUpdate := true }
          (Criteria.cond "total > $?".toList [SqlArg.int 100])).submitted?
        = some ⟨"select * from orders where total > $1 order by num limit $2 offset $3 for update".toList,
            [SqlArg.int 100, SqlArg.size 5, SqlArg.size 2], Mode.Blocking⟩ := by
  obtain ⟨_, hcount, body, hbody, _, hsub, _⟩ := findBy_findOne_statement
    (sampleModel (PrimaryKeyName.single "num".toList))
    { _client := sampleClient ClientType.PostgreSQL (DbOutcome.result ⟨[], 0, 0⟩),
      _limit := 5, _offset := 2, _orderbyString := " order by num".toList,
      _forUpdate := true }
    (Criteria.cond "total > $?".toList [SqlArg.int 100])
  refine ⟨hcount (by decide) (by decide) (by decide) (by decide), ?_⟩
  have h3 : replaceSqlPlaceHolder ClientType.PostgreSQL
      "select * from orders where total > $? order by num limit $? offset $?".toList
      "$?".toList
      = some "select * from orders where total > $1 order by num limit $2 offset $3".toList := by
    decide
  have h4 : body
      = "select * from orders where total > $1 order by num limit $2 offset $3".toList :=
    Option.some.inj (hbody.symm.trans h3)
  rw [hsub, h4]
  rfl

/-! ## Chains of modifier calls -/

theorem orderBy_eq (m : Mapper) (colName : Str) (order : SortOrder) :
    m.orderBy colName order
      = Run.finished { m with _orderbyString := orderByText m._orderbyString colName order } := by
  unfold Mapper.orderBy orderByText
  split_ifs <;> rfl

/-- A chain without a `limit(0)` call runs through, and each component of the
resulting call-state is determined by the calls of its own kind. -/
theorem chain_eq (xs : List Modifier) :
    ∀ m : Mapper, Modifier.limit 0 ∉ xs →
      m.chain xs = Run.finished
        { _client := m._client
          _limit := finalLimit m._limit xs
          _offset := finalOffset m._offset xs
          _orderbyString := finalOrderBy m._orderbyString xs
          _forUpdate := finalForUpdate m._forUpdate xs } := by
  induction xs with
  | nil => intro m _; rfl
  | cons x xs ih =>
    intro m h
    have hxs : Modifier.limit 0 ∉ xs := fun hx => h (List.mem_cons_of_mem _ hx)
    cases x with
    | limit l =>
      have hl : l > 0 := by
        rcases Nat.eq_zero_or_pos l with h0 | h0
        · exact absurd (by rw [h0]; exact List.mem_cons_self _ _) h
        · exact h0
      simp only [Mapper.chain, Mapper.modify, Mapper.limit, if_pos hl, Run.andThen]
      rw [ih _ hxs]
      rfl
    | offset o =>
      simp only [Mapper.chain, Mapper.modify, Mapper.offset, Run.andThen]
      rw [ih _ hxs]
      rfl
    | orderBy c o =>
      simp only [Mapper.chain, Mapper.modify, orderBy_eq, Run.andThen]
      rw [ih _ hxs]
      rfl
    | forUpdate =>
      simp only [Mapper.chain, Mapper.modify, Mapper.forUpdate, Run.andThen]
      rw [ih _ hxs]
      rfl

theorem finalOrderBy_filter (xs : List Modifier) :
    ∀ s, finalOrderBy s xs = finalOrderBy s (xs.filter Modifier.isOrderBy) := by
  induction xs with
  | nil => intro s; rfl
  | cons x xs ih =>
    intro s
    cases x <;> simp [finalOrderBy, Modifier.isOrderBy, List.filter_cons, ih]

theorem finalLimit_of_count (l : Nat) (xs : List Modifier) :
    ∀ d, (∀ k, Modifier.limit k ∈ xs → k = l) → Modifier.limit l ∈ xs →
      finalLimit d xs = l := by
  induction xs with
  | nil => intro d _ h; simp at h
  | cons x xs ih =>
    intro d hall hmem
    have hall2 : ∀ k, Modifier.limit k ∈ xs → k = l := fun k hk =>
      hall k (List.mem_cons_of_mem _ hk)
    by_cases hin : Modifier.limit l ∈ xs
    · cases x <;> simp only [finalLimit] <;> exact ih _ hall2 hin
    · have hx : x = Modifier.limit l := by
        rcases List.mem_cons.1 hmem with h | h
        · exact h.symm
        · exact absurd h hin
      subst hx
      simp only [finalLimit]
      have hnone : ∀ k, Modifier.limit k ∉ xs := fun k hk => hin (hall2 k hk ▸ hk)
      clear ih hall hmem hall2 hin
      induction xs generalizing l with
      | nil => rfl
      | cons y ys ih2 =>
        have hy : ∀ k, Modifier.limit k ∉ ys := fun k hk =>
          hnone k (List.mem_cons_of_mem _ hk)
        cases y with
        | limit k => exact absurd (List.mem_cons_self _ _) (hnone k)
        | offset o => simpa [finalLimit] using ih2 l hy
        | orderBy c o => simpa [finalLimit] using ih2 l hy
        | forUpdate => simpa [finalLimit] using ih2 l hy

theorem finalOffset_of_count (o : Nat) (xs : List Modifier) :
    ∀ d, (∀ k, Modifier.offset k ∈ xs → k = o) → Modifier.offset o ∈ xs →
      finalOffset d xs = o := by
  induction xs with
  | nil => intro d _ h; simp at h
  | cons x xs ih =>
    intro d hall hmem
    have hall2 : ∀ k, Modifier.offset k ∈ xs → k = o := fun k hk =>
      hall k (List.mem_cons_of_mem _ hk)
    by_cases hin : Modifier.offset o ∈ xs
    · cases x <;> simp only [finalOffset] <;> exact ih _ hall2 hin
    · have hx : x = Modifier.offset o := by
        rcases List.mem_cons.1 hmem with h | h
        · exact h.symm
        · exact absurd h hin
      subst hx
      simp only [finalOffset]
      have hnone : ∀ k, Modifier.offset k ∉ xs := fun k hk => hin (hall2 k hk ▸ hk)
      clear ih hall hmem hall2 hin
      induction xs generalizing o with
      | nil => rfl
      | cons y ys ih2 =>
        have hy : ∀ k, Modifier.offset k ∉ ys := fun k hk =>
          hnone k (List.mem_cons_of_mem _ hk)
        cases y with
        | limit l => simpa [finalOffset] using ih2 o hy
        | offset k => exact absurd (List.mem_cons_self _ _) (hnone k)
        | orderBy c q => simpa [finalOffset] using ih2 o hy
        | forUpdate => simpa [finalOffset] using ih2 o hy

theorem finalForUpdate_eq (xs : List Modifier) :
    ∀ b, finalForUpdate b xs = (b || decide (Modifier.forUpdate ∈ xs)) := by
  induction xs with
  | nil => intro b; simp [finalForUpdate]
  | cons x xs ih =>
    intro b
    cases x <;> simp [finalForUpdate, ih]

theorem mem_orderByCalls (x : Modifier) (obs : List (Str × SortOrder))
    (h : x ∈ orderByCalls obs) : x.isOrderBy = true := by
  unfold orderByCalls at h
  obtain ⟨p, _, rfl⟩ := List.mem_map.1 h
  rfl

theorem limit_mem_modifierCalls (k l o : Nat) (fu : Bool) (obs : List (Str × SortOrder)) :
    Modifier.limit k ∈ modifierCalls l o fu obs ↔ k = l := by
  unfold modifierCalls
  constructor
  · intro h
    simp only [List.mem_append, List.mem_cons, List.mem_singleton] at h
    rcases h with (h | h) | h
    · rcases h with h | h | h
      · exact Modifier.limit.inj h
      · cases h
      · simp at h
    · split_ifs at h <;> simp at h
    · have := mem_orderByCalls _ _ h
      simp [Modifier.isOrderBy] at this
  · rintro rfl
    simp

theorem offset_mem_modifierCalls (k l o : Nat) (fu : Bool) (obs : List (Str × SortOrder)) :
    Modifier.offset k ∈ modifierCalls l o fu obs ↔ k = o := by
  unfold modifierCalls
  constructor
  · intro h
    simp only [List.mem_append, List.mem_cons, List.mem_singleton] at h
    rcases h with (h | h) | h
    · rcases h with h | h | h
      · cases h
      · exact Modifier.offset.inj h
      · simp at h
    · split_ifs at h <;> simp at h
    · have := mem_orderByCalls _ _ h
      simp [Modifier.isOrderBy] at this
  · rintro rfl
    simp

theorem forUpdate_mem_modifierCalls (l o : Nat) (fu : Bool) (obs : List (Str × SortOrder)) :
    Modifier.forUpdate ∈ modifierCalls l o fu obs ↔ fu = true := by
  unfold modifierCalls
  constructor
  · intro h
    simp only [List.mem_append, List.mem_cons, List.mem_singleton] at h
    rcases h with (h | h) | h
    · rcases h with h | h | h
      · cases h
      · cases h
      · simp at h
    · split_ifs at h with hfu
      · exact hfu
      · simp at h
    · have := mem_orderByCalls _ _ h
      simp [Modifier.isOrderBy] at this
  · rintro rfl
    simp

/-- The call-state after any interleaving of the calls. -/
theorem chain_interleaving (m : Mapper) (l o : Nat) (fu : Bool)
    (obs : List (Str × SortOrder)) (xs : List Modifier) (hl : 0 < l)
    (hxs : IsInterleaving xs l o fu obs) :
    m.chain xs = Run.finished
      { _client := m._client
        _limit := l
        _offset := o
        _orderbyString := finalOrderBy m._orderbyString (orderByCalls obs)
        _forUpdate := (m._forUpdate || fu) } := by
  obtain ⟨hperm, hob⟩ := hxs
  have hno : Modifier.limit 0 ∉ xs := by
    intro h
    have := (limit_mem_modifierCalls 0 l o fu obs).1 (hperm.mem_iff.1 h)
    omega
  rw [chain_eq xs m hno]
  have h1 : finalLimit m._limit xs = l :=
    finalLimit_of_count l xs _
      (fun k hk => (limit_mem_modifierCalls k l o fu obs).1 (hperm.mem_iff.1 hk))
      (hperm.mem_iff.2 ((limit_mem_modifierCalls l l o fu obs).2 rfl))
  have h2 : finalOffset m._offset xs = o :=
    finalOffset_of_count o xs _
      (fun k hk => (offset_mem_modifierCalls k l o fu obs).1 (hperm.mem_iff.1 hk))
      (hperm.mem_iff.2 ((offset_mem_modifierCalls o l o fu obs).2 rfl))
  have h3 : finalOrderBy m._orderbyString xs
      = finalOrderBy m._orderbyString (orderByCalls obs) := by
    rw [finalOrderBy_filter, hob]
  have h4 : finalForUpdate m._forUpdate xs = (m._forUpdate || fu) := by
    rw [finalForUpdate_eq]
    congr 1
    by_cases hfu : fu = true
    · have := hperm.mem_iff.2 ((forUpdate_mem_modifierCalls l o fu obs).2 hfu)
      simp [this, hfu]
    · have : Modifier.forUpdate ∉ xs := fun h =>
        hfu ((forUpdate_mem_modifierCalls l o fu obs).1 (hperm.mem_iff.1 h))
      simp [this, hfu]
  rw [h1, h2, h3, h4]

/-- C8: the statement of `findBy` does not depend on the order of the
modifier calls. For a limit `l > 0`, an offset `o`, a for-update request `fu`
and `orderBy` calls `obs`, any two interleavings `xs`, `ys` of `limit(l)`,
`offset(o)`, `forUpdate()` (when requested) and the `orderBy` calls that keep
the `orderBy` calls in their order leave the same mapper, so `findBy` submits
the same text and the same values; the text is the translation of
`select * from t [ where c]<order-by> limit $?[ offset $?]` followed by
` for update` when requested: order-by, limit, offset, for-update. -/
theorem findBy_independent_of_modifier_order {T : Type} (model : Model T) (m : Mapper)
    (criteria : Criteria) (l o : Nat) (fu : Bool) (obs : List (Str × SortOrder))
    (xs ys : List Modifier) (hl : 0 < l) (hxs : IsInterleaving xs l o fu obs)
    (hys : IsInterleaving ys l o fu obs) :
    ∃ m1 body, m.chain xs = Run.finished m1 ∧ m.chain ys = Run.finished m1
      ∧ m1._limit = l ∧ m1._offset = o ∧ m1._forUpdate = (m._forUpdate || fu)
      ∧ m1._orderbyString = finalOrderBy m._orderbyString (orderByCalls obs)
      ∧ replaceSqlPlaceHolder m._client.type
          ("select * from ".toList ++ model.tableName ++ whereClause criteria
            ++ finalOrderBy m._orderbyString (orderByCalls obs) ++ " limit $?".toList
            ++ (if o > 0 then " offset $?".toList else [])) "$?".toList = some body
      ∧ (m1.findBy model criteria).submitted?
          = some ⟨body ++ forUpdateClause (m._forUpdate || fu),
              criteriaValues criteria ++ [SqlArg.size l]
                ++ (if o > 0 then [SqlArg.size o] else []), Mode.Blocking⟩ := by
  have h1 := chain_interleaving m l o fu obs xs hl hxs
  have h2 := chain_interleaving m l o fu obs ys hl hys
  obtain ⟨sql, hsql, hrun, _, _⟩ := findBy_ran model
    { _client := m._client
      _limit := l
      _offset := o
      _orderbyString := finalOrderBy m._orderbyString (orderByCalls obs)
      _forUpdate := (m._forUpdate || fu) } criteria
  have hp : selectHasParameters criteria l o = true := by
    simp [selectHasParameters, hl]
  rw [selectSql_eq] at hsql
  simp only [hp, if_true] at hsql
  obtain ⟨body, hbody⟩ := replaceSqlPlaceHolder_returns m._client.type
    (selectBody model.tableName criteria (finalOrderBy m._orderbyString (orderByCalls obs)) l o)
  rw [hbody] at hsql
  have hs : sql = body ++ forUpdateClause (m._forUpdate || fu) := by
    simpa using hsql.symm
  refine ⟨_, body, h1, h2, rfl, rfl, rfl, rfl, ?_, ?_⟩
  · simpa [selectBody, hl] using hbody
  · rw [hrun, selectArgs_eq, hs]
    simp [Outcome.submitted?, selectValues, hl]

/-- Witness of C8: two interleavings of `limit(3)`, `offset(1)`, `forUpdate()`,
`orderBy("shop")` and `orderBy("num", DESC)` on a fresh mapper. -/
theorem findBy_independent_of_modifier_order_witness :
    ∃ m1 body,
      (Mapper.new (sampleClient ClientType.Mysql (DbOutcome.result ⟨[], 0, 0⟩))).chain
          [Modifier.limit 3, Modifier.orderBy "shop".toList SortOrder.ASC, Modifier.offset 1,
            Modifier.forUpdate, Modifier.orderBy "num".toList SortOrder.DESC]
        = Run.finished m1
      ∧ (Mapper.new (sampleClient ClientType.Mysql (DbOutcome.result ⟨[], 0, 0⟩))).chain
          [Modifier.orderBy "shop".toList SortOrder.ASC, Modifier.forUpdate,
            Modifier.orderBy "num".toList SortOrder.DESC, Modifier.offset 1, Modifier.limit 3]
        = Run.finished m1
      ∧ body = "select * from orders order by shop,num desc limit ? offset ?".toList
      ∧ (m1.findBy (sampleModel (PrimaryKeyName.single "num".toList))
            Criteria.empty).submitted?
          = some ⟨body ++ " for update".toList, [SqlArg.size 3, SqlArg.size 1],
              Mode.Blocking⟩ := by
  obtain ⟨m1, body, h1, h2, _, _, _, _, h3, h4⟩ :=
    findBy_independent_of_modifier_order
      (sampleModel (PrimaryKeyName.single "num".toList))
      (Mapper.new (sampleClient ClientType.Mysql (DbOutcome.result ⟨[], 0, 0⟩)))
      Criteria.empty 3 1 true [("shop".toList, SortOrder.ASC), ("num".toList, SortOrder.DESC)]
      [Modifier.limit 3, Modifier.orderBy "shop".toList SortOrder.ASC, Modifier.offset 1,
        Modifier.forUpdate, Modifier.orderBy "num".toList SortOrder.DESC]
      [Modifier.orderBy "shop".toList SortOrder.ASC, Modifier.forUpdate,
        Modifier.orderBy "num".toList SortOrder.DESC, Modifier.offset 1, Modifier.limit 3]
      (by decide) ⟨by decide, by decide⟩ ⟨by decide, by decide⟩
  have h5 : replaceSqlPlaceHolder ClientType.Mysql
      "select * from orders order by shop,num desc limit $? offset $?".toList "$?".toList
      = some "select * from orders order by shop,num desc limit ? offset ?".toList := by
    decide
  have h6 : body = "select * from orders order by shop,num desc limit ? offset ?".toList :=
    Option.some.inj (h3.symm.trans h5)
  exact ⟨m1, body, h1, h2, h6, h4⟩

/-! ## Row-count validation -/

theorem singleRowBlocking_rows {T : Type} (model : Model T) (r : Result) :
    (r.rows.length = 0 → singleRowBlocking model (DbOutcome.result r)
        = Run.finished (Except.error (DbException.UnexpectedRows "0 rows found".toList)))
      ∧ (2 ≤ r.rows.length → singleRowBlocking model (DbOutcome.result r)
        = Run.finished (Except.error (DbException.UnexpectedRows "Found more than one row".toList)))
      ∧ (∀ row, r.rows = [row] → singleRowBlocking model (DbOutcome.result r)
        = Run.finished (Except.ok (model.fromRow row)))
      ∧ (r.rows.length ≠ 1 → ∀ construct : Row → T,
        singleRowBlocking { model with fromRow := construct } (DbOutcome.result r)
          = singleRowBlocking model (DbOutcome.result r)) := by
  obtain ⟨rows, a, i⟩ := r
  match rows with
  | [] => exact ⟨fun _ => rfl, fun h => by simp at h, fun row h => by simp at h,
      fun _ _ => rfl⟩
  | [row] => exact ⟨fun h => by simp at h, fun h => by simp at h,
      fun row2 h => by
        simp only [List.cons.injEq, and_true] at h
        subst h
        rfl,
      fun h => by simp at h⟩
  | _ :: _ :: _ => exact ⟨fun h => by simp at h, fun _ => rfl, fun row h => by simp at h,
      fun _ _ => rfl⟩

theorem singleRowCallback_rows {T : Type} (model : Model T) (r : Result) :
    (r.rows.length = 0 → singleRowCallback model (DbOutcome.result r)
        = Run.finished [Call.ecb (DbException.UnexpectedRows "0 rows found".toList)])
      ∧ (2 ≤ r.rows.length → singleRowCallback model (DbOutcome.result r)
        = Run.finished [Call.ecb (DbException.UnexpectedRows "Found more than one row".toList)])
      ∧ (∀ row, r.rows = [row] → singleRowCallback model (DbOutcome.result r)
        = Run.finished [Call.rcb (model.fromRow row)])
      ∧ (r.rows.length ≠ 1 → ∀ construct : Row → T,
        singleRowCallback { model with fromRow := construct } (DbOutcome.result r)
          = singleRowCallback model (DbOutcome.result r)) := by
  obtain ⟨rows, a, i⟩ := r
  match rows with
  | [] => exact ⟨fun _ => rfl, fun h => by simp at h, fun row h => by simp at h,
      fun _ _ => rfl⟩
  | [row] => exact ⟨fun h => by simp at h, fun h => by simp at h,
      fun row2 h => by
        simp only [List.cons.injEq, and_true] at h
        subst h
        rfl,
      fun h => by simp at h⟩
  | _ :: _ :: _ => exact ⟨fun h => by simp at h, fun _ => rfl, fun row h => by simp at h,
      fun _ _ => rfl⟩

theorem singleRowFuture_rows {T : Type} (model : Model T) (r : Result) :
    (r.rows.length = 0 → singleRowFuture model (DbOutcome.result r)
        = Run.finished (Promise.exception (DbException.UnexpectedRows "0 rows found".toList)))
      ∧ (2 ≤ r.rows.length → singleRowFuture model (DbOutcome.result r)
        = Run.finished (Promise.exception (DbException.UnexpectedRows "Found more than one row".toList)))
      ∧ (∀ row, r.rows = [row] → singleRowFuture model (DbOutcome.result r)
        = Run.finished (Promise.value (model.fromRow row)))
      ∧ (r.rows.length ≠ 1 → ∀ construct : Row → T,
        singleRowFuture { model with fromRow := construct } (DbOutcome.result r)
          = singleRowFuture model (DbOutcome.result r)) := by
  obtain ⟨rows, a, i⟩ := r
  match rows with
  | [] => exact ⟨fun _ => rfl, fun h => by simp at h, fun row h => by simp at h,
      fun _ _ => rfl⟩
  | [row] => exact ⟨fun h => by simp at h, fun h => by simp at h,
      fun row2 h => by
        simp only [List.cons.injEq, and_true] at h
        subst h
        rfl,
      fun h => by simp at h⟩
  | _ :: _ :: _ => exact ⟨fun h => by simp at h, fun _ => rfl, fun row h => by simp at h,
      fun _ _ => rfl⟩

/-- C9: for `findOne` and `findByPrimaryKey` in every calling convention and
every result `r` the client answers with: zero rows fail with `UnexpectedRows`
("0 rows found"), two or more rows fail with `UnexpectedRows` ("Found more than
one row"), exactly one row succeeds with the entity `T(r[0])`; the failure is
raised by the blocking member, passed to the exception callback, or set on the
future, and in the failing cases the outcome does not depend on the row
constructor. -/
theorem single_row_operations_validate_row_count {T : Type} (model : Model T) (m : Mapper) :
    (∀ criteria,
      SingleRowValidated m._client (fun md => m.findOne md criteria) model Raises Returns
      ∧ SingleRowValidated m._client (fun md => m.findOneCallback md criteria) model
          CallsException CallsResult
      ∧ SingleRowValidated m._client (fun md => m.findFutureOne md criteria) model
          Rejects ResolvesTo)
    ∧ (∀ key, model.primaryKeyIsVoid = false → KeyMatches model.primaryKeyName key = true →
      SingleRowValidated m._client (fun md => m.findByPrimaryKey md key) model Raises Returns
      ∧ SingleRowValidated m._client (fun md => m.findByPrimaryKeyCallback md key) model
          CallsException CallsResult
      ∧ SingleRowValidated m._client (fun md => m.findFutureByPrimaryKey md key) model
          Rejects ResolvesTo) := by
  refine ⟨fun criteria => ⟨?_, ?_, ?_⟩, fun key hpk hkey => ⟨?_, ?_, ?_⟩⟩ <;>
    unfold SingleRowValidated <;> beta_reduce
  · obtain ⟨sql, hsql, h1, _, _⟩ := findOne_ran model m criteria
    refine ⟨⟨sql, selectArgs m criteria, Mode.Blocking⟩, by rw [h1]; rfl, ?_⟩
    intro r hr
    simp only at hr
    have hind : ∀ construct : Row → T, m.findOne { model with fromRow := construct } criteria
        = Outcome.ran ⟨sql, selectArgs m criteria, Mode.Blocking⟩ (Mapper.new m._client)
            (singleRowBlocking { model with fromRow := construct } (DbOutcome.result r)) := by
      intro construct
      obtain ⟨sql2, hsql2, h2, _, _⟩ := findOne_ran { model with fromRow := construct } m criteria
      have hsame : sql2 = sql := Option.some.inj (hsql2.symm.trans hsql)
      subst hsame
      rw [h2, hr]
    obtain ⟨k0, k2, k1, kc⟩ := singleRowBlocking_rows model r
    have hrun : m.findOne model criteria
        = Outcome.ran ⟨sql, selectArgs m criteria, Mode.Blocking⟩ (Mapper.new m._client)
            (singleRowBlocking model (DbOutcome.result r)) := by
      rw [h1, hr]
    refine ⟨fun h => ?_, fun h => ?_, fun row h => ?_, fun h construct => ?_⟩
    · unfold Raises
      rw [hrun, Outcome.delivery?, k0 h]
    · unfold Raises
      rw [hrun, Outcome.delivery?, k2 h]
    · unfold Returns
      rw [hrun, Outcome.delivery?, k1 row h]
    · rw [hind construct, hrun, kc h construct]
  · obtain ⟨sql, hsql, _, h1, _⟩ := findOne_ran model m criteria
    refine ⟨⟨sql, selectArgs m criteria, Mode.NonBlocking⟩, by rw [h1]; rfl, ?_⟩
    intro r hr
    simp only at hr
    have hind : ∀ construct : Row → T, m.findOneCallback { model with fromRow := construct } criteria
        = Outcome.ran ⟨sql, selectArgs m criteria, Mode.NonBlocking⟩ (Mapper.new m._client)
            (singleRowCallback { model with fromRow := construct } (DbOutcome.result r)) := by
      intro construct
      obtain ⟨sql2, hsql2, _, h2, _⟩ := findOne_ran { model with fromRow := construct } m criteria
      have hsame : sql2 = sql := Option.some.inj (hsql2.symm.trans hsql)
      subst hsame
      rw [h2, hr]
    obtain ⟨k0, k2, k1, kc⟩ := singleRowCallback_rows model r
    have hrun : m.findOneCallback model criteria
        = Outcome.ran ⟨sql, selectArgs m criteria, Mode.NonBlocking⟩ (Mapper.new m._client)
            (singleRowCallback model (DbOutcome.result r)) := by
      rw [h1, hr]
    refine ⟨fun h => ?_, fun h => ?_, fun row h => ?_, fun h construct => ?_⟩
    · unfold CallsException
      rw [hrun, Outcome.delivery?, k0 h]
    · unfold CallsException
      rw [hrun, Outcome.delivery?, k2 h]
    · unfold CallsResult
      rw [hrun, Outcome.delivery?, k1 row h]
    · rw [hind construct, hrun, kc h construct]
  · obtain ⟨sql, hsql, _, _, h1⟩ := findOne_ran model m criteria
    refine ⟨⟨sql, selectArgs m criteria, Mode.NonBlocking⟩, by rw [h1]; rfl, ?_⟩
    intro r hr
    simp only at hr
    have hind : ∀ construct : Row → T, m.findFutureOne { model with fromRow := construct } criteria
        = Outcome.ran ⟨sql, selectArgs m criteria, Mode.NonBlocking⟩ (Mapper.new m._client)
            (singleRowFuture { model with fromRow := construct } (DbOutcome.result r)) := by
      intro construct
      obtain ⟨sql2, hsql2, _, _, h2⟩ := findOne_ran { model with fromRow := construct } m criteria
      have hsame : sql2 = sql := Option.some.inj (hsql2.symm.trans hsql)
      subst hsame
      rw [h2, hr]
    obtain ⟨k0, k2, k1, kc⟩ := singleRowFuture_rows model r
    have hrun : m.findFutureOne model criteria
        = Outcome.ran ⟨sql, selectArgs m criteria, Mode.NonBlocking⟩ (Mapper.new m._client)
            (singleRowFuture model (DbOutcome.result r)) := by
      rw [h1, hr]
    refine ⟨fun h => ?_, fun h => ?_, fun row h => ?_, fun h construct => ?_⟩
    · unfold Rejects
      rw [hrun, Outcome.delivery?, k0 h]
    · unfold Rejects
      rw [hrun, Outcome.delivery?, k2 h]
    · unfold ResolvesTo
      rw [hrun, Outcome.delivery?, k1 row h]
    · rw [hind construct, hrun, kc h construct]
  · obtain ⟨sql, hsql, h1, _, _⟩ := findByPrimaryKey_ran model m key hpk hkey
    refine ⟨⟨sql, key.components, Mode.Blocking⟩, by rw [h1]; rfl, ?_⟩
    intro r hr
    simp only at hr
    have hind : ∀ construct : Row → T, m.findByPrimaryKey { model with fromRow := construct } key
        = Outcome.ran ⟨sql, key.components, Mode.Blocking⟩ (Mapper.new m._client)
            (singleRowBlocking { model with fromRow := construct } (DbOutcome.result r)) := by
      intro construct
      obtain ⟨sql2, hsql2, h2, _, _⟩ := findByPrimaryKey_ran { model with fromRow := construct } m key hpk hkey
      have hsame : sql2 = sql := Option.some.inj (hsql2.symm.trans hsql)
      subst hsame
      rw [h2, hr]
    obtain ⟨k0, k2, k1, kc⟩ := singleRowBlocking_rows model r
    have hrun : m.findByPrimaryKey model key
        = Outcome.ran ⟨sql, key.components, Mode.Blocking⟩ (Mapper.new m._client)
            (singleRowBlocking model (DbOutcome.result r)) := by
      rw [h1, hr]
    refine ⟨fun h => ?_, fun h => ?_, fun row h => ?_, fun h construct => ?_⟩
    · unfold Raises
      rw [hrun, Outcome.delivery?, k0 h]
    · unfold Raises
      rw [hrun, Outcome.delivery?, k2 h]
    · unfold Returns
      rw [hrun, Outcome.delivery?, k1 row h]
    · rw [hind construct, hrun, kc h construct]
  · obtain ⟨sql, hsql, _, h1, _⟩ := findByPrimaryKey_ran model m key hpk hkey
    refine ⟨⟨sql, key.components, Mode.NonBlocking⟩, by rw [h1]; rfl, ?_⟩
    intro r hr
    simp only at hr
    have hind : ∀ construct : Row → T, m.findByPrimaryKeyCallback { model with fromRow := construct } key
        = Outcome.ran ⟨sql, key.components, Mode.NonBlocking⟩ (Mapper.new m._client)
            (singleRowCallback { model with fromRow := construct } (DbOutcome.result r)) := by
      intro construct
      obtain ⟨sql2, hsql2, _, h2, _⟩ := findByPrimaryKey_ran { model with fromRow := construct } m key hpk hkey
      have hsame : sql2 = sql := Option.some.inj (hsql2.symm.trans hsql)
      subst hsame
      rw [h2, hr]
    obtain ⟨k0, k2, k1, kc⟩ := singleRowCallback_rows model r
    have hrun : m.findByPrimaryKeyCallback model key
        = Outcome.ran ⟨sql, key.components, Mode.NonBlocking⟩ (Mapper.new m._client)
            (singleRowCallback model (DbOutcome.result r)) := by
      rw [h1, hr]
    refine ⟨fun h => ?_, fun h => ?_, fun row h => ?_, fun h construct => ?_⟩
    · unfold CallsException
      rw [hrun, Outcome.delivery?, k0 h]
    · unfold CallsException
      rw [hrun, Outcome.delivery?, k2 h]
    · unfold CallsResult
      rw [hrun, Outcome.delivery?, k1 row h]
    · rw [hind construct, hrun, kc h construct]
  · obtain ⟨sql, hsql, _, _, h1⟩ := findByPrimaryKey_ran model m key hpk hkey
    refine ⟨⟨sql, key.components, Mode.NonBlocking⟩, by rw [h1]; rfl, ?_⟩
    intro r hr
    simp only at hr
    have hind : ∀ construct : Row → T, m.findFutureByPrimaryKey { model with fromRow := construct } key
        = Outcome.ran ⟨sql, key.components, Mode.NonBlocking⟩ (Mapper.new m._client)
            (singleRowFuture { model with fromRow := construct } (DbOutcome.result r)) := by
      intro construct
      obtain ⟨sql2, hsql2, _, _, h2⟩ := findByPrimaryKey_ran { model with fromRow := construct } m key hpk hkey
      have hsame : sql2 = sql := Option.some.inj (hsql2.symm.trans hsql)
      subst hsame
      rw [h2, hr]
    obtain ⟨k0, k2, k1, kc⟩ := singleRowFuture_rows model r
    have hrun : m.findFutureByPrimaryKey model key
        = Outcome.ran ⟨sql, key.components, Mode.NonBlocking⟩ (Mapper.new m._client)
            (singleRowFuture model (DbOutcome.result r)) := by
      rw [h1, hr]
    refine ⟨fun h => ?_, fun h => ?_, fun row h => ?_, fun h construct => ?_⟩
    · unfold Rejects
      rw [hrun, Outcome.delivery?, k0 h]
    · unfold Rejects
      rw [hrun, Outcome.delivery?, k2 h]
    · unfold ResolvesTo
      rw [hrun, Outcome.delivery?, k1 row h]
    · rw [hind construct, hrun, kc h construct]

/-- Witness of C9 on the sample table: `findByPrimaryKey` against a client
answering with one row returns the entity of that row, and against a client
answering with two rows raises `UnexpectedRows`. -/
theorem single_row_operations_validate_row_count_witness :
    (sampleModel (PrimaryKeyName.single "num".toList)).primaryKeyIsVoid = false
    ∧ KeyMatches (sampleModel (PrimaryKeyName.single "num".toList)).primaryKeyName
        (PrimaryKeyValue.scalar (SqlArg.size 42)) = true
    ∧ Returns
        (Mapper.findByPrimaryKey (sampleModel (PrimaryKeyName.single "num".toList))
          (Mapper.new (sampleClient ClientType.Sqlite3
            (DbOutcome.result ⟨[sampleRow 42], 0, 0⟩)))
          (PrimaryKeyValue.scalar (SqlArg.size 42)))
        42
    ∧ Raises
        (Mapper.findByPrimaryKey (sampleModel (PrimaryKeyName.single "num".toList))
          (Mapper.new (sampleClient ClientType.Sqlite3
            (DbOutcome.result ⟨[sampleRow 42, sampleRow 43], 0, 0⟩)))
          (PrimaryKeyValue.scalar (SqlArg.size 42)))
        (DbException.UnexpectedRows "Found more than one row".toList) := by
  refine ⟨rfl, rfl, ?_, ?_⟩
  · obtain ⟨sub, _, h⟩ := ((single_row_operations_validate_row_count
      (sampleModel (PrimaryKeyName.single "num".toList))
      (Mapper.new (sampleClient ClientType.Sqlite3
        (DbOutcome.result ⟨[sampleRow 42], 0, 0⟩)))).2
      (PrimaryKeyValue.scalar (SqlArg.size 42)) rfl rfl).1
    exact (h ⟨[sampleRow 42], 0, 0⟩ rfl).2.2.1 (sampleRow 42) rfl
  · obtain ⟨sub, _, h⟩ := ((single_row_operations_validate_row_count
      (sampleModel (PrimaryKeyName.single "num".toList))
      (Mapper.new (sampleClient ClientType.Sqlite3
        (DbOutcome.result ⟨[sampleRow 42, sampleRow 43], 0, 0⟩)))).2
      (PrimaryKeyValue.scalar (SqlArg.size 42)) rfl rfl).1
    exact (h ⟨[sampleRow 42, sampleRow 43], 0, 0⟩ rfl).2.1 (by decide)

/-! ## The three calling conventions -/

theorem findByPrimaryKey_conventions {T : Type} (model : Model T) (m : Mapper)
    (key : PrimaryKeyValue) :
    ConventionsAgree (m.findByPrimaryKey model key) (m.findByPrimaryKeyCallback model key)
      (m.findFutureByPrimaryKey model key) := by
  by_cases hpk : model.primaryKeyIsVoid = false
  · by_cases hkey : KeyMatches model.primaryKeyName key = true
    · obtain ⟨sql, _, h1, h2, h3⟩ := findByPrimaryKey_ran model m key hpk hkey
      exact conventionsAgree_of_ran h1 h2 h3 (singleRow_deliveries_agree model _)
    · have hnone := outputPrimeryKeyToBinder_of_not_matches model.primaryKeyName key []
        (by simpa using hkey)
      apply conventionsAgree_of_none
      · simp only [Mapper.findByPrimaryKey, hpk, hnone]
        exact execSqlBinder_delivery_none _ _ _ _
      · simp only [Mapper.findByPrimaryKeyCallback, hpk, hnone]
        exact execSqlBinder_delivery_none _ _ _ _
      · simp only [Mapper.findFutureByPrimaryKey, hpk, hnone]
        exact execSqlBinder_delivery_none _ _ _ _
  · have hv : model.primaryKeyIsVoid = true := by simpa using hpk
    apply conventionsAgree_of_none
    · simp [Mapper.findByPrimaryKey, hv, Outcome.delivery?]
    · simp [Mapper.findByPrimaryKeyCallback, hv, Outcome.delivery?]
    · simp [Mapper.findFutureByPrimaryKey, hv, Outcome.delivery?]

theorem update_conventions {T : Type} (model : Model T) (m : Mapper) (obj : T) :
    ConventionsAgree (m.update model obj) (m.updateCallback model obj)
      (m.updateFuture model obj) := by
  by_cases hpk : model.primaryKeyIsVoid = false
  · by_cases hkey : KeyMatches model.primaryKeyName (model.getPrimaryKey obj) = true
    · obtain ⟨sql, args, _, _, h1, h2, h3⟩ := update_ran model m obj hpk hkey
      exact conventionsAgree_of_ran h1 h2 h3 (affectedRows_deliveries_agree _)
    · have hnone := outputPrimeryKeyToBinder_of_not_matches model.primaryKeyName
        (model.getPrimaryKey obj) (model.updateArgs obj) (by simpa using hkey)
      apply conventionsAgree_of_none
      · simp only [Mapper.update, hpk, hnone]
        exact execSqlBinder_delivery_none _ _ _ _
      · simp only [Mapper.updateCallback, hpk, hnone]
        exact execSqlBinder_delivery_none _ _ _ _
      · simp only [Mapper.updateFuture, hpk, hnone]
        exact execSqlBinder_delivery_none _ _ _ _
  · have hv : model.primaryKeyIsVoid = true := by simpa using hpk
    apply conventionsAgree_of_none
    · simp [Mapper.update, hv, Outcome.delivery?]
    · simp [Mapper.updateCallback, hv, Outcome.delivery?]
    · simp [Mapper.updateFuture, hv, Outcome.delivery?]

theorem deleteOne_conventions {T : Type} (model : Model T) (m : Mapper) (obj : T) :
    ConventionsAgree (m.deleteOne model obj) (m.deleteOneCallback model obj)
      (m.deleteFutureOne model obj) := by
  by_cases hpk : model.primaryKeyIsVoid = false
  · by_cases hkey : KeyMatches model.primaryKeyName (model.getPrimaryKey obj) = true
    · obtain ⟨sql, args, _, _, h1, h2, h3⟩ := deleteOne_ran model m obj hpk hkey
      exact conventionsAgree_of_ran h1 h2 h3 (affectedRows_deliveries_agree _)
    · have hnone := outputPrimeryKeyToBinder_of_not_matches model.primaryKeyName
        (model.getPrimaryKey obj) [] (by simpa using hkey)
      apply conventionsAgree_of_none
      · simp only [Mapper.deleteOne, hpk, hnone]
        exact execSqlBinder_delivery_none _ _ _ _
      · simp only [Mapper.deleteOneCallback, hpk, hnone]
        exact execSqlBinder_delivery_none _ _ _ _
      · simp only [Mapper.deleteFutureOne, hpk, hnone]
        exact execSqlBinder_delivery_none _ _ _ _
  · have hv : model.primaryKeyIsVoid = true := by simpa using hpk
    apply conventionsAgree_of_none
    · simp [Mapper.deleteOne, hv, Outcome.delivery?]
    · simp [Mapper.deleteOneCallback, hv, Outcome.delivery?]
    · simp [Mapper.deleteFutureOne, hv, Outcome.delivery?]

theorem deleteBy_conventions {T : Type} (model : Model T) (m : Mapper) (criteria : Criteria) :
    ConventionsAgree (m.deleteBy model criteria) (m.deleteByCallback model criteria)
      (m.deleteFutureBy model criteria) := by
  by_cases hpk : model.primaryKeyIsVoid = false
  · obtain ⟨sql, args, _, _, h1, h2, h3⟩ := deleteBy_ran model m criteria hpk
    exact conventionsAgree_of_ran h1 h2 h3 (affectedRows_deliveries_agree _)
  · have hv : model.primaryKeyIsVoid = true := by simpa using hpk
    apply conventionsAgree_of_none
    · simp [Mapper.deleteBy, hv, Outcome.delivery?]
    · simp [Mapper.deleteByCallback, hv, Outcome.delivery?]
    · simp [Mapper.deleteFutureBy, hv, Outcome.delivery?]

/-- C10: for every operation, every call-state, every argument and every
answer of the client, the three calling conventions deliver equivalent
outcomes: the blocking member returns `v` iff the callback overload invokes the
result callback with `v` (once, and nothing else) iff the future resolves to
`v`; the blocking member raises `e` iff the exception callback is invoked with
`e` iff the future is set to the exception `e`; they stop at a failed assertion
together, and they are rejected by the compiler together. -/
theorem calling_conventions_equivalent {T : Type} (model : Model T) (m : Mapper) :
    (∀ key, ConventionsAgree (m.findByPrimaryKey model key)
        (m.findByPrimaryKeyCallback model key) (m.findFutureByPrimaryKey model key))
    ∧ (∀ criteria, ConventionsAgree (m.findOne model criteria)
        (m.findOneCallback model criteria) (m.findFutureOne model criteria))
    ∧ (∀ criteria, ConventionsAgree (m.findBy model criteria)
        (m.findByCallback model criteria) (m.findFutureBy model criteria))
    ∧ ConventionsAgree (m.findAll model) (m.findAllCallback model) (m.findFutureAll model)
    ∧ (∀ criteria, ConventionsAgree (m.count model criteria)
        (m.countCallback model criteria) (m.countFuture model criteria))
    ∧ (∀ obj, ConventionsAgree (m.insert model obj) (m.insertCallback model obj)
        (m.insertFuture model obj))
    ∧ (∀ obj, ConventionsAgree (m.update model obj) (m.updateCallback model obj)
        (m.updateFuture model obj))
    ∧ (∀ obj, ConventionsAgree (m.deleteOne model obj) (m.deleteOneCallback model obj)
        (m.deleteFutureOne model obj))
    ∧ (∀ criteria, ConventionsAgree (m.deleteBy model criteria)
        (m.deleteByCallback model criteria) (m.deleteFutureBy model criteria)) := by
  refine ⟨findByPrimaryKey_conventions model m, ?_, ?_, ?_, ?_, ?_,
    update_conventions model m, deleteOne_conventions model m,
    deleteBy_conventions model m⟩
  · intro criteria
    obtain ⟨sql, _, h1, h2, h3⟩ := findOne_ran model m criteria
    exact conventionsAgree_of_ran h1 h2 h3 (singleRow_deliveries_agree model _)
  · intro criteria
    obtain ⟨sql, _, h1, h2, h3⟩ := findBy_ran model m criteria
    exact conventionsAgree_of_ran h1 h2 h3 (multipleRows_deliveries_agree model _)
  · obtain ⟨sql, _, h1, h2, h3⟩ := findBy_ran model m Criteria.empty
    exact conventionsAgree_of_ran (b := m.findAll model) (c := m.findAllCallback model)
      (f := m.findFutureAll model) h1 h2 h3 (multipleRows_deliveries_agree model _)
  · intro criteria
    obtain ⟨sql, args, _, _, h1, h2, h3⟩ := count_ran model m criteria
    exact conventionsAgree_of_ran h1 h2 h3 (count_deliveries_agree _)
  · intro obj
    obtain ⟨sql, _, h1, h2, h3⟩ := insert_ran model m obj
    exact conventionsAgree_of_ran h1 h2 h3 (insert_deliveries_agree model _ obj _)

/-! ## Operations behind the primary-key assertion -/

theorem makePrimaryKeyCriteria_eq (primaryKeyName : PrimaryKeyName) (sql : Str) :
    makePrimaryKeyCriteria primaryKeyName sql = sql ++ primaryKeyClause primaryKeyName := by
  cases primaryKeyName with
  | single name =>
    simp [makePrimaryKeyCriteria, primaryKeyClause, PrimaryKeyName.columns, List.intercalate]
  | composite names =>
    have := makePrimaryKeyCriteriaLoop_eq names names [] (sql ++ " where ".toList) rfl
    simpa [makePrimaryKeyCriteria, primaryKeyClause, PrimaryKeyName.columns] using this

/-- C13: for an entity type whose primary-key type is `void`, `findByPrimaryKey`,
`update` and `deleteOne` are rejected in all three calling conventions: the
`static_assert` fails, so no statement is built or handed to the client, the
mapper is not touched and nothing is delivered. -/
theorem key_operations_rejected_without_primary_key {T : Type} (model : Model T)
    (m : Mapper) (key : PrimaryKeyValue) (obj : T) (hvoid : model.primaryKeyIsVoid = true) :
    (m.findByPrimaryKey model key = Outcome.notCompiled
      ∧ m.findByPrimaryKeyCallback model key = Outcome.notCompiled
      ∧ m.findFutureByPrimaryKey model key = Outcome.notCompiled)
    ∧ (m.update model obj = Outcome.notCompiled
      ∧ m.updateCallback model obj = Outcome.notCompiled
      ∧ m.updateFuture model obj = Outcome.notCompiled)
    ∧ (m.deleteOne model obj = Outcome.notCompiled
      ∧ m.deleteOneCallback model obj = Outcome.notCompiled
      ∧ m.deleteFutureOne model obj = Outcome.notCompiled)
    ∧ ((m.findByPrimaryKey model key).submitted? = none
      ∧ (m.update model obj).submitted? = none
      ∧ (m.deleteOne model obj).submitted? = none) := by
  have h1 : m.findByPrimaryKey model key = Outcome.notCompiled := by
    simp [Mapper.findByPrimaryKey, hvoid]
  have h2 : m.update model obj = Outcome.notCompiled := by
    simp [Mapper.update, hvoid]
  have h3 : m.deleteOne model obj = Outcome.notCompiled := by
    simp [Mapper.deleteOne, hvoid]
  refine ⟨⟨h1, ?_, ?_⟩, ⟨h2, ?_, ?_⟩, ⟨h3, ?_, ?_⟩, ?_⟩
  · simp [Mapper.findByPrimaryKeyCallback, hvoid]
  · simp [Mapper.findFutureByPrimaryKey, hvoid]
  · simp [Mapper.updateCallback, hvoid]
  · simp [Mapper.updateFuture, hvoid]
  · simp [Mapper.deleteOneCallback, hvoid]
  · simp [Mapper.deleteFutureOne, hvoid]
  · rw [h1, h2, h3]
    exact ⟨rfl, rfl, rfl⟩

/-- Witness of C13 on the sample entity type without primary key. -/
theorem key_operations_rejected_without_primary_key_witness :
    sampleKeylessModel.primaryKeyIsVoid = true
    ∧ Mapper.findByPrimaryKey sampleKeylessModel
        (Mapper.new (sampleClient ClientType.PostgreSQL (DbOutcome.result ⟨[], 0, 0⟩)))
        (PrimaryKeyValue.scalar (SqlArg.size 1)) = Outcome.notCompiled
    ∧ Mapper.deleteOne sampleKeylessModel
        (Mapper.new (sampleClient ClientType.PostgreSQL (DbOutcome.result ⟨[], 0, 0⟩)))
        7 = Outcome.notCompiled :=
  ⟨rfl,
    (key_operations_rejected_without_primary_key sampleKeylessModel
      (Mapper.new (sampleClient ClientType.PostgreSQL (DbOutcome.result ⟨[], 0, 0⟩)))
      (PrimaryKeyValue.scalar (SqlArg.size 1)) 7 rfl).1.1,
    (key_operations_rejected_without_primary_key sampleKeylessModel
      (Mapper.new (sampleClient ClientType.PostgreSQL (DbOutcome.result ⟨[], 0, 0⟩)))
      (PrimaryKeyValue.scalar (SqlArg.size 1)) 7 rfl).2.2.1.1⟩

/-- C12, counterexample: for the sample entity type whose primary-key type is
`void`, `deleteBy` with an empty criteria is rejected in all three calling
conventions by its `static_assert` (lines 1325, 1356, 1381) and hands no
statement to the client; the same call on an entity type that differs only in
having a primary key hands `delete from log` to the client. -/
theorem deleteBy_rejected_without_primary_key :
    Mapper.deleteBy sampleKeylessModel
        (Mapper.new (sampleClient ClientType.PostgreSQL (DbOutcome.result ⟨[], 3, 0⟩)))
        Criteria.empty = Outcome.notCompiled
    ∧ Mapper.deleteByCallback sampleKeylessModel
        (Mapper.new (sampleClient ClientType.PostgreSQL (DbOutcome.result ⟨[], 3, 0⟩)))
        Criteria.empty = Outcome.notCompiled
    ∧ Mapper.deleteFutureBy sampleKeylessModel
        (Mapper.new (sampleClient ClientType.PostgreSQL (DbOutcome.result ⟨[], 3, 0⟩)))
        Criteria.empty = Outcome.notCompiled
    ∧ (Mapper.deleteBy sampleKeylessModel
        (Mapper.new (sampleClient ClientType.PostgreSQL (DbOutcome.result ⟨[], 3, 0⟩)))
        Criteria.empty).submitted? = none
    ∧ (Mapper.deleteBy { sampleKeylessModel with primaryKeyIsVoid := false }
        (Mapper.new (sampleClient ClientType.PostgreSQL (DbOutcome.result ⟨[], 3, 0⟩)))
        Criteria.empty).submitted?
      = some ⟨"delete from log".toList, [], Mode.Blocking⟩ :=
  ⟨rfl, rfl, rfl, rfl, rfl⟩

/-! ## The affected-row count -/

theorem affectedRowsReported_of_ran {δ : Type} {client : DbClient} {o : Outcome δ}
    {sub : Submission} {after : Mapper} {handler : DbOutcome → δ}
    {reports : Outcome δ → Nat → Prop}
    (ho : o = Outcome.ran sub after (handler (client.exec sub.sql sub.args)))
    (hr : ∀ r, reports (Outcome.ran sub after (handler (DbOutcome.result r))) r.affectedRows) :
    AffectedRowsReported client o reports := by
  refine ⟨sub, by rw [ho]; rfl, ?_⟩
  intro r hexec
  rw [ho, hexec]
  exact hr r

/-- C17: `update`, `deleteOne` and `deleteBy`, in every calling convention, hand
one statement to the client and, for every result `r` the client answers with,
deliver exactly `r.affectedRows()`: returned by the blocking member, passed to
the result callback, or set on the future. The members are taken for entity
types on which they compile. -/
theorem affected_rows_returned_unmodified {T : Type} (model : Model T) (m : Mapper) :
    (∀ obj, model.primaryKeyIsVoid = false →
        KeyMatches model.primaryKeyName (model.getPrimaryKey obj) = true →
        (AffectedRowsReported m._client (m.update model obj) Returns
          ∧ AffectedRowsReported m._client (m.updateCallback model obj) CallsResult
          ∧ AffectedRowsReported m._client (m.updateFuture model obj) ResolvesTo)
        ∧ (AffectedRowsReported m._client (m.deleteOne model obj) Returns
          ∧ AffectedRowsReported m._client (m.deleteOneCallback model obj) CallsResult
          ∧ AffectedRowsReported m._client (m.deleteFutureOne model obj) ResolvesTo))
    ∧ (∀ criteria, model.primaryKeyIsVoid = false →
        AffectedRowsReported m._client (m.deleteBy model criteria) Returns
          ∧ AffectedRowsReported m._client (m.deleteByCallback model criteria) CallsResult
          ∧ AffectedRowsReported m._client (m.deleteFutureBy model criteria) ResolvesTo) := by
  constructor
  · intro obj hpk hkey
    obtain ⟨sql, args, _, _, h1, h2, h3⟩ := update_ran model m obj hpk hkey
    obtain ⟨sql2, args2, _, _, h4, h5, h6⟩ := deleteOne_ran model m obj hpk hkey
    exact ⟨⟨affectedRowsReported_of_ran h1 (fun _ => rfl),
        affectedRowsReported_of_ran h2 (fun _ => rfl),
        affectedRowsReported_of_ran h3 (fun _ => rfl)⟩,
      ⟨affectedRowsReported_of_ran h4 (fun _ => rfl),
        affectedRowsReported_of_ran h5 (fun _ => rfl),
        affectedRowsReported_of_ran h6 (fun _ => rfl)⟩⟩
  · intro criteria hpk
    obtain ⟨sql, args, _, _, h1, h2, h3⟩ := deleteBy_ran model m criteria hpk
    exact ⟨affectedRowsReported_of_ran h1 (fun _ => rfl),
      affectedRowsReported_of_ran h2 (fun _ => rfl),
      affectedRowsReported_of_ran h3 (fun _ => rfl)⟩

/-- Witness of C17: `deleteBy` on the sample table against a client reporting
five affected rows returns 5. -/
theorem affected_rows_returned_unmodified_witness :
    (sampleModel (PrimaryKeyName.single "num".toList)).primaryKeyIsVoid = false
    ∧ Returns
        (Mapper.deleteBy (sampleModel (PrimaryKeyName.single "num".toList))
          (Mapper.new (sampleClient ClientType.Mysql (DbOutcome.result ⟨[], 5, 0⟩)))
          (Criteria.cond "total < $?".toList [SqlArg.int 10]))
        5 := by
  refine ⟨rfl, ?_⟩
  obtain ⟨sub, _, h⟩ := ((affected_rows_returned_unmodified
    (sampleModel (PrimaryKeyName.single "num".toList))
    (Mapper.new (sampleClient ClientType.Mysql (DbOutcome.result ⟨[], 5, 0⟩)))).2
    (Criteria.cond "total < $?".toList [SqlArg.int 10]) rfl).1
  exact h ⟨[], 5, 0⟩ rfl

theorem deleteBySql_eq (t : Str) (m : Mapper) (criteria : Criteria) :
    deleteBySql t m criteria
      = (if criteria.toBool = true then
          replaceSqlPlaceHolder m._client.type
            ("delete from ".toList ++ t ++ whereClause criteria) "$?".toList
        else some ("delete from ".toList ++ t ++ whereClause criteria)) := by
  cases criteria <;> simp [deleteBySql, Criteria.toBool, whereClause, Criteria.criteriaString]

theorem criteria_args_eq (criteria : Criteria) :
    (if criteria.toBool then criteria.outputArgs [] else []) = criteriaValues criteria := by
  cases criteria <;> simp [Criteria.toBool, Criteria.outputArgs, criteriaValues]

/-- C12, amended: `deleteBy` takes an arbitrary (possibly empty) criteria and
uses no primary-key column or value: on an entity type with a primary key it
hands `delete from t`, followed by ` where ` and the criteria fragment when the
criteria is not empty (then translated for the dialect), to the client with the
criteria values only. Like `deleteOne` it carries the `static_assert`: on an
entity type whose primary-key type is `void` it is rejected in all three
calling conventions. -/
theorem deleteBy_needs_key_type_only {T : Type} (model : Model T) (m : Mapper)
    (criteria : Criteria) :
    (model.primaryKeyIsVoid = true →
      m.deleteBy model criteria = Outcome.notCompiled
        ∧ m.deleteByCallback model criteria = Outcome.notCompiled
        ∧ m.deleteFutureBy model criteria = Outcome.notCompiled
        ∧ m.deleteOne model = fun _ => Outcome.notCompiled)
    ∧ (model.primaryKeyIsVoid = false →
      ∃ sql,
        (if criteria.toBool = true then
            replaceSqlPlaceHolder m._client.type
              ("delete from ".toList ++ model.tableName ++ whereClause criteria) "$?".toList
          else some ("delete from ".toList ++ model.tableName ++ whereClause criteria))
          = some sql
        ∧ (m.deleteBy model criteria).submitted?
            = some ⟨sql, criteriaValues criteria, Mode.Blocking⟩
        ∧ (m.deleteByCallback model criteria).submitted?
            = some ⟨sql, criteriaValues criteria, Mode.NonBlocking⟩
        ∧ (m.deleteFutureBy model criteria).submitted?
            = some ⟨sql, criteriaValues criteria, Mode.NonBlocking⟩) := by
  constructor
  · intro hvoid
    refine ⟨?_, ?_, ?_, ?_⟩
    · simp [Mapper.deleteBy, hvoid]
    · simp [Mapper.deleteByCallback, hvoid]
    · simp [Mapper.deleteFutureBy, hvoid]
    · funext obj
      simp [Mapper.deleteOne, hvoid]
  · intro hpk
    obtain ⟨sql, args, hsql, hargs, h1, h2, h3⟩ := deleteBy_ran model m criteria hpk
    rw [criteria_args_eq] at hargs
    subst hargs
    rw [deleteBySql_eq] at hsql
    refine ⟨sql, hsql, ?_, ?_, ?_⟩
    · rw [h1]; rfl
    · rw [h2]; rfl
    · rw [h3]; rfl

/-- Witness of the amended C12: `deleteBy` with an empty criteria on the sample
table, which has a primary key. -/
theorem deleteBy_needs_key_type_only_witness :
    (sampleModel (PrimaryKeyName.single "num".toList)).primaryKeyIsVoid = false
    ∧ (Mapper.deleteBy (sampleModel (PrimaryKeyName.single "num".toList))
        (Mapper.new (sampleClient ClientType.PostgreSQL (DbOutcome.result ⟨[], 3, 0⟩)))
        Criteria.empty).submitted?
      = some ⟨"delete from orders".toList, [], Mode.Blocking⟩ := by
  refine ⟨rfl, ?_⟩
  obtain ⟨sql, h1, h2, _⟩ := (deleteBy_needs_key_type_only
    (sampleModel (PrimaryKeyName.single "num".toList))
    (Mapper.new (sampleClient ClientType.PostgreSQL (DbOutcome.result ⟨[], 3, 0⟩)))
    Criteria.empty).2 rfl
  rw [h2]
  have h3 : some sql = some "delete from orders".toList := h1.symm
  rw [Option.some.inj h3]
  rfl

/-! ## Statements that ignore the call-state -/

theorem countSql_eq (t : Str) (m : Mapper) (criteria : Criteria) :
    countSql t m criteria
      = (if criteria.toBool = true then
          replaceSqlPlaceHolder m._client.type
            ("select count(*) from ".toList ++ t ++ whereClause criteria) "$?".toList
        else some ("select count(*) from ".toList ++ t ++ whereClause criteria)) := by
  cases criteria <;> simp [countSql, Criteria.toBool, whereClause, Criteria.criteriaString]

/-- C19: `count` hands to the client the text `select count(*) from t`,
followed by ` where ` and the criteria fragment only when the criteria is not
empty (and then translated for the dialect), with the criteria values as the
only bound values; for the same client and criteria the outcome of `count` is
the same for any two call-states (limit, offset, order-by text, for-update), in
every calling convention. -/
theorem count_statement_ignores_call_state {T : Type} (model : Model T) (client : DbClient)
    (criteria : Criteria) (l o : Nat) (ob : Str) (f : Bool) (l2 o2 : Nat) (ob2 : Str)
    (f2 : Bool) :
    (∃ sql,
      (if criteria.toBool = true then
          replaceSqlPlaceHolder client.type
            ("select count(*) from ".toList ++ model.tableName ++ whereClause criteria)
            "$?".toList
        else some ("select count(*) from ".toList ++ model.tableName ++ whereClause criteria))
        = some sql
      ∧ (Mapper.count model ⟨client, l, o, ob, f⟩ criteria).submitted?
          = some ⟨sql, criteriaValues criteria, Mode.Blocking⟩
      ∧ (Mapper.countCallback model ⟨client, l, o, ob, f⟩ criteria).submitted?
          = some ⟨sql, criteriaValues criteria, Mode.NonBlocking⟩
      ∧ (Mapper.countFuture model ⟨client, l, o, ob, f⟩ criteria).submitted?
          = some ⟨sql, criteriaValues criteria, Mode.NonBlocking⟩)
    ∧ (Mapper.count model ⟨client, l, o, ob, f⟩ Criteria.empty).submitted?
        = some ⟨"select count(*) from ".toList ++ model.tableName, [], Mode.Blocking⟩
    ∧ Mapper.count model ⟨client, l, o, ob, f⟩ criteria
        = Mapper.count model ⟨client, l2, o2, ob2, f2⟩ criteria
    ∧ Mapper.countCallback model ⟨client, l, o, ob, f⟩ criteria
        = Mapper.countCallback model ⟨client, l2, o2, ob2, f2⟩ criteria
    ∧ Mapper.countFuture model ⟨client, l, o, ob, f⟩ criteria
        = Mapper.countFuture model ⟨client, l2, o2, ob2, f2⟩ criteria := by
  obtain ⟨sql, args, hsql, hargs, h1, h2, h3⟩ :=
    count_ran model ⟨client, l, o, ob, f⟩ criteria
  rw [criteria_args_eq] at hargs
  subst hargs
  rw [countSql_eq] at hsql
  exact ⟨⟨sql, hsql, by rw [h1]; rfl, by rw [h2]; rfl, by rw [h3]; rfl⟩, rfl, rfl, rfl, rfl⟩

/-- C20: `findByPrimaryKey` hands to the client the translation of
`select * from t` followed by the primary-key clause and by ` for update`
exactly when the for-update flag is set; the bound values are the key value(s)
only; and for the same client and for-update flag the outcome is the same for
any two values of limit, offset and order-by text, in every calling
convention. -/
theorem findByPrimaryKey_statement {T : Type} (model : Model T) (client : DbClient)
    (key : PrimaryKeyValue) (l o : Nat) (ob : Str) (f : Bool) (l2 o2 : Nat) (ob2 : Str)
    (hpk : model.primaryKeyIsVoid = false)
    (hkey : KeyMatches model.primaryKeyName key = true) :
    (∃ translated,
      replaceSqlPlaceHolder client.type
          ("select * from ".toList ++ model.tableName ++ primaryKeyClause model.primaryKeyName
            ++ forUpdateClause f) "$?".toList = some translated
      ∧ (Mapper.findByPrimaryKey model ⟨client, l, o, ob, f⟩ key).submitted?
          = some ⟨translated, key.components, Mode.Blocking⟩
      ∧ (Mapper.findByPrimaryKeyCallback model ⟨client, l, o, ob, f⟩ key).submitted?
          = some ⟨translated, key.components, Mode.NonBlocking⟩
      ∧ (Mapper.findFutureByPrimaryKey model ⟨client, l, o, ob, f⟩ key).submitted?
          = some ⟨translated, key.components, Mode.NonBlocking⟩)
    ∧ Mapper.findByPrimaryKey model ⟨client, l, o, ob, f⟩ key
        = Mapper.findByPrimaryKey model ⟨client, l2, o2, ob2, f⟩ key
    ∧ Mapper.findByPrimaryKeyCallback model ⟨client, l, o, ob, f⟩ key
        = Mapper.findByPrimaryKeyCallback model ⟨client, l2, o2, ob2, f⟩ key
    ∧ Mapper.findFutureByPrimaryKey model ⟨client, l, o, ob, f⟩ key
        = Mapper.findFutureByPrimaryKey model ⟨client, l2, o2, ob2, f⟩ key := by
  obtain ⟨sql, hsql, h1, h2, h3⟩ :=
    findByPrimaryKey_ran model ⟨client, l, o, ob, f⟩ key hpk hkey
  have hneutral : findByPrimaryKeyNeutral model ⟨client, l, o, ob, f⟩
      = "select * from ".toList ++ model.tableName ++ primaryKeyClause model.primaryKeyName
        ++ forUpdateClause f := by
    unfold findByPrimaryKeyNeutral forUpdateClause
    simp only [makePrimaryKeyCriteria_eq]
    split_ifs <;> simp
  rw [hneutral] at hsql
  exact ⟨⟨sql, hsql, by rw [h1]; rfl, by rw [h2]; rfl, by rw [h3]; rfl⟩, rfl, rfl, rfl⟩

/-- Witness of C20: `findByPrimaryKey` on the sample table with the composite
key `(shop, num)`, on PostgreSQL, called with a limit, an offset and an
order-by text set. -/
theorem findByPrimaryKey_statement_witness :
    (Mapper.findByPrimaryKey
        (sampleModel (PrimaryKeyName.composite ["shop".toList, "num".toList]))
        ⟨sampleClient ClientType.PostgreSQL (DbOutcome.result ⟨[], 0, 0⟩), 5, 2,
          " order by total".toList, true⟩
        (PrimaryKeyValue.tuple [SqlArg.size 7, SqlArg.size 42])).submitted?
      = some ⟨"select * from orders where shop = $1 and num = $2 for update".toList,
          [SqlArg.size 7, SqlArg.size 42], Mode.Blocking⟩ := by
  obtain ⟨translated, h1, h2, _⟩ := (findByPrimaryKey_statement
    (sampleModel (PrimaryKeyName.composite ["shop".toList, "num".toList]))
    (sampleClient ClientType.PostgreSQL (DbOutcome.result ⟨[], 0, 0⟩))
    (PrimaryKeyValue.tuple [SqlArg.size 7, SqlArg.size 42])
    5 2 " order by total".toList true 0 0 [] rfl rfl).1
  rw [h2]
  have h3 : replaceSqlPlaceHolder ClientType.PostgreSQL
      "select * from orders where shop = $? and num = $? for update".toList "$?".toList
      = some "select * from orders where shop = $1 and num = $2 for update".toList := by
    decide
  have h4 : some translated
      = some "select * from orders where shop = $1 and num = $2 for update".toList :=
    h1.symm.trans h3
  rw [Option.some.inj h4]
  rfl

/-! ## The translation, compositionally -/

theorem translateWith_holder (emit : Nat → Str) (next : Nat → Nat) (n : Nat) (tail : Str) :
    translateWith emit next n ('$' :: '?' :: tail)
      = emit n ++ translateWith emit next (next n) tail := by
  rw [translateWith]

theorem translateWith_other (emit : Nat → Str) (next : Nat → Nat) (n : Nat) (c : Char)
    (rest : Str) (h : ¬ (['$', '?'] <+: c :: rest)) :
    translateWith emit next n (c :: rest) = c :: translateWith emit next n rest := by
  rw [translateWith]
  intro tail hc hr
  exact h ((holder_prefix_cons c rest).2 ⟨hc, tail, hr⟩)

/-- The translation writes the pieces of the text with the markers in between. -/
theorem translateWith_eq_split (emit : Nat → Str) (next : Nat → Nat) (s : Str) :
    ∀ n, translateWith emit next n s
      = (splitPlaceholders s).1 ++ markersFrom emit next n (splitPlaceholders s).2 := by
  suffices H : ∀ k (s : Str), s.length = k → ∀ n, translateWith emit next n s
      = (splitPlaceholders s).1 ++ markersFrom emit next n (splitPlaceholders s).2 from
    H s.length s rfl
  intro k
  induction k using Nat.strong_induction_on with
  | _ k ih =>
    intro s hk n
    cases s with
    | nil => rfl
    | cons c rest =>
      by_cases hd : ['$', '?'] <+: c :: rest
      · obtain ⟨rfl, t, rfl⟩ := (holder_prefix_cons c rest).1 hd
        rw [translateWith_holder, splitPlaceholders_holder,
          ih t.length (by simp at hk; omega) t rfl]
        simp [markersFrom]
      · rw [translateWith_other _ _ _ _ _ hd, splitPlaceholders_other c rest hd,
          ih rest.length (by simp at hk; omega) rest rfl]
        simp

/-- With the token `$?`, `replaceSqlPlaceHolder` returns the translation of its
input, for every dialect and every text. -/
theorem replaceSqlPlaceHolder_eq_translated (type : ClientType) (s : Str) :
    replaceSqlPlaceHolder type s "$?".toList = some (translated type s) := by
  obtain ⟨hfree, hs⟩ := splitPlaceholders_spec s
  have hfuel := pieces_lt_length_succ (splitPlaceholders s).1 (splitPlaceholders s).2
  rw [← hs] at hfuel
  have hnum := replaceNumbered_pieces _ _ (s.length + 1) hfree hfuel
  have hgen := replaceGeneric_pieces _ _ (s.length + 1) hfree hfuel
  rw [← hs] at hnum hgen
  have hg : withGenericMarkers (splitPlaceholders s).1 (splitPlaceholders s).2
      = translateWith (fun _ => "?".toList) (fun n => n) 0 s := by
    rw [translateWith_eq_split, markersFrom_generic]
    rfl
  cases type with
  | PostgreSQL =>
    simp only [replaceSqlPlaceHolder, replaceSqlPlaceHolderFuel, if_true, translated]
    rw [hnum, translateWith_eq_split]
  | Mysql =>
    simp only [replaceSqlPlaceHolder, replaceSqlPlaceHolderFuel, translated]
    rw [if_neg (by decide), if_pos (by decide), hgen, hg]
  | Sqlite3 =>
    simp only [replaceSqlPlaceHolder, replaceSqlPlaceHolderFuel, translated]
    rw [if_neg (by decide), if_pos (by decide), hgen, hg]
  | Other =>
    simp only [replaceSqlPlaceHolder, replaceSqlPlaceHolderFuel, translated]
    rw [if_neg (by decide), if_neg (by decide)]

theorem translateWith_of_count_zero (emit : Nat → Str) (next : Nat → Nat) (s : Str) :
    ∀ n, placeholderCount s = 0 → translateWith emit next n s = s := by
  suffices H : ∀ k (s : Str), s.length = k → ∀ n, placeholderCount s = 0 →
      translateWith emit next n s = s from H s.length s rfl
  intro k
  induction k using Nat.strong_induction_on with
  | _ k ih =>
    intro s hk n h0
    cases s with
    | nil => rfl
    | cons c rest =>
      by_cases hd : ['$', '?'] <+: c :: rest
      · obtain ⟨rfl, t, rfl⟩ := (holder_prefix_cons c rest).1 hd
        rw [placeholderCount_holder] at h0
        omega
      · rw [placeholderCount_other c rest hd] at h0
        rw [translateWith_other _ _ _ _ _ hd, ih rest.length (by simp at hk; omega) rest rfl n h0]

/-- The translation of a concatenation whose seam does not form a token: the
second part is translated with the counter advanced once per placeholder of the
first part. -/
theorem translateWith_append (emit : Nat → Str) (next : Nat → Nat) (a b : Str)
    (h : ¬ (a.getLast? = some '$' ∧ b.head? = some '?')) :
    ∀ n, translateWith emit next n (a ++ b)
      = translateWith emit next n a
        ++ translateWith emit next (next^[placeholderCount a] n) b := by
  suffices H : ∀ k (a : Str), a.length = k →
      ¬ (a.getLast? = some '$' ∧ b.head? = some '?') →
      ∀ n, translateWith emit next n (a ++ b)
        = translateWith emit next n a
          ++ translateWith emit next (next^[placeholderCount a] n) b from
    H a.length a rfl h
  intro k
  induction k using Nat.strong_induction_on with
  | _ k ih =>
    intro a hk hseam n
    cases a with
    | nil => simp [placeholderCount, translateWith]
    | cons c rest =>
      have hrest : ¬ (rest.getLast? = some '$' ∧ b.head? = some '?') ∨ rest = [] := by
        cases rest with
        | nil => exact Or.inr rfl
        | cons d r =>
          refine Or.inl (fun hx => hseam ?_)
          simpa [List.getLast?_cons_cons] using hx
      by_cases hd : ['$', '?'] <+: c :: rest
      · obtain ⟨rfl, t, rfl⟩ := (holder_prefix_cons c rest).1 hd
        have ht : ¬ (t.getLast? = some '$' ∧ b.head? = some '?') ∨ t = [] := by
          cases t with
          | nil => exact Or.inr rfl
          | cons d r =>
            refine Or.inl (fun hx => hseam ?_)
            simpa [List.getLast?_cons_cons] using hx
        rw [List.cons_append, List.cons_append, translateWith_holder, translateWith_holder,
          placeholderCount_holder, Function.iterate_succ_apply]
        rcases ht with ht | rfl
        · rw [ih t.length (by simp at hk; omega) t rfl ht]
          simp
        · simp [placeholderCount, translateWith]
      · have hd2 : ¬ (['$', '?'] <+: c :: (rest ++ b)) := by
          rw [holder_prefix_cons]
          rintro ⟨hc, q, hq⟩
          cases rest with
          | nil =>
            apply hseam
            simp only [List.nil_append] at hq
            exact ⟨by simp [hc], by simp [hq]⟩
          | cons d r =>
            simp only [List.cons_append, List.cons.injEq] at hq
            exact hd ((holder_prefix_cons c (d :: r)).2 ⟨hc, r, by rw [hq.1]⟩)
        rw [List.cons_append, translateWith_other _ _ _ _ _ hd2,
          translateWith_other _ _ _ _ _ hd, placeholderCount_other _ _ hd]
        rcases hrest with hrest | rfl
        · rw [ih rest.length (by simp at hk; omega) rest rfl hrest]
          simp
        · simp [placeholderCount, translateWith]

theorem translated_of_count_zero (type : ClientType) (s : Str) (h : placeholderCount s = 0) :
    translated type s = s := by
  cases type <;> simp only [translated] <;> exact translateWith_of_count_zero _ _ s _ h

/-- Appending ` for update` after the translation gives the translation of the
text with ` for update` appended. -/
theorem translated_append_forUpdate (type : ClientType) (body : Str) (f : Bool) :
    translated type (body ++ forUpdateClause f) = translated type body ++ forUpdateClause f := by
  have hseam : ¬ (body.getLast? = some '$' ∧ (forUpdateClause f).head? = some '?') := by
    rintro ⟨_, h⟩
    cases f <;> simp [forUpdateClause] at h
  have hzero : placeholderCount (forUpdateClause f) = 0 := by
    cases f <;> rfl
  cases type with
  | PostgreSQL =>
    simp only [translated]
    rw [translateWith_append _ _ _ _ hseam, translateWith_of_count_zero _ _ _ _ hzero]
  | Mysql =>
    simp only [translated]
    rw [translateWith_append _ _ _ _ hseam, translateWith_of_count_zero _ _ _ _ hzero]
  | Sqlite3 =>
    simp only [translated]
    rw [translateWith_append _ _ _ _ hseam, translateWith_of_count_zero _ _ _ _ hzero]
  | Other => rfl

theorem submitsTranslationOf_of_ran {δ : Type} {o : Outcome δ} {sub : Submission}
    {after : Mapper} {d : δ} (type : ClientType) (neutral : Str)
    (ho : o = Outcome.ran sub after d) (hsql : sub.sql = translated type neutral) :
    SubmitsTranslationOf o type neutral :=
  ⟨translated type neutral, replaceSqlPlaceHolder_eq_translated type neutral, by
    rw [ho]
    simp [Outcome.submitted?, hsql]⟩

theorem submitsText_of_ran {δ : Type} {o : Outcome δ} {sub : Submission}
    {after : Mapper} {d : δ} (text : Str)
    (ho : o = Outcome.ran sub after d) (hsql : sub.sql = text) :
    SubmitsText o text := by
  unfold SubmitsText
  rw [ho]
  simp [Outcome.submitted?, hsql]

/-- The text `findOne`/`findBy` hand to the client, by cases on whether the
translation is reached. -/
theorem selectSql_cases (t : Str) (m : Mapper) (criteria : Criteria) (sql : Str)
    (h : selectSql t m criteria = some sql) :
    (selectHasParameters criteria m._limit m._offset = true →
      sql = translated m._client.type
        (selectBody t criteria m._orderbyString m._limit m._offset
          ++ forUpdateClause m._forUpdate))
    ∧ (selectHasParameters criteria m._limit m._offset = false →
      sql = selectBody t criteria m._orderbyString m._limit m._offset
        ++ forUpdateClause m._forUpdate) := by
  rw [selectSql_eq] at h
  constructor
  · intro hp
    rw [hp, if_pos rfl, replaceSqlPlaceHolder_eq_translated] at h
    rw [translated_append_forUpdate]
    simpa using h.symm
  · intro hp
    rw [hp, if_neg (by decide)] at h
    simpa using h.symm

/-! ## The submitted text and the translation of the neutral statement -/

/-- C11, counterexample: on PostgreSQL, after `orderBy("$?")` on a fresh mapper,
`findBy` with an empty criteria hands `select * from orders order by $?` to the
client, untranslated, while `replaceSqlPlaceHolder` turns this neutral
statement into `select * from orders order by $1`. -/
theorem findBy_submits_untranslated_order_by :
    (Mapper.new (sampleClient ClientType.PostgreSQL (DbOutcome.result ⟨[], 0, 0⟩))).orderBy
        "$?".toList SortOrder.ASC
      = Run.finished
          { _client := sampleClient ClientType.PostgreSQL (DbOutcome.result ⟨[], 0, 0⟩),
            _orderbyString := " order by $?".toList }
    ∧ (Mapper.findBy (sampleModel (PrimaryKeyName.single "num".toList))
          { _client := sampleClient ClientType.PostgreSQL (DbOutcome.result ⟨[], 0, 0⟩),
            _orderbyString := " order by $?".toList }
          Criteria.empty).submitted?.map (fun sub => sub.sql)
        = some "select * from orders order by $?".toList
    ∧ replaceSqlPlaceHolder ClientType.PostgreSQL "select * from orders order by $?".toList
        "$?".toList = some "select * from orders order by $1".toList
    ∧ (Mapper.findBy (sampleModel (PrimaryKeyName.single "num".toList))
          { _client := sampleClient ClientType.PostgreSQL (DbOutcome.result ⟨[], 0, 0⟩),
            _orderbyString := " order by $?".toList }
          Criteria.empty).submitted?.map (fun sub => sub.sql)
        ≠ replaceSqlPlaceHolder ClientType.PostgreSQL
            "select * from orders order by $?".toList "$?".toList := by
  refine ⟨rfl, rfl, by decide, ?_⟩
  decide

/-- C11, amended: the text every terminal operation hands to the client is what
`replaceSqlPlaceHolder` returns for the complete dialect-neutral statement (the
concatenation of all its fragments, ` for update` included) whenever the
operation reaches the translation: always for `findByPrimaryKey`, `insert`,
`update` and `deleteOne`; for `findOne`, `findBy` and `findAll` when a criteria,
a limit or an offset is present; for `count` and `deleteBy` when the criteria is
not empty. Otherwise the neutral statement itself is handed over, untranslated;
it equals its translation when it carries no placeholder. -/
theorem submitted_sql_is_translation_when_reached {T : Type} (model : Model T) (m : Mapper) :
    (∀ key, model.primaryKeyIsVoid = false → KeyMatches model.primaryKeyName key = true →
        SubmitsTranslationOf (m.findByPrimaryKey model key) m._client.type
          ("select * from ".toList ++ model.tableName ++ primaryKeyClause model.primaryKeyName
            ++ forUpdateClause m._forUpdate)
        ∧ SubmitsTranslationOf (m.findByPrimaryKeyCallback model key) m._client.type
          ("select * from ".toList ++ model.tableName ++ primaryKeyClause model.primaryKeyName
            ++ forUpdateClause m._forUpdate)
        ∧ SubmitsTranslationOf (m.findFutureByPrimaryKey model key) m._client.type
          ("select * from ".toList ++ model.tableName ++ primaryKeyClause model.primaryKeyName
            ++ forUpdateClause m._forUpdate))
    ∧ (∀ obj, model.primaryKeyIsVoid = false →
        KeyMatches model.primaryKeyName (model.getPrimaryKey obj) = true →
        SubmitsTranslationOf (m.update model obj) m._client.type
          (updateNeutral model.tableName (model.updateColumns obj) model.primaryKeyName)
        ∧ SubmitsTranslationOf (m.updateCallback model obj) m._client.type
          (updateNeutral model.tableName (model.updateColumns obj) model.primaryKeyName)
        ∧ SubmitsTranslationOf (m.updateFuture model obj) m._client.type
          (updateNeutral model.tableName (model.updateColumns obj) model.primaryKeyName)
        ∧ SubmitsTranslationOf (m.deleteOne model obj) m._client.type
          (deleteOneNeutral model.tableName model.primaryKeyName)
        ∧ SubmitsTranslationOf (m.deleteOneCallback model obj) m._client.type
          (deleteOneNeutral model.tableName model.primaryKeyName)
        ∧ SubmitsTranslationOf (m.deleteFutureOne model obj) m._client.type
          (deleteOneNeutral model.tableName model.primaryKeyName))
    ∧ (∀ obj,
        SubmitsTranslationOf (m.insert model obj) m._client.type
          (insertNeutral model.tableName model.insertColumns m._client.type)
        ∧ SubmitsTranslationOf (m.insertCallback model obj) m._client.type
          (insertNeutral model.tableName model.insertColumns m._client.type)
        ∧ SubmitsTranslationOf (m.insertFuture model obj) m._client.type
          (insertNeutral model.tableName model.insertColumns m._client.type))
    ∧ (∀ criteria, selectHasParameters criteria m._limit m._offset = true →
        SubmitsTranslationOf (m.findOne model criteria) m._client.type
          (selectBody model.tableName criteria m._orderbyString m._limit m._offset
            ++ forUpdateClause m._forUpdate)
        ∧ SubmitsTranslationOf (m.findOneCallback model criteria) m._client.type
          (selectBody model.tableName criteria m._orderbyString m._limit m._offset
            ++ forUpdateClause m._forUpdate)
        ∧ SubmitsTranslationOf (m.findFutureOne model criteria) m._client.type
          (selectBody model.tableName criteria m._orderbyString m._limit m._offset
            ++ forUpdateClause m._forUpdate)
        ∧ SubmitsTranslationOf (m.findBy model criteria) m._client.type
          (selectBody model.tableName criteria m._orderbyString m._limit m._offset
            ++ forUpdateClause m._forUpdate)
        ∧ SubmitsTranslationOf (m.findByCallback model criteria) m._client.type
          (selectBody model.tableName criteria m._orderbyString m._limit m._offset
            ++ forUpdateClause m._forUpdate)
        ∧ SubmitsTranslationOf (m.findFutureBy model criteria) m._client.type
          (selectBody model.tableName criteria m._orderbyString m._limit m._offset
            ++ forUpdateClause m._forUpdate))
    ∧ (∀ criteria, selectHasParameters criteria m._limit m._offset = false →
        SubmitsText (m.findOne model criteria) 
          (selectBody model.tableName criteria m._orderbyString m._limit m._offset
            ++ forUpdateClause m._forUpdate)
        ∧ SubmitsText (m.findOneCallback model criteria) 
          (selectBody model.tableName criteria m._orderbyString m._limit m._offset
            ++ forUpdateClause m._forUpdate)
        ∧ SubmitsText (m.findFutureOne model criteria) 
          (selectBody model.tableName criteria m._orderbyString m._limit m._offset
            ++ forUpdateClause m._forUpdate)
        ∧ SubmitsText (m.findBy model criteria) 
          (selectBody model.tableName criteria m._orderbyString m._limit m._offset
            ++ forUpdateClause m._forUpdate)
        ∧ SubmitsText (m.findByCallback model criteria) 
          (selectBody model.tableName criteria m._orderbyString m._limit m._offset
            ++ forUpdateClause m._forUpdate)
        ∧ SubmitsText (m.findFutureBy model criteria) 
          (selectBody model.tableName criteria m._orderbyString m._limit m._offset
            ++ forUpdateClause m._forUpdate))
    ∧ (selectHasParameters Criteria.empty m._limit m._offset = true →
        SubmitsTranslationOf (m.findAll model) m._client.type
          (selectBody model.tableName Criteria.empty m._orderbyString m._limit m._offset
            ++ forUpdateClause m._forUpdate)
        ∧ SubmitsTranslationOf (m.findAllCallback model) m._client.type
          (selectBody model.tableName Criteria.empty m._orderbyString m._limit m._offset
            ++ forUpdateClause m._forUpdate)
        ∧ SubmitsTranslationOf (m.findFutureAll model) m._client.type
          (selectBody model.tableName Criteria.empty m._orderbyString m._limit m._offset
            ++ forUpdateClause m._forUpdate))
    ∧ (selectHasParameters Criteria.empty m._limit m._offset = false →
        SubmitsText (m.findAll model) 
          (selectBody model.tableName Criteria.empty m._orderbyString m._limit m._offset
            ++ forUpdateClause m._forUpdate)
        ∧ SubmitsText (m.findAllCallback model) 
          (selectBody model.tableName Criteria.empty m._orderbyString m._limit m._offset
            ++ forUpdateClause m._forUpdate)
        ∧ SubmitsText (m.findFutureAll model) 
          (selectBody model.tableName Criteria.empty m._orderbyString m._limit m._offset
            ++ forUpdateClause m._forUpdate))
    ∧ (∀ criteria, criteria.toBool = true →
        (SubmitsTranslationOf (m.count model criteria) m._client.type
          ("select count(*) from ".toList ++ model.tableName ++ whereClause criteria)
        ∧ SubmitsTranslationOf (m.countCallback model criteria) m._client.type
          ("select count(*) from ".toList ++ model.tableName ++ whereClause criteria)
        ∧ SubmitsTranslationOf (m.countFuture model criteria) m._client.type
          ("select count(*) from ".toList ++ model.tableName ++ whereClause criteria))
        ∧ (model.primaryKeyIsVoid = false →
          SubmitsTranslationOf (m.deleteBy model criteria) m._client.type
          ("delete from ".toList ++ model.tableName ++ whereClause criteria)
        ∧ SubmitsTranslationOf (m.deleteByCallback model criteria) m._client.type
          ("delete from ".toList ++ model.tableName ++ whereClause criteria)
        ∧ SubmitsTranslationOf (m.deleteFutureBy model criteria) m._client.type
          ("delete from ".toList ++ model.tableName ++ whereClause criteria)))
    ∧ (∀ criteria, criteria.toBool = false →
        (SubmitsText (m.count model criteria) 
          ("select count(*) from ".toList ++ model.tableName ++ whereClause criteria)
        ∧ SubmitsText (m.countCallback model criteria) 
          ("select count(*) from ".toList ++ model.tableName ++ whereClause criteria)
        ∧ SubmitsText (m.countFuture model criteria) 
          ("select count(*) from ".toList ++ model.tableName ++ whereClause criteria))
        ∧ (model.primaryKeyIsVoid = false →
          SubmitsText (m.deleteBy model criteria) 
          ("delete from ".toList ++ model.tableName ++ whereClause criteria)
        ∧ SubmitsText (m.deleteByCallback model criteria) 
          ("delete from ".toList ++ model.tableName ++ whereClause criteria)
        ∧ SubmitsText (m.deleteFutureBy model criteria) 
          ("delete from ".toList ++ model.tableName ++ whereClause criteria)))
    ∧ (∀ text, placeholderCount text = 0 →
        replaceSqlPlaceHolder m._client.type text "$?".toList = some text) := by
  refine ⟨?_, ?_, ?_, ?_, ?_, ?_, ?_, ?_, ?_, ?_⟩
  · intro key hpk hkey
    obtain ⟨sql, hsql, h1, h2, h3⟩ := findByPrimaryKey_ran model m key hpk hkey
    have hneutral : findByPrimaryKeyNeutral model m
        = "select * from ".toList ++ model.tableName ++ primaryKeyClause model.primaryKeyName
          ++ forUpdateClause m._forUpdate := by
      unfold findByPrimaryKeyNeutral forUpdateClause
      simp only [makePrimaryKeyCriteria_eq]
      split_ifs <;> simp
    rw [hneutral, replaceSqlPlaceHolder_eq_translated] at hsql
    have hs := (Option.some.inj hsql).symm
    exact ⟨submitsTranslationOf_of_ran _ _ h1 hs, submitsTranslationOf_of_ran _ _ h2 hs,
      submitsTranslationOf_of_ran _ _ h3 hs⟩
  · intro obj hpk hkey
    obtain ⟨sql, args, hsql, _, h1, h2, h3⟩ := update_ran model m obj hpk hkey
    obtain ⟨sql2, args2, hsql2, _, h4, h5, h6⟩ := deleteOne_ran model m obj hpk hkey
    rw [replaceSqlPlaceHolder_eq_translated] at hsql hsql2
    have hs := (Option.some.inj hsql).symm
    have hs2 := (Option.some.inj hsql2).symm
    exact ⟨submitsTranslationOf_of_ran _ _ h1 hs, submitsTranslationOf_of_ran _ _ h2 hs,
      submitsTranslationOf_of_ran _ _ h3 hs, submitsTranslationOf_of_ran _ _ h4 hs2,
      submitsTranslationOf_of_ran _ _ h5 hs2, submitsTranslationOf_of_ran _ _ h6 hs2⟩
  · intro obj
    obtain ⟨sql, hsql, h1, h2, h3⟩ := insert_ran model m obj
    rw [replaceSqlPlaceHolder_eq_translated] at hsql
    have hs := (Option.some.inj hsql).symm
    exact ⟨submitsTranslationOf_of_ran _ _ h1 hs, submitsTranslationOf_of_ran _ _ h2 hs,
      submitsTranslationOf_of_ran _ _ h3 hs⟩
  · intro criteria hp
    obtain ⟨sql, hsql, h1, h2, h3⟩ := findOne_ran model m criteria
    obtain ⟨sql2, hsql2, h4, h5, h6⟩ := findBy_ran model m criteria
    have hs := (selectSql_cases _ _ _ _ hsql).1 hp
    have hs2 := (selectSql_cases _ _ _ _ hsql2).1 hp
    exact ⟨submitsTranslationOf_of_ran _ _ h1 hs, submitsTranslationOf_of_ran _ _ h2 hs,
      submitsTranslationOf_of_ran _ _ h3 hs, submitsTranslationOf_of_ran _ _ h4 hs2,
      submitsTranslationOf_of_ran _ _ h5 hs2, submitsTranslationOf_of_ran _ _ h6 hs2⟩
  · intro criteria hp
    obtain ⟨sql, hsql, h1, h2, h3⟩ := findOne_ran model m criteria
    obtain ⟨sql2, hsql2, h4, h5, h6⟩ := findBy_ran model m criteria
    have hs := (selectSql_cases _ _ _ _ hsql).2 hp
    have hs2 := (selectSql_cases _ _ _ _ hsql2).2 hp
    exact ⟨submitsText_of_ran _ h1 hs, submitsText_of_ran _ h2 hs,
      submitsText_of_ran _ h3 hs, submitsText_of_ran _ h4 hs2,
      submitsText_of_ran _ h5 hs2, submitsText_of_ran _ h6 hs2⟩
  · intro hp
    obtain ⟨sql, hsql, h1, h2, h3⟩ := findBy_ran model m Criteria.empty
    have hs := (selectSql_cases _ _ _ _ hsql).1 hp
    exact ⟨submitsTranslationOf_of_ran (o := m.findAll model) _ _ h1 hs,
      submitsTranslationOf_of_ran (o := m.findAllCallback model) _ _ h2 hs,
      submitsTranslationOf_of_ran (o := m.findFutureAll model) _ _ h3 hs⟩
  · intro hp
    obtain ⟨sql, hsql, h1, h2, h3⟩ := findBy_ran model m Criteria.empty
    have hs := (selectSql_cases _ _ _ _ hsql).2 hp
    exact ⟨submitsText_of_ran (o := m.findAll model) _ h1 hs,
      submitsText_of_ran (o := m.findAllCallback model) _ h2 hs,
      submitsText_of_ran (o := m.findFutureAll model) _ h3 hs⟩
  · intro criteria hc
    constructor
    · obtain ⟨sql, args, hsql, _, h1, h2, h3⟩ := count_ran model m criteria
      rw [countSql_eq, if_pos hc, replaceSqlPlaceHolder_eq_translated] at hsql
      have hs := (Option.some.inj hsql).symm
      exact ⟨submitsTranslationOf_of_ran _ _ h1 hs, submitsTranslationOf_of_ran _ _ h2 hs,
        submitsTranslationOf_of_ran _ _ h3 hs⟩
    · intro hpk
      obtain ⟨sql, args, hsql, _, h1, h2, h3⟩ := deleteBy_ran model m criteria hpk
      rw [deleteBySql_eq, if_pos hc, replaceSqlPlaceHolder_eq_translated] at hsql
      have hs := (Option.some.inj hsql).symm
      exact ⟨submitsTranslationOf_of_ran _ _ h1 hs, submitsTranslationOf_of_ran _ _ h2 hs,
        submitsTranslationOf_of_ran _ _ h3 hs⟩
  · intro criteria hc
    have hc2 : ¬ (criteria.toBool = true) := by simp [hc]
    constructor
    · obtain ⟨sql, args, hsql, _, h1, h2, h3⟩ := count_ran model m criteria
      rw [countSql_eq, if_neg hc2] at hsql
      have hs := (Option.some.inj hsql).symm
      exact ⟨submitsText_of_ran _ h1 hs, submitsText_of_ran _ h2 hs,
        submitsText_of_ran _ h3 hs⟩
    · intro hpk
      obtain ⟨sql, args, hsql, _, h1, h2, h3⟩ := deleteBy_ran model m criteria hpk
      rw [deleteBySql_eq, if_neg hc2] at hsql
      have hs := (Option.some.inj hsql).symm
      exact ⟨submitsText_of_ran _ h1 hs, submitsText_of_ran _ h2 hs,
        submitsText_of_ran _ h3 hs⟩
  · intro text h0
    rw [replaceSqlPlaceHolder_eq_translated, translated_of_count_zero _ _ h0]

/-- Witness of the amended C11: `findBy` with a criteria, a limit and for-update
on the sample table, on PostgreSQL. -/
theorem submitted_sql_is_translation_when_reached_witness :
    selectHasParameters (Criteria.cond "total > $?".toList [SqlArg.int 100]) 5 0 = true
    ∧ SubmitsTranslationOf
        (Mapper.findBy (sampleModel (PrimaryKeyName.single "num".toList))
          { _client := sampleClient ClientType.PostgreSQL (DbOutcome.result ⟨[], 0, 0⟩),
            _limit := 5, _forUpdate := true }
          (Criteria.cond "total > $?".toList [SqlArg.int 100]))
        ClientType.PostgreSQL
        "select * from orders where total > $? limit $? for update".toList :=
  ⟨rfl,
    ((submitted_sql_is_translation_when_reached
      (sampleModel (PrimaryKeyName.single "num".toList))
      { _client := sampleClient ClientType.PostgreSQL (DbOutcome.result ⟨[], 0, 0⟩),
        _limit := 5, _forUpdate := true }).2.2.2.1
      (Criteria.cond "total > $?".toList [SqlArg.int 100]) rfl).2.2.2.1⟩

/-! ## Insert -/

/-- C15: for a successful insert, with result `r` of the client: on PostgreSQL,
when `r` holds the single echoed row, each calling convention delivers the
entity constructed from that row, `T(r[0])`; on Mysql and Sqlite3 each
convention delivers the caller's entity after `updateId(r.insertId())`, so
every reading of the entity that `updateId` sets to the id equals
`r.insertId()` and every reading that `updateId` leaves alone is as the caller
supplied it. -/
theorem insert_result {T : Type} (model : Model T) (m : Mapper) (obj : T) :
    ∃ sql,
      (m.insert model obj).submitted? = some ⟨sql, model.outputArgs obj, Mode.Blocking⟩
      ∧ (m.insertCallback model obj).submitted?
          = some ⟨sql, model.outputArgs obj, Mode.NonBlocking⟩
      ∧ (m.insertFuture model obj).submitted?
          = some ⟨sql, model.outputArgs obj, Mode.NonBlocking⟩
      ∧ ∀ r, m._client.exec sql (model.outputArgs obj) = DbOutcome.result r →
        (m._client.type = ClientType.PostgreSQL → ∀ row, r.rows = [row] →
          Returns (m.insert model obj) (model.fromRow row)
            ∧ CallsResult (m.insertCallback model obj) (model.fromRow row)
            ∧ ResolvesTo (m.insertFuture model obj) (model.fromRow row))
        ∧ (m._client.type = ClientType.Mysql ∨ m._client.type = ClientType.Sqlite3 →
          Returns (m.insert model obj) (model.updateId obj r.insertId)
            ∧ CallsResult (m.insertCallback model obj) (model.updateId obj r.insertId)
            ∧ ResolvesTo (m.insertFuture model obj) (model.updateId obj r.insertId)
            ∧ (∀ keyOf : T → Nat, (∀ o id, keyOf (model.updateId o id) = id) →
                ∃ v, Returns (m.insert model obj) v ∧ keyOf v = r.insertId)
            ∧ (∀ (α : Type) (field : T → α),
                (∀ o id, field (model.updateId o id) = field o) →
                ∃ v, Returns (m.insert model obj) v ∧ field v = field obj)) := by
  obtain ⟨sql, _, h1, h2, h3⟩ := insert_ran model m obj
  refine ⟨sql, by rw [h1]; rfl, by rw [h2]; rfl, by rw [h3]; rfl, ?_⟩
  intro r hexec
  rw [h1, h2, h3, hexec]
  unfold Returns CallsResult ResolvesTo
  simp only [Outcome.delivery?]
  constructor
  · intro hpg row hrow
    obtain ⟨rows, a, i⟩ := r
    simp only at hrow
    subst hrow
    simp [insertBlocking, insertCallbackDelivery, insertFutureDelivery, hpg,
      Promise.set_value]
  · intro hty
    have hne : m._client.type ≠ ClientType.PostgreSQL := by
      rcases hty with h | h <;> simp [h]
    have hb : insertBlocking model m._client.type obj (DbOutcome.result r)
        = Run.finished (Except.ok (model.updateId obj r.insertId)) := by
      simp [insertBlocking, hne]
    refine ⟨by rw [hb], ?_, ?_, ?_, ?_⟩
    · simp [insertCallbackDelivery, hne]
    · simp [insertFutureDelivery, hne, Promise.set_value]
    · intro keyOf hk
      exact ⟨_, by rw [hb], hk _ _⟩
    · intro α field hf
      exact ⟨_, by rw [hb], hf _ _⟩

/-- Witness of C15: on Mysql, against a client reporting the insert id 77, the
insert of the sample entity 5 returns the entity with id 77. -/
theorem insert_result_witness :
    (ClientType.Mysql = ClientType.Mysql ∨ ClientType.Mysql = ClientType.Sqlite3)
    ∧ Returns
        (Mapper.insert (sampleModel (PrimaryKeyName.single "num".toList))
          (Mapper.new (sampleClient ClientType.Mysql (DbOutcome.result ⟨[], 1, 77⟩))) 5)
        ((sampleModel (PrimaryKeyName.single "num".toList)).updateId 5 77) := by
  refine ⟨Or.inl rfl, ?_⟩
  obtain ⟨sql, _, _, _, h⟩ := insert_result
    (sampleModel (PrimaryKeyName.single "num".toList))
    (Mapper.new (sampleClient ClientType.Mysql (DbOutcome.result ⟨[], 1, 77⟩))) 5
  exact ((h ⟨[], 1, 77⟩ rfl).2 (Or.inl rfl)).1

/-! ## Texts built column by column -/

theorem foldl_append_sep (sep : Str) (cols : List Str) :
    ∀ init : Str, cols.foldl (fun sql colName => sql ++ colName ++ sep) init
      = init ++ (cols.map (fun c => c ++ sep)).flatten := by
  induction cols with
  | nil => intro init; simp
  | cons c cols ih =>
    intro init
    rw [List.foldl_cons, ih]
    simp

theorem flatten_map_sep (sep : Str) (cols : List Str) (h : cols ≠ []) :
    (cols.map (fun c => c ++ sep)).flatten = List.intercalate sep cols ++ sep := by
  induction cols with
  | nil => exact absurd rfl h
  | cons c cols ih =>
    cases cols with
    | nil => simp [List.intercalate]
    | cons d r =>
      have := ih (by simp)
      simp only [List.map_cons, List.flatten_cons] at this ⊢
      rw [this]
      simp [List.intercalate]

theorem setLast_append_singleton (x : Str) (c d : Char) :
    setLast (x ++ [c]) d = x ++ [d] := by
  unfold setLast
  simp

theorem foldl_range_append (y : Str) (n : Nat) :
    ∀ init : Str, (List.range n).foldl (fun sql _ => sql ++ y) init
      = init ++ (List.replicate n y).flatten := by
  induction n with
  | zero => intro init; simp
  | succ k ih =>
    intro init
    rw [List.range_succ, List.foldl_append, ih]
    simp [List.replicate_succ']

theorem flatten_replicate_holders (n : Nat) (h : 0 < n) :
    (List.replicate n "$?,".toList).flatten
      = List.intercalate ",".toList (List.replicate n "$?".toList) ++ ",".toList := by
  have := flatten_map_sep ",".toList (List.replicate n "$?".toList) (by
    intro h0
    have hl := congrArg List.length h0
    simp at hl
    omega)
  rw [← this, List.map_replicate]
  rfl

/-- The text `insert` builds before translation, for a column list that is not
empty. -/
theorem insertNeutral_eq (t : Str) (cols : List Str) (type : ClientType) (h : cols ≠ []) :
    insertNeutral t cols type
      = "insert into ".toList ++ t ++ " (".toList ++ List.intercalate ",".toList cols
        ++ ")".toList ++ " values (".toList
        ++ List.intercalate ",".toList (List.replicate cols.length "$?".toList)
        ++ ")".toList ++ (if type = ClientType.PostgreSQL then " returning *".toList else []) := by
  have hn : 0 < cols.length := List.length_pos.2 h
  have h1 : setLast (cols.foldl (fun sql colName => sql ++ colName ++ ",".toList)
      ("insert into ".toList ++ t ++ " (".toList)) ')'
      = "insert into ".toList ++ t ++ " (".toList ++ List.intercalate ",".toList cols
        ++ ")".toList := by
    rw [foldl_append_sep, flatten_map_sep _ _ h]
    have := setLast_append_singleton
      ("insert into ".toList ++ t ++ " (".toList ++ List.intercalate ",".toList cols) ',' ')'
    simpa [List.append_assoc] using this
  have h2 : ∀ init : Str, setLast ((List.range cols.length).foldl
      (fun sql _ => sql ++ "$?,".toList) init) ')'
      = init ++ List.intercalate ",".toList (List.replicate cols.length "$?".toList)
        ++ ")".toList := by
    intro init
    rw [foldl_range_append, flatten_replicate_holders _ hn]
    have := setLast_append_singleton
      (init ++ List.intercalate ",".toList (List.replicate cols.length "$?".toList)) ',' ')'
    simpa [List.append_assoc] using this
  unfold insertNeutral
  simp only [h1, h2]
  split_ifs <;> simp

theorem placeholderCount_intercalate (sep : Str) (hne : sep ≠ []) (h0 : placeholderCount sep = 0)
    (hhead : sep.head? ≠ some '?') (hlast : sep.getLast? ≠ some '$') (xs : List Str) :
    placeholderCount (List.intercalate sep xs) = (xs.map placeholderCount).sum := by
  induction xs with
  | nil => simp [List.intercalate, placeholderCount]
  | cons x xs ih =>
    cases xs with
    | nil => simp [List.intercalate]
    | cons y r =>
      have hform : List.intercalate sep (x :: y :: r)
          = x ++ (sep ++ List.intercalate sep (y :: r)) := by
        simp [List.intercalate]
      have hh : (sep ++ List.intercalate sep (y :: r)).head? ≠ some '?' := by
        rw [List.head?_append_of_ne_nil _ hne]
        exact hhead
      rw [hform, placeholderCount_append_of_head _ _ hh,
        placeholderCount_append_of_last _ _ hlast, h0, ih]
      simp

theorem placeholderCount_columns (cols : List Str) (h : ∀ c ∈ cols, placeholderCount c = 0) :
    placeholderCount (List.intercalate ",".toList cols) = 0 := by
  rw [placeholderCount_intercalate ",".toList (by decide) rfl (by decide) (by decide)]
  apply List.sum_eq_zero
  intro x hx
  obtain ⟨c, hc, rfl⟩ := List.mem_map.1 hx
  exact h c hc

theorem placeholderCount_holders (n : Nat) :
    placeholderCount (List.intercalate ",".toList (List.replicate n "$?".toList)) = n := by
  rw [placeholderCount_intercalate ",".toList (by decide) rfl (by decide) (by decide),
    List.map_replicate]
  have : placeholderCount "$?".toList = 1 := rfl
  rw [this]
  simp

/-- The text of `insert` carries one placeholder per insert column when the
table name and the column names carry none. -/
theorem insertNeutral_count (t : Str) (cols : List Str) (type : ClientType) (h : cols ≠ [])
    (ht : placeholderCount t = 0) (hc : ∀ c ∈ cols, placeholderCount c = 0) :
    placeholderCount (insertNeutral t cols type) = cols.length := by
  have hret : placeholderCount
      (if type = ClientType.PostgreSQL then " returning *".toList else []) = 0 := by
    split_ifs <;> rfl
  have hreth : (if type = ClientType.PostgreSQL then " returning *".toList else []).head?
      ≠ some '?' := by
    split_ifs <;> decide
  have hY : (List.intercalate ",".toList (List.replicate cols.length "$?".toList)).head?
      ≠ some '?' := by
    obtain ⟨k, hk⟩ : ∃ k, cols.length = k + 1 :=
      ⟨cols.length - 1, by have := List.length_pos.2 h; omega⟩
    rw [hk, List.replicate_succ]
    cases k with
    | zero => simp [List.intercalate]
    | succ j => simp [List.intercalate, List.replicate_succ]
  have hpre : ("insert into ".toList ++ t ++ " (".toList).getLast? ≠ some '$' := by
    rw [List.getLast?_append_of_ne_nil _ (by decide)]
    decide
  rw [insertNeutral_eq t cols type h, placeholderCount_append_of_head _ _ hreth, hret,
    placeholderCount_append_of_head _ _ (by decide),
    placeholderCount_append_of_head _ _ hY, placeholderCount_holders,
    placeholderCount_append_of_head _ _ (by decide),
    placeholderCount_append_of_head _ _ (by decide),
    placeholderCount_append_of_last _ _ hpre, placeholderCount_columns cols hc,
    placeholderCount_append_of_head _ _ (by decide),
    placeholderCount_append_of_last _ _ (by decide), ht]
  have h1 : placeholderCount "insert into ".toList = 0 := rfl
  have h2 : placeholderCount " (".toList = 0 := rfl
  have h3 : placeholderCount ")".toList = 0 := rfl
  have h4 : placeholderCount " values (".toList = 0 := rfl
  rw [h1, h2, h3, h4]
  omega

/-- C14: for an entity with a non-empty insert-column list `c1..cn`, the text
`insert` builds before translation is
`insert into t (c1,...,cn) values ($?,...,$?)` with `n` placeholders in the
value list, followed by ` returning *` exactly when the client is PostgreSQL;
it carries `n` placeholders in all when the table and column names carry none;
each calling convention hands its translation to the client with the entity's
serialized insert arguments as the bound values. -/
theorem insert_statement {T : Type} (model : Model T) (m : Mapper) (obj : T)
    (hcols : model.insertColumns ≠ []) :
    insertNeutral model.tableName model.insertColumns m._client.type
        = "insert into ".toList ++ model.tableName ++ " (".toList
          ++ List.intercalate ",".toList model.insertColumns ++ ")".toList
          ++ " values (".toList
          ++ List.intercalate ",".toList
              (List.replicate model.insertColumns.length "$?".toList)
          ++ ")".toList
          ++ (if m._client.type = ClientType.PostgreSQL then " returning *".toList else [])
    ∧ placeholderCount
        (List.intercalate ",".toList (List.replicate model.insertColumns.length "$?".toList))
        = model.insertColumns.length
    ∧ (placeholderCount model.tableName = 0 →
        (∀ c ∈ model.insertColumns, placeholderCount c = 0) →
        placeholderCount (insertNeutral model.tableName model.insertColumns m._client.type)
          = model.insertColumns.length)
    ∧ ∃ sql,
        replaceSqlPlaceHolder m._client.type
            (insertNeutral model.tableName model.insertColumns m._client.type) "$?".toList
          = some sql
        ∧ (m.insert model obj).submitted? = some ⟨sql, model.outputArgs obj, Mode.Blocking⟩
        ∧ (m.insertCallback model obj).submitted?
            = some ⟨sql, model.outputArgs obj, Mode.NonBlocking⟩
        ∧ (m.insertFuture model obj).submitted?
            = some ⟨sql, model.outputArgs obj, Mode.NonBlocking⟩ := by
  refine ⟨insertNeutral_eq _ _ _ hcols, placeholderCount_holders _,
    fun ht hc => insertNeutral_count _ _ _ hcols ht hc, ?_⟩
  obtain ⟨sql, hsql, h1, h2, h3⟩ := insert_ran model m obj
  exact ⟨sql, hsql, by rw [h1]; rfl, by rw [h2]; rfl, by rw [h3]; rfl⟩

/-- Witness of C14: the insert of the sample entity 5 on PostgreSQL and on
Sqlite3. -/
theorem insert_statement_witness :
    (sampleModel (PrimaryKeyName.single "num".toList)).insertColumns ≠ []
    ∧ insertNeutral "orders".toList ["shop".toList, "num".toList, "total".toList]
        ClientType.PostgreSQL
      = "insert into orders (shop,num,total) values ($?,$?,$?) returning *".toList
    ∧ insertNeutral "orders".toList ["shop".toList, "num".toList, "total".toList]
        ClientType.Sqlite3
      = "insert into orders (shop,num,total) values ($?,$?,$?)".toList
    ∧ (Mapper.insert (sampleModel (PrimaryKeyName.single "num".toList))
        (Mapper.new (sampleClient ClientType.PostgreSQL
          (DbOutcome.result ⟨[sampleRow 9], 1, 0⟩))) 5).submitted?
      = some ⟨"insert into orders (shop,num,total) values ($1,$2,$3) returning *".toList,
          [SqlArg.size 5, SqlArg.size 5, SqlArg.size 5], Mode.Blocking⟩ := by
  have h := insert_statement (sampleModel (PrimaryKeyName.single "num".toList))
    (Mapper.new (sampleClient ClientType.PostgreSQL
      (DbOutcome.result ⟨[sampleRow 9], 1, 0⟩))) 5 (by decide)
  refine ⟨by decide, by decide, by decide, ?_⟩
  obtain ⟨sql, h1, h2, _⟩ := h.2.2.2
  rw [h2]
  have h3 : replaceSqlPlaceHolder ClientType.PostgreSQL
      "insert into orders (shop,num,total) values ($?,$?,$?) returning *".toList "$?".toList
      = some "insert into orders (shop,num,total) values ($1,$2,$3) returning *".toList := by
    decide
  have h4 : some sql
      = some "insert into orders (shop,num,total) values ($1,$2,$3) returning *".toList :=
    h1.symm.trans h3
  rw [Option.some.inj h4]
  rfl

/-! ## Numbered texts -/

theorem iterate_add_one (k n : Nat) : (fun n => n + 1)^[k] n = n + k := by
  induction k generalizing n with
  | zero => rfl
  | succ j ih =>
    rw [Function.iterate_succ_apply, ih]
    omega

theorem numberedText_append (a b : Str) (n : Nat)
    (h : ¬ (a.getLast? = some '$' ∧ b.head? = some '?')) :
    numberedText n (a ++ b) = numberedText n a ++ numberedText (n + placeholderCount a) b := by
  unfold numberedText
  rw [translateWith_append _ _ _ _ h, iterate_add_one]

theorem numberedText_of_count_zero (s : Str) (n : Nat) (h : placeholderCount s = 0) :
    numberedText n s = s :=
  translateWith_of_count_zero _ _ s n h

/-- While the `size_t` counter does not wrap, the PostgreSQL markers are the
numbers `n`, `n + 1`, ... -/
theorem translateWith_wrap_eq (s : Str) :
    ∀ n, n + placeholderCount s ≤ sizeModulus →
      translateWith (fun n => "$".toList ++ decimal n) (fun n => (n + 1) % sizeModulus) n s
        = numberedText n s := by
  suffices H : ∀ k (s : Str), s.length = k → ∀ n, n + placeholderCount s ≤ sizeModulus →
      translateWith (fun n => "$".toList ++ decimal n) (fun n => (n + 1) % sizeModulus) n s
        = numberedText n s from H s.length s rfl
  intro k
  induction k using Nat.strong_induction_on with
  | _ k ih =>
    intro s hk n hn
    cases s with
    | nil => rfl
    | cons c rest =>
      by_cases hd : ['$', '?'] <+: c :: rest
      · obtain ⟨rfl, t, rfl⟩ := (holder_prefix_cons c rest).1 hd
        rw [placeholderCount_holder] at hn
        unfold numberedText
        rw [translateWith_holder, translateWith_holder]
        congr 1
        by_cases h0 : placeholderCount t = 0
        · rw [translateWith_of_count_zero _ _ _ _ h0, translateWith_of_count_zero _ _ _ _ h0]
        · have hmod : (n + 1) % sizeModulus = n + 1 := Nat.mod_eq_of_lt (by omega)
          simp only [hmod]
          exact ih t.length (by simp at hk; omega) t rfl (n + 1) (by omega)
      · rw [placeholderCount_other c rest hd] at hn
        unfold numberedText
        rw [translateWith_other _ _ _ _ _ hd, translateWith_other _ _ _ _ _ hd]
        congr 1
        exact ih rest.length (by simp at hk; omega) rest rfl n hn

theorem placeholderCount_equality (c : Str) (h : placeholderCount c = 0) :
    placeholderCount (c ++ " = $?".toList) = 1 := by
  rw [placeholderCount_append_of_head _ _ (by decide), h]
  rfl

theorem numberedText_equality (c : Str) (n : Nat) (h : placeholderCount c = 0) :
    numberedText n (c ++ " = $?".toList) = c ++ " = $".toList ++ decimal n := by
  rw [numberedText_append _ _ _ (fun hx => absurd hx.2 (by decide)), h,
    numberedText_of_count_zero c n h]
  have : numberedText (n + 0) " = $?".toList = " = $".toList ++ decimal n := by
    simp [numberedText, translateWith]
  rw [this, List.append_assoc]

/-- The equalities `c = $?` of the columns `cols`, joined by a separator that
carries no placeholder, hold one placeholder per column, and numbering them
from `n` gives `c1 = $n`, `c2 = $(n+1)`, ... joined by the separator. -/
theorem equalities_numbered (sep : Str) (hne : sep ≠ []) (h0 : placeholderCount sep = 0)
    (hhead : sep.head? ≠ some '?') (hlast : sep.getLast? ≠ some '$') (cols : List Str) :
    ∀ n, (∀ c ∈ cols, placeholderCount c = 0) →
      placeholderCount (List.intercalate sep (cols.map (fun c => c ++ " = $?".toList)))
          = cols.length
        ∧ numberedText n (List.intercalate sep (cols.map (fun c => c ++ " = $?".toList)))
          = List.intercalate sep (numberedEqualities n cols) := by
  induction cols with
  | nil => intro n _; exact ⟨rfl, rfl⟩
  | cons c cols ih =>
    intro n hc
    have hc0 : placeholderCount c = 0 := hc c (by simp)
    have hrest : ∀ d ∈ cols, placeholderCount d = 0 := fun d hd => hc d (by simp [hd])
    cases cols with
    | nil =>
      simp only [List.map_cons, List.map_nil, numberedEqualities, List.length_singleton]
      have hone : ∀ x : Str, List.intercalate sep [x] = x := by
        intro x; simp [List.intercalate]
      rw [hone, hone]
      exact ⟨placeholderCount_equality c hc0, numberedText_equality c n hc0⟩
    | cons d r =>
      obtain ⟨ih1, ih2⟩ := ih (n + 1) hrest
      have hform : ∀ (x y : Str) (l : List Str), List.intercalate sep (x :: y :: l)
          = x ++ (sep ++ List.intercalate sep (y :: l)) := by
        intro x y l; simp [List.intercalate]
      have hh : ∀ I : Str, (sep ++ I).head? ≠ some '?' := by
        intro I
        rw [List.head?_append_of_ne_nil _ hne]
        exact hhead
      simp only [List.map_cons, numberedEqualities] at ih1 ih2 ⊢
      rw [hform, hform]
      constructor
      · rw [placeholderCount_append_of_head _ _ (hh _),
          placeholderCount_append_of_last _ _ hlast, h0, placeholderCount_equality c hc0, ih1]
        simp only [List.length_cons]
        omega
      · rw [numberedText_append _ _ _ (fun hx => hh _ hx.2), numberedText_equality c n hc0,
          placeholderCount_equality c hc0,
          numberedText_append _ _ _ (fun hx => hlast hx.1), h0,
          numberedText_of_count_zero sep _ h0]
        simp only [Nat.add_zero]
        rw [ih2]

/-! ## Update -/

theorem numbered_literal_left (lit x : Str) (n : Nat) (h0 : placeholderCount lit = 0)
    (hlast : lit.getLast? ≠ some '$') :
    placeholderCount (lit ++ x) = placeholderCount x
      ∧ numberedText n (lit ++ x) = lit ++ numberedText n x := by
  constructor
  · rw [placeholderCount_append_of_last _ _ hlast, h0, Nat.zero_add]
  · rw [numberedText_append _ _ _ (fun hx => hlast hx.1), h0,
      numberedText_of_count_zero lit n h0, Nat.add_zero]

theorem numbered_name_left (name x : Str) (n : Nat) (h0 : placeholderCount name = 0)
    (hhead : x.head? ≠ some '?') :
    placeholderCount (name ++ x) = placeholderCount x
      ∧ numberedText n (name ++ x) = name ++ numberedText n x := by
  constructor
  · rw [placeholderCount_append_of_head _ _ hhead, h0, Nat.zero_add]
  · rw [numberedText_append _ _ _ (fun hx => hhead hx.2), h0,
      numberedText_of_count_zero name n h0, Nat.add_zero]

/-- The text `update` builds before translation, for an update-column list that
is not empty. -/
theorem updateNeutral_eq (t : Str) (cols : List Str) (pk : PrimaryKeyName) (h : cols ≠ []) :
    updateNeutral t cols pk
      = "update ".toList ++ t ++ " set ".toList
        ++ List.intercalate ",".toList (cols.map (fun c => c ++ " = $?".toList))
        ++ " ".toList ++ primaryKeyClause pk := by
  have hmap : (cols.map (fun c => c ++ " = $?,".toList)).flatten
      = List.intercalate ",".toList (cols.map (fun c => c ++ " = $?".toList))
        ++ ",".toList := by
    rw [← flatten_map_sep ",".toList (cols.map (fun c => c ++ " = $?".toList)) (by simpa using h),
      List.map_map]
    congr 2
    funext c
    simp
  unfold updateNeutral
  simp only [makePrimaryKeyCriteria_eq]
  rw [foldl_append_sep, hmap]
  have := setLast_append_singleton
    ("update ".toList ++ t ++ " set ".toList
      ++ List.intercalate ",".toList (cols.map (fun c => c ++ " = $?".toList))) ',' ' '
  have hs : setLast ("update ".toList ++ t ++ " set ".toList
      ++ (List.intercalate ",".toList (cols.map (fun c => c ++ " = $?".toList))
        ++ ",".toList)) ' '
      = "update ".toList ++ t ++ " set ".toList
        ++ List.intercalate ",".toList (cols.map (fun c => c ++ " = $?".toList))
        ++ " ".toList := by
    simpa [List.append_assoc] using this
  rw [hs]

/-- On a text of `update` whose table and column names carry no placeholder,
the set columns hold the placeholders 1 to `m` and the key columns the
placeholders `m + 1` to `m + N`. -/
theorem update_numbered (t : Str) (cols keys : List Str) (ht : placeholderCount t = 0)
    (hc : ∀ c ∈ cols, placeholderCount c = 0) (hk : ∀ k ∈ keys, placeholderCount k = 0) :
    placeholderCount
        ("update ".toList ++ t ++ " set ".toList
          ++ List.intercalate ",".toList (cols.map (fun c => c ++ " = $?".toList))
          ++ " ".toList
          ++ (" where ".toList
            ++ List.intercalate " and ".toList (keys.map (fun k => k ++ " = $?".toList))))
        = cols.length + keys.length
      ∧ numberedText 1
          ("update ".toList ++ t ++ " set ".toList
            ++ List.intercalate ",".toList (cols.map (fun c => c ++ " = $?".toList))
            ++ " ".toList
            ++ (" where ".toList
              ++ List.intercalate " and ".toList (keys.map (fun k => k ++ " = $?".toList))))
        = "update ".toList ++ t ++ " set ".toList
          ++ List.intercalate ",".toList (numberedEqualities 1 cols) ++ " ".toList
          ++ (" where ".toList
            ++ List.intercalate " and ".toList (numberedEqualities (cols.length + 1) keys)) := by
  obtain ⟨e1, e2⟩ := equalities_numbered ",".toList (by decide) rfl (by decide) (by decide)
    cols 1 hc
  obtain ⟨k1, k2⟩ := equalities_numbered " and ".toList (by decide) rfl (by decide)
    (by decide) keys (1 + cols.length) hk
  have hsp : ∀ x : Str, (" ".toList ++ x).head? ≠ some '?' := by intro x; simp
  have hset : ∀ x : Str, (" set ".toList ++ x).head? ≠ some '?' := by intro x; simp
  simp only [List.append_assoc]
  obtain ⟨a1, a2⟩ := numbered_literal_left " where ".toList
    (List.intercalate " and ".toList (keys.map (fun k => k ++ " = $?".toList)))
    (1 + cols.length) rfl (by decide)
  obtain ⟨b1, b2⟩ := numbered_literal_left " ".toList
    (" where ".toList
      ++ List.intercalate " and ".toList (keys.map (fun k => k ++ " = $?".toList)))
    (1 + cols.length) rfl (by decide)
  have c1 := placeholderCount_append_of_head
    (List.intercalate ",".toList (cols.map (fun c => c ++ " = $?".toList)))
    (" ".toList ++ (" where ".toList
      ++ List.intercalate " and ".toList (keys.map (fun k => k ++ " = $?".toList))))
    (hsp _)
  have c2 := numberedText_append
    (List.intercalate ",".toList (cols.map (fun c => c ++ " = $?".toList)))
    (" ".toList ++ (" where ".toList
      ++ List.intercalate " and ".toList (keys.map (fun k => k ++ " = $?".toList))))
    1 (fun hx => hsp _ hx.2)
  obtain ⟨d1, d2⟩ := numbered_literal_left " set ".toList
    (List.intercalate ",".toList (cols.map (fun c => c ++ " = $?".toList))
      ++ (" ".toList ++ (" where ".toList
        ++ List.intercalate " and ".toList (keys.map (fun k => k ++ " = $?".toList)))))
    1 rfl (by decide)
  obtain ⟨f1, f2⟩ := numbered_name_left t
    (" set ".toList
      ++ (List.intercalate ",".toList (cols.map (fun c => c ++ " = $?".toList))
        ++ (" ".toList ++ (" where ".toList
          ++ List.intercalate " and ".toList (keys.map (fun k => k ++ " = $?".toList))))))
    1 ht (hset _)
  obtain ⟨g1, g2⟩ := numbered_literal_left "update ".toList
    (t ++ (" set ".toList
      ++ (List.intercalate ",".toList (cols.map (fun c => c ++ " = $?".toList))
        ++ (" ".toList ++ (" where ".toList
          ++ List.intercalate " and ".toList (keys.map (fun k => k ++ " = $?".toList)))))))
    1 rfl (by decide)
  constructor
  · rw [g1, f1, d1, c1, b1, a1, e1, k1]
  · rw [g2, f2, d2, c2, e1, b2, a2, e2, k2, Nat.add_comm 1 cols.length]

/-- C16: for an entity with update columns `c1..cm`, `m ≥ 1`, the text `update`
builds before translation is `update t set c1 = $?,...,cm = $? ` followed by
the primary-key clause; each calling convention hands its translation to the
client with the entity's update arguments followed by its primary-key
value(s) as the bound values; and on PostgreSQL, when the table and column
names carry no placeholder, the translation numbers the set columns `$1..$m`
and the key columns `$(m+1)..$(m+N)`. -/
theorem update_statement {T : Type} (model : Model T) (m : Mapper) (obj : T)
    (hcols : model.updateColumns obj ≠ [])
    (hpk : model.primaryKeyIsVoid = false)
    (hkey : KeyMatches model.primaryKeyName (model.getPrimaryKey obj) = true) :
    updateNeutral model.tableName (model.updateColumns obj) model.primaryKeyName
        = "update ".toList ++ model.tableName ++ " set ".toList
          ++ List.intercalate ",".toList
              ((model.updateColumns obj).map (fun c => c ++ " = $?".toList))
          ++ " ".toList ++ primaryKeyClause model.primaryKeyName
    ∧ ∃ sql,
        replaceSqlPlaceHolder m._client.type
            (updateNeutral model.tableName (model.updateColumns obj) model.primaryKeyName)
            "$?".toList = some sql
        ∧ (m.update model obj).submitted?
            = some ⟨sql, model.updateArgs obj ++ (model.getPrimaryKey obj).components,
                Mode.Blocking⟩
        ∧ (m.updateCallback model obj).submitted?
            = some ⟨sql, model.updateArgs obj ++ (model.getPrimaryKey obj).components,
                Mode.NonBlocking⟩
        ∧ (m.updateFuture model obj).submitted?
            = some ⟨sql, model.updateArgs obj ++ (model.getPrimaryKey obj).components,
                Mode.NonBlocking⟩
        ∧ (m._client.type = ClientType.PostgreSQL →
            placeholderCount model.tableName = 0 →
            (∀ c ∈ model.updateColumns obj, placeholderCount c = 0) →
            (∀ k ∈ model.primaryKeyName.columns, placeholderCount k = 0) →
            (model.updateColumns obj).length + model.primaryKeyName.columns.length
              < sizeModulus →
            sql = "update ".toList ++ model.tableName ++ " set ".toList
              ++ List.intercalate ",".toList (numberedEqualities 1 (model.updateColumns obj))
              ++ " ".toList
              ++ (" where ".toList
                ++ List.intercalate " and ".toList
                    (numberedEqualities ((model.updateColumns obj).length + 1)
                      model.primaryKeyName.columns))) := by
  have hform := updateNeutral_eq model.tableName (model.updateColumns obj)
    model.primaryKeyName hcols
  refine ⟨hform, ?_⟩
  obtain ⟨sql, args, hsql, hargs, h1, h2, h3⟩ := update_ran model m obj hpk hkey
  subst hargs
  refine ⟨sql, hsql, by rw [h1]; rfl, by rw [h2]; rfl, by rw [h3]; rfl, ?_⟩
  intro hpg ht hc hk hsize
  obtain ⟨n1, n2⟩ := update_numbered model.tableName (model.updateColumns obj)
    model.primaryKeyName.columns ht hc hk
  rw [replaceSqlPlaceHolder_eq_translated, hpg, hform] at hsql
  have hs := (Option.some.inj hsql).symm
  rw [hs]
  simp only [translated, primaryKeyClause]
  rw [translateWith_wrap_eq _ 1 (by rw [n1]; omega), n2]

/-- Witness of C16: the update of the sample entity 5, whose key is
`(shop, num)`, on PostgreSQL. -/
theorem update_statement_witness :
    (sampleModel (PrimaryKeyName.composite ["shop".toList, "num".toList])).updateColumns 5 ≠ []
    ∧ updateNeutral "orders".toList ["total".toList]
        (PrimaryKeyName.composite ["shop".toList, "num".toList])
      = "update orders set total = $?  where shop = $? and num = $?".toList
    ∧ (Mapper.update (sampleModel (PrimaryKeyName.composite ["shop".toList, "num".toList]))
        (Mapper.new (sampleClient ClientType.PostgreSQL (DbOutcome.result ⟨[], 1, 0⟩)))
        5).submitted?
      = some ⟨"update orders set total = $1  where shop = $2 and num = $3".toList,
          [SqlArg.size 5, SqlArg.size 5, SqlArg.size 5], Mode.Blocking⟩ := by
  refine ⟨by decide, by decide, ?_⟩
  obtain ⟨_, sql, _, h2, _, _, h5⟩ := update_statement
    (sampleModel (PrimaryKeyName.composite ["shop".toList, "num".toList]))
    (Mapper.new (sampleClient ClientType.PostgreSQL (DbOutcome.result ⟨[], 1, 0⟩)))
    5 (by decide) rfl rfl
  rw [h2, h5 rfl (by decide) (by decide) (by decide) (by decide)]
  decide

/-! ## The untranslated dialect -/

/-- C30: for a client dialect that is none of PostgreSQL, Mysql and Sqlite3,
`replaceSqlPlaceHolder` returns its input text unmodified, for every input
text and every placeholder token; no loop is entered, so this holds with
every iteration budget. -/
theorem replaceSqlPlaceHolder_other_dialect_unmodified (type : ClientType)
    (sqlStr holderStr : Str) (h1 : type ≠ ClientType.PostgreSQL)
    (h2 : type ≠ ClientType.Mysql) (h3 : type ≠ ClientType.Sqlite3) :
    replaceSqlPlaceHolder type sqlStr holderStr = some sqlStr
    ∧ ∀ fuel, replaceSqlPlaceHolderFuel fuel type sqlStr holderStr = some sqlStr := by
  have h : ∀ fuel, replaceSqlPlaceHolderFuel fuel type sqlStr holderStr = some sqlStr := by
    intro fuel
    unfold replaceSqlPlaceHolderFuel
    rw [if_neg h1, if_neg (by rintro (h | h); exact h2 h; exact h3 h)]
  exact ⟨h _, h⟩

/-- Witness of C30: a text with two placeholders on the dialect `Other`. -/
theorem replaceSqlPlaceHolder_other_dialect_unmodified_witness :
    replaceSqlPlaceHolder ClientType.Other "select * from t where a = $? and b = $?".toList
        "$?".toList
      = some "select * from t where a = $? and b = $?".toList :=
  (replaceSqlPlaceHolder_other_dialect_unmodified ClientType.Other
    "select * from t where a = $? and b = $?".toList "$?".toList
    (by decide) (by decide) (by decide)).1

/-! ## `findAll` -/

/-- C28: `findAll` is `findBy` with an empty criteria: for every call-state and
client, each of `findAll`, its callback overload and `findFutureAll` equals the
corresponding `findBy` member called with `Criteria()`, so it hands the same
statement with the same values to the client, delivers the same outcome and
leaves the same mapper; and that statement is handed over, whatever the
client. -/
theorem findAll_is_findBy_with_empty_criteria {T : Type} (model : Model T) (m : Mapper) :
    (m.findAll model = m.findBy model Criteria.empty
      ∧ m.findAllCallback model = m.findByCallback model Criteria.empty
      ∧ m.findFutureAll model = m.findFutureBy model Criteria.empty)
    ∧ ((m.findAll model).submitted? = (m.findBy model Criteria.empty).submitted?
      ∧ (m.findAll model).delivery? = (m.findBy model Criteria.empty).delivery?
      ∧ (m.findAll model).after? = (m.findBy model Criteria.empty).after?)
    ∧ ((m.findAllCallback model).submitted? = (m.findByCallback model Criteria.empty).submitted?
      ∧ (m.findAllCallback model).delivery? = (m.findByCallback model Criteria.empty).delivery?
      ∧ (m.findAllCallback model).after? = (m.findByCallback model Criteria.empty).after?)
    ∧ ((m.findFutureAll model).submitted? = (m.findFutureBy model Criteria.empty).submitted?
      ∧ (m.findFutureAll model).delivery? = (m.findFutureBy model Criteria.empty).delivery?
      ∧ (m.findFutureAll model).after? = (m.findFutureBy model Criteria.empty).after?)
    ∧ ∃ sql,
        (m.findAll model).submitted?
          = some ⟨sql, selectValues Criteria.empty m._limit m._offset, Mode.Blocking⟩
        ∧ (m.findAllCallback model).submitted?
          = some ⟨sql, selectValues Criteria.empty m._limit m._offset, Mode.NonBlocking⟩
        ∧ (m.findFutureAll model).submitted?
          = some ⟨sql, selectValues Criteria.empty m._limit m._offset, Mode.NonBlocking⟩
        ∧ (m.findAll model).after? = some (Mapper.new m._client) := by
  refine ⟨⟨rfl, rfl, rfl⟩, ⟨rfl, rfl, rfl⟩, ⟨rfl, rfl, rfl⟩, ⟨rfl, rfl, rfl⟩, ?_⟩
  obtain ⟨sql, _, h1, h2, h3⟩ := findBy_ran model m Criteria.empty
  rw [selectArgs_eq] at h1 h2 h3
  refine ⟨sql, ?_, ?_, ?_, ?_⟩
  · show (m.findBy model Criteria.empty).submitted? = _
    rw [h1]; rfl
  · show (m.findByCallback model Criteria.empty).submitted? = _
    rw [h2]; rfl
  · show (m.findFutureBy model Criteria.empty).submitted? = _
    rw [h3]; rfl
  · show (m.findBy model Criteria.empty).after? = _
    rw [h1]; rfl

/-! ## The fluent modifiers -/

/-- C29: each fluent modifier hands back the mapper with only its own
component changed: `limit(l)` (for `l > 0`) sets the limit, `offset(o)` the
offset, `orderBy` (by name, and by index when the index names a column) the
order-by text, `forUpdate()` the for-update flag; the other three components
and the client handle are as before. -/
theorem modifier_changes_only_its_component (m : Mapper) :
    (∀ l, 0 < l →
      m.limit l = Run.finished ⟨m._client, l, m._offset, m._orderbyString, m._forUpdate⟩)
    ∧ (∀ o,
      m.offset o = Run.finished ⟨m._client, m._limit, o, m._orderbyString, m._forUpdate⟩)
    ∧ (∀ colName order, ∃ text,
      m.orderBy colName order
        = Run.finished ⟨m._client, m._limit, m._offset, text, m._forUpdate⟩)
    ∧ (∀ (T : Type) (model : Model T) colIndex order, model.getColumnName colIndex ≠ [] →
      ∃ text, m.orderByIndex model colIndex order
        = Run.finished ⟨m._client, m._limit, m._offset, text, m._forUpdate⟩)
    ∧ m.forUpdate = Run.finished ⟨m._client, m._limit, m._offset, m._orderbyString, true⟩
    ∧ (∀ x after, m.modify x = Run.finished after →
      after._client = m._client
        ∧ ((∀ l, x ≠ Modifier.limit l) → after._limit = m._limit)
        ∧ ((∀ o, x ≠ Modifier.offset o) → after._offset = m._offset)
        ∧ (x.isOrderBy = false → after._orderbyString = m._orderbyString)
        ∧ (x ≠ Modifier.forUpdate → after._forUpdate = m._forUpdate)) := by
  have hob : ∀ colName order, ∃ text, m.orderBy colName order
      = Run.finished ⟨m._client, m._limit, m._offset, text, m._forUpdate⟩ := by
    intro colName order
    exact ⟨_, orderBy_eq m colName order⟩
  refine ⟨?_, fun _ => rfl, hob, ?_, rfl, ?_⟩
  · intro l hl
    simp [Mapper.limit, hl]
  · intro T model colIndex order hname
    obtain ⟨text, h⟩ := hob (model.getColumnName colIndex) order
    refine ⟨text, ?_⟩
    unfold Mapper.orderByIndex
    simp only
    rw [if_neg (by simpa [List.isEmpty_iff] using hname), h]
  · intro x after h
    cases x with
    | limit l =>
      by_cases hl : 0 < l
      · simp only [Mapper.modify, Mapper.limit, gt_iff_lt, hl, if_true] at h
        injection h with h
        subst h
        exact ⟨rfl, fun hx => absurd rfl (hx l), fun _ => rfl, fun _ => rfl, fun _ => rfl⟩
      · simp [Mapper.modify, Mapper.limit, hl] at h
    | offset o =>
      simp only [Mapper.modify, Mapper.offset] at h
      injection h with h
      subst h
      exact ⟨rfl, fun _ => rfl, fun hx => absurd rfl (hx o), fun _ => rfl, fun _ => rfl⟩
    | orderBy c o =>
      simp only [Mapper.modify] at h
      rw [orderBy_eq] at h
      injection h with h
      subst h
      exact ⟨rfl, fun _ => rfl, fun _ => rfl, fun hx => by simp [Modifier.isOrderBy] at hx,
        fun _ => rfl⟩
    | forUpdate =>
      simp only [Mapper.modify, Mapper.forUpdate] at h
      injection h with h
      subst h
      exact ⟨rfl, fun _ => rfl, fun _ => rfl, fun _ => rfl, fun hx => absurd rfl hx⟩

/-- Witness of C29: `limit(5)` on a mapper that carries an offset, an order-by
text and the for-update flag. -/
theorem modifier_changes_only_its_component_witness :
    (0 : Nat) < 5
    ∧ Mapper.limit
        ⟨sampleClient ClientType.Mysql (DbOutcome.result ⟨[], 0, 0⟩), 0, 3,
          " order by total".toList, true⟩ 5
      = Run.finished
          ⟨sampleClient ClientType.Mysql (DbOutcome.result ⟨[], 0, 0⟩), 5, 3,
            " order by total".toList, true⟩ :=
  ⟨by decide,
    (modifier_changes_only_its_component
      ⟨sampleClient ClientType.Mysql (DbOutcome.result ⟨[], 0, 0⟩), 0, 3,
        " order by total".toList, true⟩).1 5 (by decide)⟩

/-! ## The assertion of `limit` -/

theorem chain_append (xs ys : List Modifier) :
    ∀ m : Mapper, m.chain (xs ++ ys) = (m.chain xs).andThen (fun m1 => Mapper.chain m1 ys) := by
  induction xs with
  | nil => intro m; rfl
  | cons x xs ih =>
    intro m
    simp only [List.cons_append, Mapper.chain]
    cases m.modify x with
    | finished m1 => exact ih m1
    | assertFailed => rfl

/-- C21: `limit(0)` fails its assertion: the call hands back no mapper, and so
does every chain of modifier calls that contains it, whatever precedes and
follows; a `limit` call that does hand back a mapper has set a positive limit,
and the select statement built from that mapper carries the clause
` limit $?` and binds the limit. -/
theorem limit_zero_fails_assertion (m : Mapper) :
    m.limit 0 = Run.assertFailed
    ∧ (∀ after, m.limit 0 ≠ Run.finished after)
    ∧ (∀ xs ys, m.chain (xs ++ Modifier.limit 0 :: ys) = Run.assertFailed)
    ∧ (∀ l after, m.limit l = Run.finished after →
        0 < l ∧ after._limit = l
          ∧ ∀ t criteria,
            (selectNeutral t after criteria).1
                = "select * from ".toList ++ t ++ whereClause criteria ++ m._orderbyString
                  ++ " limit $?".toList
                  ++ (if m._offset > 0 then " offset $?".toList else [])
              ∧ selectArgs after criteria
                = criteriaValues criteria ++ [SqlArg.size l]
                  ++ (if m._offset > 0 then [SqlArg.size m._offset] else [])) := by
  have h0 : m.limit 0 = Run.assertFailed := rfl
  refine ⟨h0, ?_, ?_, ?_⟩
  · intro after h
    rw [h0] at h
    cases h
  · intro xs ys
    rw [chain_append]
    cases m.chain xs with
    | finished m1 => rfl
    | assertFailed => rfl
  · intro l after h
    by_cases hl : 0 < l
    · simp only [Mapper.limit, gt_iff_lt, hl, if_true] at h
      injection h with h
      subst h
      refine ⟨hl, rfl, ?_⟩
      intro t criteria
      rw [selectNeutral_eq, selectArgs_eq]
      simp [selectBody, selectValues, hl]
    · simp [Mapper.limit, hl] at h

/-- Witness of C21: `limit(10)` hands back a mapper with the limit 10. -/
theorem limit_zero_fails_assertion_witness :
    Mapper.limit (Mapper.new (sampleClient ClientType.Mysql (DbOutcome.result ⟨[], 0, 0⟩))) 10
      = Run.finished
          { _client := sampleClient ClientType.Mysql (DbOutcome.result ⟨[], 0, 0⟩),
            _limit := 10 }
    ∧ (0 : Nat) < 10 :=
  ⟨rfl,
    ((limit_zero_fails_assertion
      (Mapper.new (sampleClient ClientType.Mysql (DbOutcome.result ⟨[], 0, 0⟩)))).2.2.2 10
      { _client := sampleClient ClientType.Mysql (DbOutcome.result ⟨[], 0, 0⟩), _limit := 10 }
      rfl).1⟩

/-! ## The argument of `offset` -/

theorem toSizeT_lt (n : Int) : toSizeT n < sizeModulus := by
  unfold toSizeT sizeModulus
  norm_num
  omega

theorem toSizeT_of_neg (n : Int) (hneg : n < 0) (hmin : -(sizeModulus : Int) < n) :
    (toSizeT n : Int) = n + (sizeModulus : Int) ∧ 0 < toSizeT n := by
  unfold toSizeT sizeModulus at *
  norm_num at *
  omega

/-- C22, counterexample: the call `offset(-1)` is accepted: the argument arrives
as `2 ^ 64 - 1`, which is stored as the offset, and the next `findBy` hands
`select * from orders offset $1` to the client with that value bound. -/
theorem offset_accepts_minus_one :
    toSizeT (-1) = 18446744073709551615
    ∧ Mapper.offset (Mapper.new (sampleClient ClientType.PostgreSQL (DbOutcome.result ⟨[], 0, 0⟩)))
        (toSizeT (-1))
      = Run.finished
          { _client := sampleClient ClientType.PostgreSQL (DbOutcome.result ⟨[], 0, 0⟩),
            _offset := 18446744073709551615 }
    ∧ (Mapper.findBy (sampleModel (PrimaryKeyName.single "num".toList))
          { _client := sampleClient ClientType.PostgreSQL (DbOutcome.result ⟨[], 0, 0⟩),
            _offset := 18446744073709551615 }
          Criteria.empty).submitted?
        = some ⟨"select * from orders offset $1".toList,
            [SqlArg.size 18446744073709551615], Mode.Blocking⟩ := by
  refine ⟨by decide, rfl, ?_⟩
  decide

/-- C22, amended: `offset` makes no check on its argument. Its parameter is a
`size_t`, so an integer `n` passed by the caller arrives as `n` modulo `2 ^ 64`,
a value that is never negative and that is `n + 2 ^ 64` for a negative `n`
above `- 2 ^ 64`; every such value is accepted and stored as the offset, and
when it is not zero the next `findBy` renders the clause ` offset $?` and binds
the value last. -/
theorem offset_accepts_converted_argument {T : Type} (model : Model T) (m : Mapper) (n : Int) :
    toSizeT n < sizeModulus
    ∧ m.offset (toSizeT n)
      = Run.finished ⟨m._client, m._limit, toSizeT n, m._orderbyString, m._forUpdate⟩
    ∧ (n < 0 → -(sizeModulus : Int) < n →
        (toSizeT n : Int) = n + (sizeModulus : Int) ∧ 0 < toSizeT n)
    ∧ (0 < toSizeT n → ∀ criteria, ∃ sql,
        replaceSqlPlaceHolder m._client.type
            ("select * from ".toList ++ model.tableName ++ whereClause criteria
              ++ m._orderbyString ++ (if m._limit > 0 then " limit $?".toList else [])
              ++ " offset $?".toList) "$?".toList = some sql
        ∧ (Mapper.findBy model
              ⟨m._client, m._limit, toSizeT n, m._orderbyString, m._forUpdate⟩
              criteria).submitted?
          = some ⟨sql ++ forUpdateClause m._forUpdate,
              criteriaValues criteria ++ (if m._limit > 0 then [SqlArg.size m._limit] else [])
                ++ [SqlArg.size (toSizeT n)],
              Mode.Blocking⟩) := by
  refine ⟨toSizeT_lt n, rfl, toSizeT_of_neg n, ?_⟩
  intro hpos criteria
  obtain ⟨sql, hsql, h1, _, _⟩ := findBy_ran model
    ⟨m._client, m._limit, toSizeT n, m._orderbyString, m._forUpdate⟩ criteria
  rw [selectSql_eq, selectArgs_eq] at *
  have hp : selectHasParameters criteria m._limit (toSizeT n) = true := by
    simp [selectHasParameters, hpos]
  simp only [hp, if_true, selectBody, selectValues, gt_iff_lt, hpos] at hsql h1
  obtain ⟨body, hbody⟩ := replaceSqlPlaceHolder_returns m._client.type
    ("select * from ".toList ++ model.tableName ++ whereClause criteria
      ++ m._orderbyString ++ (if 0 < m._limit then " limit $?".toList else [])
      ++ " offset $?".toList)
  rw [hbody] at hsql
  simp only [Option.map_some', Option.some.injEq] at hsql
  refine ⟨body, hbody, ?_⟩
  rw [h1, hsql]
  rfl

/-- Witness of the amended C22: the argument `-1`. -/
theorem offset_accepts_converted_argument_witness :
    (-1 : Int) < 0 ∧ -(sizeModulus : Int) < -1
    ∧ (toSizeT (-1) : Int) = -1 + (sizeModulus : Int) ∧ 0 < toSizeT (-1) :=
  ⟨by decide, by decide,
    (offset_accepts_converted_argument (sampleModel (PrimaryKeyName.single "num".toList))
      (Mapper.new (sampleClient ClientType.PostgreSQL (DbOutcome.result ⟨[], 0, 0⟩)))
      (-1)).2.2.1 (by decide) (by decide)⟩

/-! ## The order-by fragment -/

theorem cStr_of_no_nul (s : Str) (h : Char.ofNat 0 ∉ s) : cStr s = s := by
  unfold cStr
  rw [List.takeWhile_eq_self_iff]
  intro c hc
  simp only [bne_iff_ne, ne_eq]
  intro h0
  exact h (h0 ▸ hc)

theorem orderByText_nil (colName : Str) (order : SortOrder) :
    orderByText [] colName order = " order by ".toList ++ orderByItem (cStr colName) order := by
  unfold orderByText orderByItem
  cases order <;> simp

theorem orderByText_of_ne_nil (s colName : Str) (order : SortOrder) (h : s ≠ []) :
    orderByText s colName order = s ++ (",".toList ++ orderByItem colName order) := by
  unfold orderByText orderByItem
  have hs : s.isEmpty = false := by
    cases s with
    | nil => exact absurd rfl h
    | cons c s => rfl
  cases order <;> simp [hs]

theorem finalOrderBy_of_ne_nil (obs : List (Str × SortOrder)) :
    ∀ s : Str, s ≠ [] →
      finalOrderBy s (orderByCalls obs)
        = s ++ (obs.map (fun q => ",".toList ++ orderByItem q.1 q.2)).flatten := by
  induction obs with
  | nil => intro s _; simp [orderByCalls, finalOrderBy]
  | cons p ps ih =>
    intro s hs
    have hne : orderByText s p.1 p.2 ≠ [] := by
      rw [orderByText_of_ne_nil s p.1 p.2 hs]
      simp [hs]
    have h := ih (orderByText s p.1 p.2) hne
    simp only [orderByCalls, List.map_cons, finalOrderBy] at h ⊢
    rw [h, orderByText_of_ne_nil s p.1 p.2 hs]
    simp

theorem intercalate_cons_eq (sep x : Str) (xs : List Str) :
    List.intercalate sep (x :: xs) = x ++ (xs.map (fun y => sep ++ y)).flatten := by
  induction xs generalizing x with
  | nil => simp [List.intercalate]
  | cons y ys ih =>
    have h := ih y
    simp only [List.intercalate, List.intersperse, List.flatten_cons, List.map_cons] at h ⊢
    rw [h]
    simp only [List.append_assoc]

theorem orderByCalls_no_limit (obs : List (Str × SortOrder)) :
    Modifier.limit 0 ∉ orderByCalls obs := by
  intro h
  simp only [orderByCalls, List.mem_map] at h
  obtain ⟨p, _, hp⟩ := h
  cases hp

theorem chain_orderByCalls (client : DbClient) (c : Str) (o : SortOrder)
    (rest : List (Str × SortOrder)) :
    (Mapper.new client).chain (orderByCalls ((c, o) :: rest))
      = Run.finished
          { _client := client,
            _orderbyString := orderByFragment ((cStr c, o) :: rest) } := by
  rw [chain_eq _ _ (orderByCalls_no_limit _)]
  have h1 : ∀ xs : List (Str × SortOrder), ∀ l, finalLimit l (orderByCalls xs) = l := by
    intro xs
    induction xs with
    | nil => intro l; rfl
    | cons x xs ih => intro l; exact ih l
  have h2 : ∀ xs : List (Str × SortOrder), ∀ l, finalOffset l (orderByCalls xs) = l := by
    intro xs
    induction xs with
    | nil => intro l; rfl
    | cons x xs ih => intro l; exact ih l
  have h3 : ∀ xs : List (Str × SortOrder), ∀ b, finalForUpdate b (orderByCalls xs) = b := by
    intro xs
    induction xs with
    | nil => intro b; rfl
    | cons x xs ih => intro b; exact ih b
  have h4 : finalOrderBy [] (orderByCalls ((c, o) :: rest))
      = orderByFragment ((cStr c, o) :: rest) := by
    have hne : orderByText [] c o ≠ [] := by
      rw [orderByText_nil]
      simp
    have h := finalOrderBy_of_ne_nil rest (orderByText [] c o) hne
    simp only [orderByCalls, List.map_cons, finalOrderBy] at h ⊢
    rw [h, orderByText_nil]
    simp only [orderByFragment, List.map_cons, intercalate_cons_eq, List.append_assoc,
      List.map_map, Function.comp_def]
  rw [h1, h2, h3]
  simp only [Mapper.new]
  rw [h4]

/-- C24: on a fresh mapper the order-by fragment is empty; after the calls
`orderBy(c1, o1), ..., orderBy(cn, on)`, `n ≥ 1`, it is ` order by ` followed by
the items joined by commas, in call order, where item `i` is `ci` for the
ascending and `ci` followed by ` desc` for the descending order. The first name
goes through the `%s` conversion of `c1.c_str()`, which takes it up to its
first NUL character: the whole name when, as for a column name, it carries
none. The other components of the mapper stay as constructed. -/
theorem orderBy_fragment_in_call_order (client : DbClient) :
    (Mapper.new client).chain (orderByCalls []) = Run.finished (Mapper.new client)
    ∧ (Mapper.new client)._orderbyString = orderByFragment []
    ∧ orderByFragment [] = []
    ∧ (∀ c o rest,
        (Mapper.new client).chain (orderByCalls ((c, o) :: rest))
          = Run.finished
              { _client := client,
                _orderbyString :=
                  " order by ".toList
                    ++ List.intercalate ",".toList
                        (orderByItem (cStr c) o :: rest.map (fun q => orderByItem q.1 q.2)) })
    ∧ (∀ c o rest, Char.ofNat 0 ∉ c →
        (Mapper.new client).chain (orderByCalls ((c, o) :: rest))
          = Run.finished
              { _client := client,
                _orderbyString :=
                  " order by ".toList
                    ++ List.intercalate ",".toList
                        (((c, o) :: rest).map (fun q => orderByItem q.1 q.2)) }) := by
  refine ⟨rfl, rfl, rfl, ?_, ?_⟩
  · intro c o rest
    rw [chain_orderByCalls]
    rfl
  · intro c o rest hnul
    rw [chain_orderByCalls, cStr_of_no_nul c hnul]
    rfl

/-- Witness of C24: three `orderBy` calls on a fresh mapper. -/
theorem orderBy_fragment_in_call_order_witness :
    Char.ofNat 0 ∉ "total".toList
    ∧ (Mapper.new (sampleClient ClientType.Mysql (DbOutcome.result ⟨[], 0, 0⟩))).chain
        [Modifier.orderBy "total".toList SortOrder.DESC,
          Modifier.orderBy "num".toList SortOrder.ASC,
          Modifier.orderBy "shop".toList SortOrder.DESC]
      = Run.finished
          { _client := sampleClient ClientType.Mysql (DbOutcome.result ⟨[], 0, 0⟩),
            _orderbyString := " order by total desc,num,shop desc".toList } :=
  ⟨by decide,
    (orderBy_fragment_in_call_order
      (sampleClient ClientType.Mysql (DbOutcome.result ⟨[], 0, 0⟩))).2.2.2.2
      "total".toList SortOrder.DESC
      [("num".toList, SortOrder.ASC), ("shop".toList, SortOrder.DESC)] (by decide)⟩

/-! ## The error channel -/

theorem failurePassedOn_of_ran {δ : Type} {client : DbClient} {o : Outcome δ}
    {sub : Submission} {after : Mapper} {handler : DbOutcome → δ}
    {fails : Outcome δ → DbException → Prop}
    (ho : o = Outcome.ran sub after (handler (client.exec sub.sql sub.args)))
    (hf : ∀ e, fails (Outcome.ran sub after (handler (DbOutcome.failure e))) e) :
    FailurePassedOn client o fails := by
  refine ⟨sub, by rw [ho]; rfl, ?_⟩
  intro e hexec
  rw [ho, hexec]
  exact hf e

theorem raises_excludes {α : Type} (o : Outcome (Blocking α)) (e : DbException)
    (h : Raises o e) : (∀ v, ¬ Returns o v) ∧ ∀ e2, Raises o e2 → e2 = e := by
  unfold Raises at h
  constructor
  · intro v hv
    unfold Returns at hv
    rw [h] at hv
    cases hv
  · intro e2 h2
    unfold Raises at h2
    rw [h] at h2
    injection h2 with h2
    injection h2 with h2
    injection h2 with h2
    exact h2.symm

theorem callsException_excludes {α : Type} (o : Outcome (Callbacks α)) (e : DbException)
    (h : CallsException o e) :
    (∀ v, ¬ CallsResult o v) ∧ ∀ e2, CallsException o e2 → e2 = e := by
  unfold CallsException at h
  constructor
  · intro v hv
    unfold CallsResult at hv
    rw [h] at hv
    cases hv
  · intro e2 h2
    unfold CallsException at h2
    rw [h] at h2
    injection h2 with h2
    injection h2 with h2
    injection h2 with h2
    injection h2 with h2
    exact h2.symm

theorem rejects_excludes {α : Type} (o : Outcome (Future α)) (e : DbException)
    (h : Rejects o e) : (∀ v, ¬ ResolvesTo o v) ∧ ∀ e2, Rejects o e2 → e2 = e := by
  unfold Rejects at h
  constructor
  · intro v hv
    unfold ResolvesTo at hv
    rw [h] at hv
    cases hv
  · intro e2 h2
    unfold Rejects at h2
    rw [h] at h2
    injection h2 with h2
    injection h2 with h2
    injection h2 with h2
    exact h2.symm

/-- C25: every operation, in every calling convention, hands one statement to
the client, and when the client answers it with the failure `e` the operation
delivers exactly `e`: the blocking member raises `e`, the callback member
invokes the exception callback with `e` (once, and no other callback), the
future member sets `e` on the future. An operation that delivers `e` delivers
no value and no other error. The key-based members are taken for entity
types on which they compile. -/
theorem client_failure_passed_through {T : Type} (model : Model T) (m : Mapper) :
    (∀ criteria,
      (FailurePassedOn m._client (m.findOne model criteria) Raises
        ∧ FailurePassedOn m._client (m.findOneCallback model criteria) CallsException
        ∧ FailurePassedOn m._client (m.findFutureOne model criteria) Rejects)
      ∧ (FailurePassedOn m._client (m.findBy model criteria) Raises
        ∧ FailurePassedOn m._client (m.findByCallback model criteria) CallsException
        ∧ FailurePassedOn m._client (m.findFutureBy model criteria) Rejects)
      ∧ (FailurePassedOn m._client (m.count model criteria) Raises
        ∧ FailurePassedOn m._client (m.countCallback model criteria) CallsException
        ∧ FailurePassedOn m._client (m.countFuture model criteria) Rejects))
    ∧ (FailurePassedOn m._client (m.findAll model) Raises
        ∧ FailurePassedOn m._client (m.findAllCallback model) CallsException
        ∧ FailurePassedOn m._client (m.findFutureAll model) Rejects)
    ∧ (∀ obj,
        FailurePassedOn m._client (m.insert model obj) Raises
        ∧ FailurePassedOn m._client (m.insertCallback model obj) CallsException
        ∧ FailurePassedOn m._client (m.insertFuture model obj) Rejects)
    ∧ (∀ key, model.primaryKeyIsVoid = false → KeyMatches model.primaryKeyName key = true →
        FailurePassedOn m._client (m.findByPrimaryKey model key) Raises
        ∧ FailurePassedOn m._client (m.findByPrimaryKeyCallback model key) CallsException
        ∧ FailurePassedOn m._client (m.findFutureByPrimaryKey model key) Rejects)
    ∧ (∀ obj, model.primaryKeyIsVoid = false →
        KeyMatches model.primaryKeyName (model.getPrimaryKey obj) = true →
        (FailurePassedOn m._client (m.update model obj) Raises
          ∧ FailurePassedOn m._client (m.updateCallback model obj) CallsException
          ∧ FailurePassedOn m._client (m.updateFuture model obj) Rejects)
        ∧ (FailurePassedOn m._client (m.deleteOne model obj) Raises
          ∧ FailurePassedOn m._client (m.deleteOneCallback model obj) CallsException
          ∧ FailurePassedOn m._client (m.deleteFutureOne model obj) Rejects))
    ∧ (∀ criteria, model.primaryKeyIsVoid = false →
        FailurePassedOn m._client (m.deleteBy model criteria) Raises
        ∧ FailurePassedOn m._client (m.deleteByCallback model criteria) CallsException
        ∧ FailurePassedOn m._client (m.deleteFutureBy model criteria) Rejects)
    ∧ (∀ (α : Type) (o : Outcome (Blocking α)) e, Raises o e →
        (∀ v, ¬ Returns o v) ∧ ∀ e2, Raises o e2 → e2 = e)
    ∧ (∀ (α : Type) (o : Outcome (Callbacks α)) e, CallsException o e →
        (∀ v, ¬ CallsResult o v) ∧ ∀ e2, CallsException o e2 → e2 = e)
    ∧ (∀ (α : Type) (o : Outcome (Future α)) e, Rejects o e →
        (∀ v, ¬ ResolvesTo o v) ∧ ∀ e2, Rejects o e2 → e2 = e) := by
  have hfindBy : ∀ criteria,
      FailurePassedOn m._client (m.findBy model criteria) Raises
        ∧ FailurePassedOn m._client (m.findByCallback model criteria) CallsException
        ∧ FailurePassedOn m._client (m.findFutureBy model criteria) Rejects := by
    intro criteria
    obtain ⟨sql, _, h1, h2, h3⟩ := findBy_ran model m criteria
    exact ⟨failurePassedOn_of_ran h1 (fun _ => rfl), failurePassedOn_of_ran h2 (fun _ => rfl),
      failurePassedOn_of_ran h3 (fun _ => rfl)⟩
  refine ⟨?_, hfindBy Criteria.empty, ?_, ?_, ?_, ?_, fun _ => raises_excludes,
    fun _ => callsException_excludes, fun _ => rejects_excludes⟩
  · intro criteria
    obtain ⟨sql, _, h1, h2, h3⟩ := findOne_ran model m criteria
    obtain ⟨sql2, args2, _, _, h4, h5, h6⟩ := count_ran model m criteria
    exact ⟨⟨failurePassedOn_of_ran h1 (fun _ => rfl), failurePassedOn_of_ran h2 (fun _ => rfl),
        failurePassedOn_of_ran h3 (fun _ => rfl)⟩,
      hfindBy criteria,
      ⟨failurePassedOn_of_ran h4 (fun _ => rfl), failurePassedOn_of_ran h5 (fun _ => rfl),
        failurePassedOn_of_ran h6 (fun _ => rfl)⟩⟩
  · intro obj
    obtain ⟨sql, _, h1, h2, h3⟩ := insert_ran model m obj
    exact ⟨failurePassedOn_of_ran h1 (fun _ => rfl), failurePassedOn_of_ran h2 (fun _ => rfl),
      failurePassedOn_of_ran h3 (fun _ => rfl)⟩
  · intro key hpk hkey
    obtain ⟨sql, _, h1, h2, h3⟩ := findByPrimaryKey_ran model m key hpk hkey
    exact ⟨failurePassedOn_of_ran h1 (fun _ => rfl), failurePassedOn_of_ran h2 (fun _ => rfl),
      failurePassedOn_of_ran h3 (fun _ => rfl)⟩
  · intro obj hpk hkey
    obtain ⟨sql, args, _, _, h1, h2, h3⟩ := update_ran model m obj hpk hkey
    obtain ⟨sql2, args2, _, _, h4, h5, h6⟩ := deleteOne_ran model m obj hpk hkey
    exact ⟨⟨failurePassedOn_of_ran h1 (fun _ => rfl), failurePassedOn_of_ran h2 (fun _ => rfl),
        failurePassedOn_of_ran h3 (fun _ => rfl)⟩,
      ⟨failurePassedOn_of_ran h4 (fun _ => rfl), failurePassedOn_of_ran h5 (fun _ => rfl),
        failurePassedOn_of_ran h6 (fun _ => rfl)⟩⟩
  · intro criteria hpk
    obtain ⟨sql, args, _, _, h1, h2, h3⟩ := deleteBy_ran model m criteria hpk
    exact ⟨failurePassedOn_of_ran h1 (fun _ => rfl), failurePassedOn_of_ran h2 (fun _ => rfl),
      failurePassedOn_of_ran h3 (fun _ => rfl)⟩

/-- Witness of C25: against a client that reports `connection lost`, `update`
on the sample table raises that failure. -/
theorem client_failure_passed_through_witness :
    (sampleModel (PrimaryKeyName.single "num".toList)).primaryKeyIsVoid = false
    ∧ KeyMatches (sampleModel (PrimaryKeyName.single "num".toList)).primaryKeyName
        ((sampleModel (PrimaryKeyName.single "num".toList)).getPrimaryKey 7) = true
    ∧ Raises
        (Mapper.update (sampleModel (PrimaryKeyName.single "num".toList))
          (Mapper.new (sampleClient ClientType.Sqlite3
            (DbOutcome.failure (DbException.Failure "connection lost".toList)))) 7)
        (DbException.Failure "connection lost".toList) := by
  refine ⟨rfl, rfl, ?_⟩
  obtain ⟨sub, _, h⟩ := ((client_failure_passed_through
    (sampleModel (PrimaryKeyName.single "num".toList))
    (Mapper.new (sampleClient ClientType.Sqlite3
      (DbOutcome.failure (DbException.Failure "connection lost".toList))))).2.2.2.2.1
    7 rfl rfl).1.1
  exact h _ rfl

/-! ## One callback, once -/

theorem singleRowCallback_one_call {T : Type} (model : Model T) (answer : DbOutcome) :
    (∃ v, singleRowCallback model answer = Run.finished [Call.rcb v])
      ∨ (∃ e, singleRowCallback model answer = Run.finished [Call.ecb e]) := by
  cases answer with
  | failure e => exact Or.inr ⟨e, rfl⟩
  | result r =>
    obtain ⟨rows, a, i⟩ := r
    cases rows with
    | nil => exact Or.inr ⟨_, rfl⟩
    | cons row rows =>
      cases rows with
      | nil => exact Or.inl ⟨_, rfl⟩
      | cons row2 rows => exact Or.inr ⟨_, rfl⟩

theorem invokesOneCallbackOnce_of_ran {T : Type} (model : Model T) {o : Outcome (Callbacks T)}
    {sub : Submission} {after : Mapper} {answer : DbOutcome}
    (ho : o = Outcome.ran sub after (singleRowCallback model answer)) :
    InvokesOneCallbackOnce o := by
  subst ho
  unfold InvokesOneCallbackOnce CallsResult CallsException
  simp only [Outcome.delivery?]
  constructor
  · rcases singleRowCallback_one_call model answer with ⟨v, h⟩ | ⟨e, h⟩
    · exact Or.inl ⟨v, by rw [h]⟩
    · exact Or.inr ⟨e, by rw [h]⟩
  · rintro ⟨⟨v, hv⟩, ⟨e, he⟩⟩
    rw [hv] at he
    cases he

/-- C26: in the callback convention, with a client that answers the statement
once, with a result or with a failure, each invocation of `findOne` and of
`findByPrimaryKey` invokes exactly one of the caller's result callback and
exception callback, exactly once, and never both: the exception callback for a
failure of the client, for a result without rows and for a result with more
than one row, the result callback for a result with exactly one row. -/
theorem single_row_callbacks_invoked_once {T : Type} (model : Model T) (m : Mapper) :
    (∀ criteria, InvokesOneCallbackOnce (m.findOneCallback model criteria))
    ∧ (∀ key, model.primaryKeyIsVoid = false → KeyMatches model.primaryKeyName key = true →
        InvokesOneCallbackOnce (m.findByPrimaryKeyCallback model key))
    ∧ (∀ e, singleRowCallback model (DbOutcome.failure e) = Run.finished [Call.ecb e])
    ∧ (∀ r, r.rows = [] →
        singleRowCallback model (DbOutcome.result r)
          = Run.finished [Call.ecb (DbException.UnexpectedRows "0 rows found".toList)])
    ∧ (∀ r, 2 ≤ r.rows.length →
        singleRowCallback model (DbOutcome.result r)
          = Run.finished
              [Call.ecb (DbException.UnexpectedRows "Found more than one row".toList)])
    ∧ (∀ r row, r.rows = [row] →
        singleRowCallback model (DbOutcome.result r)
          = Run.finished [Call.rcb (model.fromRow row)])
    ∧ (∀ criteria, ∃ sub,
        m.findOneCallback model criteria
          = Outcome.ran sub (Mapper.new m._client)
              (singleRowCallback model (m._client.exec sub.sql sub.args)))
    ∧ (∀ key, model.primaryKeyIsVoid = false → KeyMatches model.primaryKeyName key = true →
        ∃ sub, m.findByPrimaryKeyCallback model key
          = Outcome.ran sub (Mapper.new m._client)
              (singleRowCallback model (m._client.exec sub.sql sub.args))) := by
  refine ⟨?_, ?_, fun _ => rfl, ?_, ?_, ?_, ?_, ?_⟩
  · intro criteria
    obtain ⟨sql, _, _, h2, _⟩ := findOne_ran model m criteria
    exact invokesOneCallbackOnce_of_ran model h2
  · intro key hpk hkey
    obtain ⟨sql, _, _, h2, _⟩ := findByPrimaryKey_ran model m key hpk hkey
    exact invokesOneCallbackOnce_of_ran model h2
  · intro r hr
    obtain ⟨rows, a, i⟩ := r
    simp only at hr
    subst hr
    rfl
  · intro r hr
    obtain ⟨rows, a, i⟩ := r
    simp only at hr
    match rows, hr with
    | _ :: _ :: _, _ => rfl
  · intro r row hr
    obtain ⟨rows, a, i⟩ := r
    simp only at hr
    subst hr
    rfl
  · intro criteria
    obtain ⟨sql, _, _, h2, _⟩ := findOne_ran model m criteria
    exact ⟨_, h2⟩
  · intro key hpk hkey
    obtain ⟨sql, _, _, h2, _⟩ := findByPrimaryKey_ran model m key hpk hkey
    exact ⟨_, h2⟩

/-- Witness of C26: `findByPrimaryKey` with callbacks on the sample table,
against a client that answers with two rows, invokes the exception callback
once. -/
theorem single_row_callbacks_invoked_once_witness :
    (sampleModel (PrimaryKeyName.single "num".toList)).primaryKeyIsVoid = false
    ∧ KeyMatches (sampleModel (PrimaryKeyName.single "num".toList)).primaryKeyName
        (PrimaryKeyValue.scalar (SqlArg.size 7)) = true
    ∧ InvokesOneCallbackOnce
        (Mapper.findByPrimaryKeyCallback (sampleModel (PrimaryKeyName.single "num".toList))
          (Mapper.new (sampleClient ClientType.PostgreSQL
            (DbOutcome.result ⟨[sampleRow 7, sampleRow 7], 0, 0⟩)))
          (PrimaryKeyValue.scalar (SqlArg.size 7)))
    ∧ CallsException
        (Mapper.findByPrimaryKeyCallback (sampleModel (PrimaryKeyName.single "num".toList))
          (Mapper.new (sampleClient ClientType.PostgreSQL
            (DbOutcome.result ⟨[sampleRow 7, sampleRow 7], 0, 0⟩)))
          (PrimaryKeyValue.scalar (SqlArg.size 7)))
        (DbException.UnexpectedRows "Found more than one row".toList) :=
  ⟨rfl, rfl,
    (single_row_callbacks_invoked_once (sampleModel (PrimaryKeyName.single "num".toList))
      (Mapper.new (sampleClient ClientType.PostgreSQL
        (DbOutcome.result ⟨[sampleRow 7, sampleRow 7], 0, 0⟩)))).2.1
      (PrimaryKeyValue.scalar (SqlArg.size 7)) rfl rfl,
    rfl⟩

/-! ## Texts that the translation leaves out -/

theorem toDigitsCore_all (P : Char → Prop) (hP : ∀ d, d < 10 → P (Nat.digitChar d))
    (fuel : Nat) :
    ∀ (n : Nat) (ds : List Char), (∀ c ∈ ds, P c) →
      ∀ c ∈ Nat.toDigitsCore 10 fuel n ds, P c := by
  induction fuel with
  | zero => intro n ds h; simpa [Nat.toDigitsCore] using h
  | succ f ih =>
    intro n ds h
    have hd : ∀ c ∈ Nat.digitChar (n % 10) :: ds, P c := by
      intro c hc
      rcases List.mem_cons.1 hc with rfl | hc
      · exact hP _ (Nat.mod_lt _ (by decide))
      · exact h c hc
    rw [Nat.toDigitsCore]
    split_ifs
    · exact hd
    · exact ih _ _ hd

theorem decimal_all (P : Char → Prop) (hP : ∀ d, d < 10 → P (Nat.digitChar d)) (n : Nat) :
    ∀ c ∈ decimal n, P c :=
  toDigitsCore_all P hP (n + 1) n [] (by simp)

theorem infix_append_of_avoids (w e rest : Str) (he : ∀ x ∈ e, x ∉ w)
    (h : w <:+: e ++ rest) : w <:+: rest := by
  induction e with
  | nil => simpa using h
  | cons x e ih =>
    rw [List.cons_append, List.infix_cons_iff] at h
    rcases h with h | h
    · cases w with
      | nil => exact List.nil_infix
      | cons y w =>
        rw [List.cons_prefix_cons] at h
        exact absurd (h.1 ▸ List.mem_cons_self y w) (he x (List.mem_cons_self x e))
    · exact ih (fun y hy => he y (List.mem_cons_of_mem _ hy)) h

theorem prefix_of_translateWith (emit : Nat → Str) (next : Nat → Nat)
    (hne : ∀ n, emit n ≠ []) (s : Str) :
    ∀ (w : Str) (n : Nat), (∀ k, ∀ x ∈ emit k, x ∉ w) →
      w <+: translateWith emit next n s → w <+: s := by
  suffices H : ∀ k (s : Str), s.length = k → ∀ (w : Str) (n : Nat),
      (∀ k, ∀ x ∈ emit k, x ∉ w) → w <+: translateWith emit next n s → w <+: s from
    H s.length s rfl
  intro k
  induction k using Nat.strong_induction_on with
  | _ k ih =>
    intro s hk w n hw h
    cases w with
    | nil => exact List.nil_prefix
    | cons y w =>
      cases s with
      | nil => simp [translateWith] at h
      | cons c rest =>
        by_cases hd : ['$', '?'] <+: c :: rest
        · obtain ⟨rfl, t, rfl⟩ := (holder_prefix_cons c rest).1 hd
          rw [translateWith_holder] at h
          cases he : emit n with
          | nil => exact absurd he (hne n)
          | cons x e =>
            rw [he, List.cons_append, List.cons_prefix_cons] at h
            have hx : x ∈ emit n := by rw [he]; exact List.mem_cons_self x e
            exact absurd (h.1 ▸ List.mem_cons_self y w) (hw n x hx)
        · rw [translateWith_other _ _ _ _ _ hd, List.cons_prefix_cons] at h
          rw [List.cons_prefix_cons]
          exact ⟨h.1, ih rest.length (by simp at hk; omega) rest rfl w n
            (fun k x hx hxw => hw k x hx (List.mem_cons_of_mem _ hxw)) h.2⟩

theorem infix_of_translateWith (emit : Nat → Str) (next : Nat → Nat)
    (hne : ∀ n, emit n ≠ []) (w : Str) (hw : ∀ k, ∀ x ∈ emit k, x ∉ w) (s : Str) :
    ∀ n, w <:+: translateWith emit next n s → w <:+: s := by
  suffices H : ∀ k (s : Str), s.length = k → ∀ n,
      w <:+: translateWith emit next n s → w <:+: s from H s.length s rfl
  intro k
  induction k using Nat.strong_induction_on with
  | _ k ih =>
    intro s hk n h
    cases s with
    | nil => simpa [translateWith] using h
    | cons c rest =>
      by_cases hd : ['$', '?'] <+: c :: rest
      · obtain ⟨rfl, t, rfl⟩ := (holder_prefix_cons c rest).1 hd
        rw [translateWith_holder] at h
        have h2 := infix_append_of_avoids w (emit n) _ (hw n) h
        have h3 := ih t.length (by simp at hk; omega) t rfl _ h2
        exact List.infix_cons (List.infix_cons h3)
      · have hp := prefix_of_translateWith emit next hne (c :: rest) w n hw
        rw [translateWith_other _ _ _ _ _ hd] at h hp
        rw [List.infix_cons_iff] at h ⊢
        rcases h with h | h
        · exact Or.inl (hp h)
        · exact Or.inr (ih rest.length (by simp at hk; omega) rest rfl n h)

theorem where_not_in_translated (type : ClientType) (s : Str)
    (h : ¬ " where ".toList <:+: s) : ¬ " where ".toList <:+: translated type s := by
  have hgen : ∀ n, ¬ " where ".toList <:+: translateWith (fun _ => "?".toList) (fun n => n) n s :=
    fun n hn => h (infix_of_translateWith _ _ (fun _ => by decide) _
      (fun _ x hx => by
        rcases List.mem_singleton.1 hx with rfl
        decide) s n hn)
  cases type with
  | PostgreSQL =>
    intro hn
    refine h (infix_of_translateWith _ _ (fun _ => by simp) _ ?_ s 1 hn)
    intro k x hx
    rcases List.mem_append.1 hx with hx | hx
    · rcases List.mem_singleton.1 hx with rfl
      decide
    · exact decimal_all (fun c => c ∉ " where ".toList)
        (fun d hd => by interval_cases d <;> decide) k x hx
  | Mysql => exact hgen 0
  | Sqlite3 => exact hgen 0
  | Other => exact h

theorem infix_append_of_last_not_mem (w pre t : Str) (c : Char) (hc : c ∉ t)
    (h : w ++ [c] <:+: pre ++ t) : w ++ [c] <:+: pre := by
  induction t using List.reverseRecOn with
  | nil => simpa using h
  | append_singleton t x ih =>
    have hx : c ≠ x ∧ c ∉ t := by
      constructor
      · intro hcx
        exact hc (by simp [hcx])
      · intro hct
        exact hc (by simp [hct])
    obtain ⟨a, b, hab⟩ := h
    rcases List.eq_nil_or_concat b with rfl | ⟨b2, y, rfl⟩
    · have h2 : (a ++ w) ++ [c] = (pre ++ t) ++ [x] := by simpa using hab
      exact absurd (List.append_inj' h2 rfl).2 (by simpa using hx.1)
    · have h2 : (a ++ (w ++ [c]) ++ b2) ++ [y] = (pre ++ t) ++ [x] := by simpa using hab
      exact ih hx.2 ⟨a, b2, (List.append_inj' h2 rfl).1⟩

/-! ## The empty criteria -/

/-- C23: with an empty criteria no where-clause is rendered and no criteria
value is bound. `count` hands exactly `select count(*) from t` and `deleteBy`
exactly `delete from t` to the client, with no values; `findOne` and `findBy`
hand over `select * from t` followed at once by the order-by text and the
limit, offset and for-update clauses (translated when a limit or an offset is
present), with the limit and the offset as the only values. The text ` where `
does not occur in these statements unless the table name or the order-by text
brings it in. -/
theorem empty_criteria_renders_no_where {T : Type} (model : Model T) (m : Mapper) :
    ((m.count model Criteria.empty).submitted?
        = some ⟨"select count(*) from ".toList ++ model.tableName, [], Mode.Blocking⟩
      ∧ (m.countCallback model Criteria.empty).submitted?
        = some ⟨"select count(*) from ".toList ++ model.tableName, [], Mode.NonBlocking⟩
      ∧ (m.countFuture model Criteria.empty).submitted?
        = some ⟨"select count(*) from ".toList ++ model.tableName, [], Mode.NonBlocking⟩)
    ∧ (model.primaryKeyIsVoid = false →
      (m.deleteBy model Criteria.empty).submitted?
        = some ⟨"delete from ".toList ++ model.tableName, [], Mode.Blocking⟩
      ∧ (m.deleteByCallback model Criteria.empty).submitted?
        = some ⟨"delete from ".toList ++ model.tableName, [], Mode.NonBlocking⟩
      ∧ (m.deleteFutureBy model Criteria.empty).submitted?
        = some ⟨"delete from ".toList ++ model.tableName, [], Mode.NonBlocking⟩)
    ∧ (∃ sql,
      (if 0 < m._limit ∨ 0 < m._offset then
          replaceSqlPlaceHolder m._client.type
            ("select * from ".toList ++ model.tableName ++ m._orderbyString
              ++ (if m._limit > 0 then " limit $?".toList else [])
              ++ (if m._offset > 0 then " offset $?".toList else [])) "$?".toList
        else
          some ("select * from ".toList ++ model.tableName ++ m._orderbyString
            ++ (if m._limit > 0 then " limit $?".toList else [])
            ++ (if m._offset > 0 then " offset $?".toList else []))) = some sql
      ∧ (m.findOne model Criteria.empty).submitted?
        = some ⟨sql ++ forUpdateClause m._forUpdate,
            (if m._limit > 0 then [SqlArg.size m._limit] else [])
              ++ (if m._offset > 0 then [SqlArg.size m._offset] else []), Mode.Blocking⟩
      ∧ (m.findOneCallback model Criteria.empty).submitted?
        = some ⟨sql ++ forUpdateClause m._forUpdate,
            (if m._limit > 0 then [SqlArg.size m._limit] else [])
              ++ (if m._offset > 0 then [SqlArg.size m._offset] else []), Mode.NonBlocking⟩
      ∧ (m.findFutureOne model Criteria.empty).submitted?
        = some ⟨sql ++ forUpdateClause m._forUpdate,
            (if m._limit > 0 then [SqlArg.size m._limit] else [])
              ++ (if m._offset > 0 then [SqlArg.size m._offset] else []), Mode.NonBlocking⟩
      ∧ (m.findBy model Criteria.empty).submitted?
        = some ⟨sql ++ forUpdateClause m._forUpdate,
            (if m._limit > 0 then [SqlArg.size m._limit] else [])
              ++ (if m._offset > 0 then [SqlArg.size m._offset] else []), Mode.Blocking⟩
      ∧ (m.findByCallback model Criteria.empty).submitted?
        = some ⟨sql ++ forUpdateClause m._forUpdate,
            (if m._limit > 0 then [SqlArg.size m._limit] else [])
              ++ (if m._offset > 0 then [SqlArg.size m._offset] else []), Mode.NonBlocking⟩
      ∧ (m.findFutureBy model Criteria.empty).submitted?
        = some ⟨sql ++ forUpdateClause m._forUpdate,
            (if m._limit > 0 then [SqlArg.size m._limit] else [])
              ++ (if m._offset > 0 then [SqlArg.size m._offset] else []), Mode.NonBlocking⟩
      ∧ (¬ " where ".toList <:+:
            ("select * from ".toList ++ model.tableName ++ m._orderbyString
              ++ (if m._limit > 0 then " limit $?".toList else [])
              ++ (if m._offset > 0 then " offset $?".toList else [])
              ++ forUpdateClause m._forUpdate) →
          ¬ " where ".toList <:+: sql ++ forUpdateClause m._forUpdate))
    ∧ (' ' ∉ model.tableName →
        ¬ " where ".toList <:+: "select count(*) from ".toList ++ model.tableName
        ∧ ¬ " where ".toList <:+: "delete from ".toList ++ model.tableName) := by
  refine ⟨?_, ?_, ?_, ?_⟩
  · obtain ⟨sql, args, hsql, hargs, h1, h2, h3⟩ := count_ran model m Criteria.empty
    have hs : sql = "select count(*) from ".toList ++ model.tableName := by
      simpa [countSql, Criteria.toBool] using hsql.symm
    have ha : args = [] := by simpa [Criteria.toBool] using hargs
    subst hs ha
    exact ⟨by rw [h1]; rfl, by rw [h2]; rfl, by rw [h3]; rfl⟩
  · intro hpk
    obtain ⟨sql, args, hsql, hargs, h1, h2, h3⟩ := deleteBy_ran model m Criteria.empty hpk
    have hs : sql = "delete from ".toList ++ model.tableName := by
      simpa [deleteBySql, Criteria.toBool] using hsql.symm
    have ha : args = [] := by simpa [Criteria.toBool] using hargs
    subst hs ha
    exact ⟨by rw [h1]; rfl, by rw [h2]; rfl, by rw [h3]; rfl⟩
  · obtain ⟨sql1, hsql1, a1, a2, a3⟩ := findOne_ran model m Criteria.empty
    obtain ⟨sql2, hsql2, b1, b2, b3⟩ := findBy_ran model m Criteria.empty
    have h12 : sql2 = sql1 := Option.some.inj (hsql2.symm.trans hsql1)
    subst h12
    have hbody : selectBody model.tableName Criteria.empty m._orderbyString m._limit m._offset
        = "select * from ".toList ++ model.tableName ++ m._orderbyString
          ++ (if m._limit > 0 then " limit $?".toList else [])
          ++ (if m._offset > 0 then " offset $?".toList else []) := by
      simp [selectBody, whereClause]
    have hpar : (selectHasParameters Criteria.empty m._limit m._offset = true)
        ↔ (0 < m._limit ∨ 0 < m._offset) := by
      simp [selectHasParameters, Criteria.toBool]
    have hvals : selectArgs m Criteria.empty
        = (if m._limit > 0 then [SqlArg.size m._limit] else [])
          ++ (if m._offset > 0 then [SqlArg.size m._offset] else []) := by
      rw [selectArgs_eq]
      simp [selectValues, criteriaValues]
    obtain ⟨hc1, hc2⟩ := selectSql_cases _ _ _ _ hsql2
    rw [hvals] at a1 a2 a3 b1 b2 b3
    rw [← hbody]
    by_cases hp : 0 < m._limit ∨ 0 < m._offset
    · have hc := hc1 (hpar.2 hp)
      rw [translated_append_forUpdate] at hc
      refine ⟨translated m._client.type
        (selectBody model.tableName Criteria.empty m._orderbyString m._limit m._offset),
        ?_, ?_, ?_, ?_, ?_, ?_, ?_, ?_⟩
      · rw [if_pos hp, replaceSqlPlaceHolder_eq_translated]
      · rw [a1, hc]; rfl
      · rw [a2, hc]; rfl
      · rw [a3, hc]; rfl
      · rw [b1, hc]; rfl
      · rw [b2, hc]; rfl
      · rw [b3, hc]; rfl
      · intro hw
        rw [← translated_append_forUpdate]
        exact where_not_in_translated _ _ hw
    · have hf : selectHasParameters Criteria.empty m._limit m._offset = false := by
        cases hb : selectHasParameters Criteria.empty m._limit m._offset with
        | true => exact absurd (hpar.1 hb) hp
        | false => rfl
      have hc := hc2 hf
      refine ⟨selectBody model.tableName Criteria.empty m._orderbyString m._limit m._offset,
        ?_, ?_, ?_, ?_, ?_, ?_, ?_, ?_⟩
      · rw [if_neg hp]
      · rw [a1, hc]; rfl
      · rw [a2, hc]; rfl
      · rw [a3, hc]; rfl
      · rw [b1, hc]; rfl
      · rw [b2, hc]; rfl
      · rw [b3, hc]; rfl
      · exact fun hw => hw
  · intro hblank
    constructor
    · intro h
      have := infix_append_of_last_not_mem " where".toList _ _ ' ' hblank h
      revert this
      decide
    · intro h
      have := infix_append_of_last_not_mem " where".toList _ _ ' ' hblank h
      revert this
      decide

/-- Witness of C23: `deleteBy` and `findBy` with an empty criteria on the
sample table; the mapper carries an order-by text and a limit. -/
theorem empty_criteria_renders_no_where_witness :
    (sampleModel (PrimaryKeyName.single "num".toList)).primaryKeyIsVoid = false
    ∧ (Mapper.deleteBy (sampleModel (PrimaryKeyName.single "num".toList))
        (Mapper.new (sampleClient ClientType.Mysql (DbOutcome.result ⟨[], 3, 0⟩)))
        Criteria.empty).submitted?
      = some ⟨"delete from orders".toList, [], Mode.Blocking⟩
    ∧ ' ' ∉ (sampleModel (PrimaryKeyName.single "num".toList)).tableName
    ∧ ¬ " where ".toList <:+: "delete from orders".toList :=
  ⟨rfl,
    ((empty_criteria_renders_no_where (sampleModel (PrimaryKeyName.single "num".toList))
      (Mapper.new (sampleClient ClientType.Mysql (DbOutcome.result ⟨[], 3, 0⟩)))).2.1 rfl).1,
    by decide,
    ((empty_criteria_renders_no_where (sampleModel (PrimaryKeyName.single "num".toList))
      (Mapper.new (sampleClient ClientType.Mysql (DbOutcome.result ⟨[], 3, 0⟩)))).2.2.2
      (by decide)).2⟩

/-! ## Decimal numerals -/

theorem toDigitsCore_acc (fuel : Nat) :
    ∀ (n : Nat) (ds : List Char),
      Nat.toDigitsCore 10 fuel n ds = Nat.toDigitsCore 10 fuel n [] ++ ds := by
  induction fuel with
  | zero => intro n ds; simp [Nat.toDigitsCore]
  | succ f ih =>
    intro n ds
    simp only [Nat.toDigitsCore]
    split_ifs
    · simp
    · rw [ih (n / 10) (Nat.digitChar (n % 10) :: ds), ih (n / 10) [Nat.digitChar (n % 10)]]
      simp

theorem toDigitsCore_fuel (f1 : Nat) :
    ∀ (f2 n : Nat) (ds : List Char), n < f1 → n < f2 →
      Nat.toDigitsCore 10 f1 n ds = Nat.toDigitsCore 10 f2 n ds := by
  induction f1 with
  | zero => intro f2 n ds h; omega
  | succ f ih =>
    intro f2 n ds h1 h2
    cases f2 with
    | zero => omega
    | succ g =>
      simp only [Nat.toDigitsCore]
      split_ifs with h0
      · rfl
      · have hlt : n / 10 < n := Nat.div_lt_self (by omega) (by decide)
        exact ih g (n / 10) _ (by omega) (by omega)

theorem decimal_lt_ten (n : Nat) (h : n < 10) : decimal n = [Nat.digitChar n] := by
  unfold decimal Nat.toDigits
  rw [Nat.toDigitsCore]
  rw [if_pos (by omega), Nat.mod_eq_of_lt h]

theorem decimal_ge_ten (n : Nat) (h : 10 ≤ n) :
    decimal n = decimal (n / 10) ++ [Nat.digitChar (n % 10)] := by
  have hlt : n / 10 < n := Nat.div_lt_self (by omega) (by decide)
  unfold decimal Nat.toDigits
  rw [Nat.toDigitsCore]
  rw [if_neg (by omega), toDigitsCore_acc,
    toDigitsCore_fuel n (n / 10 + 1) (n / 10) [] hlt (by omega)]

theorem digitChar_injective (a b : Nat) (ha : a < 10) (hb : b < 10)
    (h : Nat.digitChar a = Nat.digitChar b) : a = b := by
  interval_cases a <;> interval_cases b <;> first | rfl | (revert h; decide)

theorem decimal_injective (n : Nat) : ∀ m, decimal n = decimal m → n = m := by
  induction n using Nat.strong_induction_on with
  | _ n ih =>
    intro m h
    by_cases hn : n < 10
    · by_cases hm : m < 10
      · rw [decimal_lt_ten n hn, decimal_lt_ten m hm] at h
        exact digitChar_injective n m hn hm (List.singleton_inj.1 h)
      · rw [decimal_lt_ten n hn, decimal_ge_ten m (by omega)] at h
        have hl := congrArg List.length h
        have hne := decimal_ne_nil (m / 10)
        have hpos : 0 < (decimal (m / 10)).length := List.length_pos.2 hne
        simp only [List.length_append, List.length_singleton, List.length_cons,
          List.length_nil] at hl
        omega
    · by_cases hm : m < 10
      · rw [decimal_ge_ten n (by omega), decimal_lt_ten m hm] at h
        have hl := congrArg List.length h
        have hne := decimal_ne_nil (n / 10)
        have hpos : 0 < (decimal (n / 10)).length := List.length_pos.2 hne
        simp only [List.length_append, List.length_singleton, List.length_cons,
          List.length_nil] at hl
        omega
      · rw [decimal_ge_ten n (by omega), decimal_ge_ten m (by omega)] at h
        obtain ⟨h1, h2⟩ := List.append_inj' h rfl
        have h3 := ih (n / 10) (Nat.div_lt_self (by omega) (by decide)) (m / 10) h1
        have h4 := digitChar_injective (n % 10) (m % 10) (Nat.mod_lt _ (by decide))
          (Nat.mod_lt _ (by decide)) (List.singleton_inj.1 h2)
        omega

theorem decimal_length_mono (n : Nat) :
    ∀ m, n ≤ m → (decimal n).length ≤ (decimal m).length := by
  induction n using Nat.strong_induction_on with
  | _ n ih =>
    intro m h
    by_cases hn : n < 10
    · rw [decimal_lt_ten n hn]
      exact List.length_pos.2 (decimal_ne_nil m)
    · rw [decimal_ge_ten n (by omega), decimal_ge_ten m (by omega)]
      have := ih (n / 10) (Nat.div_lt_self (by omega) (by decide)) (m / 10)
        (Nat.div_le_div_right h)
      simp
      exact this

/-! ## Numbering that starts at different numbers -/

theorem numberedText_holder (n : Nat) (tail : Str) :
    numberedText n ('$' :: '?' :: tail)
      = "$".toList ++ decimal n ++ numberedText (n + 1) tail := by
  unfold numberedText
  rw [translateWith_holder]

theorem numberedText_other (n : Nat) (c : Char) (rest : Str)
    (h : ¬ (['$', '?'] <+: c :: rest)) :
    numberedText n (c :: rest) = c :: numberedText n rest := by
  unfold numberedText
  rw [translateWith_other _ _ _ _ _ h]

theorem numberedText_length_mono (s : Str) :
    ∀ n m, n ≤ m → (numberedText n s).length ≤ (numberedText m s).length := by
  suffices H : ∀ k (s : Str), s.length = k → ∀ n m, n ≤ m →
      (numberedText n s).length ≤ (numberedText m s).length from H s.length s rfl
  intro k
  induction k using Nat.strong_induction_on with
  | _ k ih =>
    intro s hk n m hnm
    cases s with
    | nil => simp [numberedText, translateWith]
    | cons c rest =>
      by_cases hd : ['$', '?'] <+: c :: rest
      · obtain ⟨rfl, t, rfl⟩ := (holder_prefix_cons c rest).1 hd
        rw [numberedText_holder, numberedText_holder]
        have h1 := decimal_length_mono n m hnm
        have h2 := ih t.length (by simp at hk; omega) t rfl (n + 1) (m + 1) (by omega)
        simp only [List.length_append]
        omega
      · rw [numberedText_other n c rest hd, numberedText_other m c rest hd]
        have h2 := ih rest.length (by simp at hk; omega) rest rfl n m hnm
        simp only [List.length_cons]
        omega

theorem numberedText_ne (s : Str) :
    ∀ n m, n < m → 1 ≤ placeholderCount s → numberedText n s ≠ numberedText m s := by
  suffices H : ∀ k (s : Str), s.length = k → ∀ n m, n < m → 1 ≤ placeholderCount s →
      numberedText n s ≠ numberedText m s from H s.length s rfl
  intro k
  induction k using Nat.strong_induction_on with
  | _ k ih =>
    intro s hk n m hnm hcount heq
    cases s with
    | nil => simp [placeholderCount] at hcount
    | cons c rest =>
      by_cases hd : ['$', '?'] <+: c :: rest
      · obtain ⟨rfl, t, rfl⟩ := (holder_prefix_cons c rest).1 hd
        rw [numberedText_holder, numberedText_holder, List.append_assoc, List.append_assoc] at heq
        have heq2 := List.append_cancel_left heq
        have h1 := decimal_length_mono n m (by omega)
        have h2 := numberedText_length_mono t (n + 1) (m + 1) (by omega)
        have hl := congrArg List.length heq2
        simp only [List.length_append] at hl
        have h3 := (List.append_inj heq2 (by omega)).1
        have := decimal_injective n m h3
        omega
      · rw [numberedText_other n c rest hd, numberedText_other m c rest hd] at heq
        rw [placeholderCount_other c rest hd] at hcount
        exact ih rest.length (by simp at hk; omega) rest rfl n m hnm hcount
          (List.cons.inj heq).2

/-! ## Translating fragments one by one -/

theorem placeholderCount_le_length (s : Str) : placeholderCount s ≤ s.length := by
  suffices H : ∀ k (s : Str), s.length = k → placeholderCount s ≤ s.length from
    H s.length s rfl
  intro k
  induction k using Nat.strong_induction_on with
  | _ k ih =>
    intro s hk
    cases s with
    | nil => simp [placeholderCount]
    | cons c rest =>
      by_cases hd : ['$', '?'] <+: c :: rest
      · obtain ⟨rfl, t, rfl⟩ := (holder_prefix_cons c rest).1 hd
        rw [placeholderCount_holder]
        have := ih t.length (by simp at hk; omega) t rfl
        simp only [List.length_cons]
        omega
      · rw [placeholderCount_other c rest hd]
        have := ih rest.length (by simp at hk; omega) rest rfl
        simp only [List.length_cons]
        omega

theorem placeholderCount_pos_of_infix (s : Str) (h : "$?".toList <:+: s) :
    1 ≤ placeholderCount s := by
  by_contra hc
  have h0 : (splitPlaceholders s).2.length = 0 := by
    rw [← placeholderCount_eq_split]
    omega
  obtain ⟨hfree, hs⟩ := splitPlaceholders_spec s
  have hnil : (splitPlaceholders s).2 = [] := List.length_eq_zero.1 h0
  rw [hnil] at hs
  have hp : PlaceholderFree (splitPlaceholders s).1 := hfree _ (List.mem_cons_self _ _)
  have hs2 : s = (splitPlaceholders s).1 := by
    simpa [withNeutralPlaceholders] using hs
  rw [← hs2] at hp
  exact hp h

theorem numbered_translation (s : Str) (h : s.length < sizeModulus) :
    replaceSqlPlaceHolder ClientType.PostgreSQL s "$?".toList = some (numberedText 1 s) := by
  rw [replaceSqlPlaceHolder_eq_translated]
  simp only [translated]
  rw [translateWith_wrap_eq s 1 (by have := placeholderCount_le_length s; omega)]

theorem numberedText_seam (a b : Str) (n : Nat) :
    numberedText n (a ++ ['$']) ++ numberedText 1 ('?' :: b)
      ≠ numberedText n ((a ++ ['$']) ++ '?' :: b) := by
  have h1 : numberedText n (a ++ ['$']) = numberedText n a ++ ['$'] := by
    rw [numberedText_append a ['$'] n (by simp)]
    rfl
  have h2 : numberedText 1 ('?' :: b) = '?' :: numberedText 1 b :=
    numberedText_other 1 '?' b (by simp)
  have h3 : numberedText n ((a ++ ['$']) ++ '?' :: b)
      = numberedText n a
        ++ ('$' :: (decimal (n + placeholderCount a)
          ++ numberedText (n + placeholderCount a + 1) b)) := by
    rw [List.append_assoc, List.singleton_append,
      numberedText_append a ('$' :: '?' :: b) n (by simp), numberedText_holder]
    rfl
  rw [h1, h2, h3, List.append_assoc]
  intro heq
  have heq2 := List.append_cancel_left heq
  simp only [List.singleton_append, List.cons.injEq, true_and] at heq2
  cases hd : decimal (n + placeholderCount a) with
  | nil => exact decimal_ne_nil _ hd
  | cons x xs =>
    rw [hd] at heq2
    have hx : x ∈ decimal (n + placeholderCount a) := by rw [hd]; exact List.mem_cons_self x xs
    have := (decimal_chars _ x hx).2
    simp only [List.cons_append, List.cons.injEq] at heq2
    exact this heq2.1.symm

/-- C27: on PostgreSQL, for any two texts `a` and `b` that each contain the
placeholder token `$?` (their concatenation being a `std::string`, so shorter
than `2 ^ 64`), `replaceSqlPlaceHolder` returns on `a`, on `b` and on `a ++ b`,
and the translation of `a` followed by the translation of `b` differs from the
translation of `a ++ b`. -/
theorem fragmentwise_translation_differs (a b : Str)
    (ha : "$?".toList <:+: a) (hb : "$?".toList <:+: b)
    (hlen : (a ++ b).length < sizeModulus) :
    ∃ ta tb tab,
      replaceSqlPlaceHolder ClientType.PostgreSQL a "$?".toList = some ta
      ∧ replaceSqlPlaceHolder ClientType.PostgreSQL b "$?".toList = some tb
      ∧ replaceSqlPlaceHolder ClientType.PostgreSQL (a ++ b) "$?".toList = some tab
      ∧ ta ++ tb ≠ tab := by
  have hla : a.length < sizeModulus := by
    simp only [List.length_append] at hlen
    omega
  have hlb : b.length < sizeModulus := by
    simp only [List.length_append] at hlen
    omega
  refine ⟨_, _, _, numbered_translation a hla, numbered_translation b hlb,
    numbered_translation (a ++ b) hlen, ?_⟩
  by_cases hseam : a.getLast? = some '$' ∧ b.head? = some '?'
  · obtain ⟨a2, rfl⟩ := List.getLast?_eq_some_iff.1 hseam.1
    obtain ⟨b2, rfl⟩ := List.head?_eq_some_iff.1 hseam.2
    exact numberedText_seam a2 b2 1
  · rw [numberedText_append a b 1 hseam]
    intro heq
    have heq2 := List.append_cancel_left heq
    have hka := placeholderCount_pos_of_infix a ha
    have hkb := placeholderCount_pos_of_infix b hb
    exact numberedText_ne b 1 (1 + placeholderCount a) (by omega) hkb heq2

/-- Witness of C27: `a = $?` and `b = and x = $?`: the pieces translate to
`a = $1` and ` and x = $1`, the whole to `a = $1 and x = $2`. -/
theorem fragmentwise_translation_differs_witness :
    "$?".toList <:+: "a = $?".toList ∧ "$?".toList <:+: " and x = $?".toList
    ∧ ("a = $?".toList ++ " and x = $?".toList).length < sizeModulus
    ∧ replaceSqlPlaceHolder ClientType.PostgreSQL "a = $?".toList "$?".toList
        = some "a = $1".toList
    ∧ replaceSqlPlaceHolder ClientType.PostgreSQL " and x = $?".toList "$?".toList
        = some " and x = $1".toList
    ∧ replaceSqlPlaceHolder ClientType.PostgreSQL ("a = $?".toList ++ " and x = $?".toList)
        "$?".toList = some "a = $1 and x = $2".toList
    ∧ ∃ ta tb tab,
      replaceSqlPlaceHolder ClientType.PostgreSQL "a = $?".toList "$?".toList = some ta
      ∧ replaceSqlPlaceHolder ClientType.PostgreSQL " and x = $?".toList "$?".toList = some tb
      ∧ replaceSqlPlaceHolder ClientType.PostgreSQL ("a = $?".toList ++ " and x = $?".toList)
          "$?".toList = some tab
      ∧ ta ++ tb ≠ tab :=
  ⟨by decide, by decide, by decide, by decide, by decide, by decide,
    fragmentwise_translation_differs "a = $?".toList " and x = $?".toList
      (by decide) (by decide) (by decide)⟩

/-! ## Termination of the placeholder loops -/

theorem findFrom_bounds (str : Str) :
    ∀ (rest : Str) (i p : Nat), findFrom str rest i = some p →
      i ≤ p ∧ p + str.length ≤ i + rest.length := by
  intro rest
  induction rest with
  | nil =>
    intro i p h
    simp only [findFrom] at h
    split_ifs at h with hp
    · have hnil : str = [] := by
        cases str with
        | nil => rfl
        | cons c cs => simp [List.isPrefixOf] at hp
      injection h with h
      subst h hnil
      simp
  | cons c rest ih =>
    intro i p h
    simp only [findFrom] at h
    split_ifs at h with hp
    · injection h with h
      subst h
      have hl := (List.isPrefixOf_iff_prefix.1 hp).length_le
      exact ⟨le_refl _, by omega⟩
    · obtain ⟨h1, h2⟩ := ih (i + 1) p h
      simp only [List.length_cons]
      omega

theorem find_bounds (s str : Str) (pos p : Nat) (h : find s str pos = some p) :
    pos ≤ p ∧ p + str.length ≤ s.length := by
  unfold find at h
  split_ifs at h with hpos
  obtain ⟨h1, h2⟩ := findFrom_bounds str _ _ _ h
  rw [List.length_drop] at h2
  omega

theorem replaceWith_returns (emit : Nat → Str) (next : Nat → Nat) (s h : Str) (hne : h ≠ []) :
    ∀ (fuel startPos n : Nat) (ret : Str), 0 < fuel → s.length < fuel + startPos →
      ∃ out, replaceWith emit next s h fuel startPos n ret = some out := by
  have hlen : 0 < h.length := List.length_pos.2 hne
  intro fuel
  induction fuel with
  | zero => intro startPos n ret h0; omega
  | succ f ih =>
    intro startPos n ret _ hfuel
    rw [replaceWith]
    cases hfind : find s h startPos with
    | none => exact ⟨_, rfl⟩
    | some pos =>
      obtain ⟨h1, h2⟩ := find_bounds s h startPos pos hfind
      exact ih _ _ _ (by omega) (by omega)

theorem replaceWith_more_fuel (emit : Nat → Str) (next : Nat → Nat) (s h : Str) :
    ∀ (fuel fuel2 startPos n : Nat) (ret out : Str), fuel ≤ fuel2 →
      replaceWith emit next s h fuel startPos n ret = some out →
      replaceWith emit next s h fuel2 startPos n ret = some out := by
  intro fuel
  induction fuel with
  | zero => intro fuel2 startPos n ret out _ hr; simp [replaceWith] at hr
  | succ f ih =>
    intro fuel2 startPos n ret out hle hr
    cases fuel2 with
    | zero => omega
    | succ g =>
      rw [replaceWith] at hr ⊢
      cases hfind : find s h startPos with
      | none => rw [hfind] at hr; exact hr
      | some pos =>
        rw [hfind] at hr
        exact ih g _ _ _ _ (by omega) hr

theorem replaceSqlPlaceHolderFuel_returns (type : ClientType) (s h : Str) (hne : h ≠ []) :
    ∃ out, ∀ fuel, s.length < fuel → replaceSqlPlaceHolderFuel fuel type s h = some out := by
  by_cases hpg : type = ClientType.PostgreSQL
  · obtain ⟨out, hout⟩ := replaceWith_returns (fun n => "$".toList ++ decimal n)
      (fun n => (n + 1) % sizeModulus) s h hne (s.length + 1) 0 1 [] (by omega) (by omega)
    refine ⟨out, fun fuel hfuel => ?_⟩
    unfold replaceSqlPlaceHolderFuel
    rw [if_pos hpg, replaceNumbered_eq_replaceWith]
    exact replaceWith_more_fuel _ _ s h _ fuel 0 1 [] out (by omega) hout
  · by_cases hgen : type = ClientType.Mysql ∨ type = ClientType.Sqlite3
    · obtain ⟨out, hout⟩ := replaceWith_returns (fun _ => "?".toList)
        (fun n => n) s h hne (s.length + 1) 0 0 [] (by omega) (by omega)
      refine ⟨out, fun fuel hfuel => ?_⟩
      unfold replaceSqlPlaceHolderFuel
      rw [if_neg hpg, if_pos hgen, replaceGeneric_eq_replaceWith s h fuel 0 0 []]
      exact replaceWith_more_fuel _ _ s h _ fuel 0 0 [] out (by omega) hout
    · refine ⟨s, fun fuel _ => ?_⟩
      unfold replaceSqlPlaceHolderFuel
      rw [if_neg hpg, if_neg hgen]

/-- C31: for every input text, every dialect and every placeholder token that is
not empty, `replaceSqlPlaceHolder` returns: a search that finds the token at
`pos` from `startPos` has `startPos ≤ pos` and the token ends within the text,
so the next search starts at `pos + holderStr.length()`, at least the token
length further on and not beyond the end; hence the loop returns within
`sqlStr.length() + 1` iterations, and with every larger budget it returns the
same text. -/
theorem replaceSqlPlaceHolder_terminates (type : ClientType) (sqlStr holderStr : Str)
    (hne : holderStr ≠ []) :
    (∀ startPos pos, find sqlStr holderStr startPos = some pos →
      startPos + holderStr.length ≤ pos + holderStr.length
        ∧ startPos < pos + holderStr.length
        ∧ pos + holderStr.length ≤ sqlStr.length)
    ∧ ∃ out, replaceSqlPlaceHolder type sqlStr holderStr = some out
        ∧ ∀ fuel, sqlStr.length < fuel →
            replaceSqlPlaceHolderFuel fuel type sqlStr holderStr = some out := by
  have hlen : 0 < holderStr.length := List.length_pos.2 hne
  constructor
  · intro startPos pos hfind
    obtain ⟨h1, h2⟩ := find_bounds sqlStr holderStr startPos pos hfind
    exact ⟨by omega, by omega, h2⟩
  · obtain ⟨out, hout⟩ := replaceSqlPlaceHolderFuel_returns type sqlStr holderStr hne
    exact ⟨out, hout _ (by omega), hout⟩

/-- Witness of C31: the token `:p` in a text on Mysql. -/
theorem replaceSqlPlaceHolder_terminates_witness :
    ":p".toList ≠ []
    ∧ (∃ out, replaceSqlPlaceHolder ClientType.Mysql "a = :p and b = :p".toList ":p".toList
          = some out
        ∧ ∀ fuel, "a = :p and b = :p".toList.length < fuel →
            replaceSqlPlaceHolderFuel fuel ClientType.Mysql "a = :p and b = :p".toList
              ":p".toList = some out)
    ∧ replaceSqlPlaceHolder ClientType.Mysql "a = :p and b = :p".toList ":p".toList
      = some "a = ? and b = ?".toList :=
  ⟨by decide,
    (replaceSqlPlaceHolder_terminates ClientType.Mysql "a = :p and b = :p".toList
      ":p".toList (by decide)).2,
    by decide⟩

/-! ## No neutral placeholder is left on PostgreSQL -/

/-- C32: on PostgreSQL, for every text `s`, `replaceSqlPlaceHolder(s, "$?")`
returns a text in which the neutral placeholder `$?` does not occur. -/
theorem postgresql_output_has_no_neutral_placeholder (s : Str) :
    ∃ out, replaceSqlPlaceHolder ClientType.PostgreSQL s "$?".toList = some out
      ∧ PlaceholderFree out
      ∧ ¬ "$?".toList <:+: out := by
  obtain ⟨hfree, _⟩ := splitPlaceholders_spec s
  have h : PlaceholderFree (translated ClientType.PostgreSQL s) := by
    simp only [translated]
    rw [translateWith_eq_split]
    exact numbered_output_free _ _ _ _ (hfree _ (List.mem_cons_self _ _))
      (fun q hq => hfree q (List.mem_cons_of_mem _ hq))
  exact ⟨_, replaceSqlPlaceHolder_eq_translated _ s, h, h⟩

/-! ## The statement is the same in the three calling conventions -/

theorem sameStatement_execSqlBinder {β γ φ : Type} (after : Mapper) (sql : Option Str)
    (args : Option (List SqlArg)) (hb : DbOutcome → β) (hc : DbOutcome → γ)
    (hf : DbOutcome → φ) :
    SameStatement (execSqlBinder after Mode.Blocking sql args hb)
      (execSqlBinder after Mode.NonBlocking sql args hc)
      (execSqlBinder after Mode.NonBlocking sql args hf) := by
  unfold SameStatement
  cases sql with
  | none =>
    refine ⟨rfl, rfl, ?_, ?_, ?_⟩ <;>
    · intro mode h
      cases h
  | some s =>
    cases args with
    | none =>
      refine ⟨rfl, rfl, ?_, ?_, ?_⟩ <;>
      · intro mode h
        cases h
    | some a =>
      refine ⟨rfl, rfl, ?_, ?_, ?_⟩ <;>
      · intro mode h
        simp only [execSqlBinder, Outcome.mode?, Outcome.submitted?, Option.map_some',
          Option.some.injEq] at h
        exact h.symm

theorem sameStatement_notCompiled {β γ φ : Type} :
    SameStatement (Outcome.notCompiled : Outcome β) (Outcome.notCompiled : Outcome γ)
      (Outcome.notCompiled : Outcome φ) := by
  unfold SameStatement
  refine ⟨rfl, rfl, ?_, ?_, ?_⟩ <;>
  · intro mode h
    cases h

theorem statement_of_ran {δ : Type} {o : Outcome δ} {sub : Submission} {after : Mapper}
    {d : δ} (ho : o = Outcome.ran sub after d) : o.statement? = some (sub.sql, sub.args) := by
  rw [ho]
  rfl

/-- C33: for every operation, every call-state and every argument, the
blocking, the callback and the future member hand the identical statement to
the client: the same final text and the same ordered list of bound values; they
differ in the execution mode (blocking for the first, non-blocking for the
other two) and in the delivery. On an entity type for which the members
compile the statement is indeed handed over. -/
theorem conventions_submit_identical_statement {T : Type} (model : Model T) (m : Mapper) :
    (∀ key, SameStatement (m.findByPrimaryKey model key)
        (m.findByPrimaryKeyCallback model key) (m.findFutureByPrimaryKey model key))
    ∧ (∀ criteria, SameStatement (m.findOne model criteria)
        (m.findOneCallback model criteria) (m.findFutureOne model criteria))
    ∧ (∀ criteria, SameStatement (m.findBy model criteria)
        (m.findByCallback model criteria) (m.findFutureBy model criteria))
    ∧ SameStatement (m.findAll model) (m.findAllCallback model) (m.findFutureAll model)
    ∧ (∀ criteria, SameStatement (m.count model criteria)
        (m.countCallback model criteria) (m.countFuture model criteria))
    ∧ (∀ obj, SameStatement (m.insert model obj) (m.insertCallback model obj)
        (m.insertFuture model obj))
    ∧ (∀ obj, SameStatement (m.update model obj) (m.updateCallback model obj)
        (m.updateFuture model obj))
    ∧ (∀ obj, SameStatement (m.deleteOne model obj) (m.deleteOneCallback model obj)
        (m.deleteFutureOne model obj))
    ∧ (∀ criteria, SameStatement (m.deleteBy model criteria)
        (m.deleteByCallback model criteria) (m.deleteFutureBy model criteria))
    ∧ (∀ criteria obj,
        (m.findOne model criteria).statement? ≠ none
        ∧ (m.findBy model criteria).statement? ≠ none
        ∧ (m.findAll model).statement? ≠ none
        ∧ (m.count model criteria).statement? ≠ none
        ∧ (m.insert model obj).statement? ≠ none)
    ∧ (model.primaryKeyIsVoid = false →
        (∀ criteria, (m.deleteBy model criteria).statement? ≠ none)
        ∧ (∀ key, KeyMatches model.primaryKeyName key = true →
            (m.findByPrimaryKey model key).statement? ≠ none)
        ∧ (∀ obj, KeyMatches model.primaryKeyName (model.getPrimaryKey obj) = true →
            (m.update model obj).statement? ≠ none
            ∧ (m.deleteOne model obj).statement? ≠ none)) := by
  have hfindBy : ∀ criteria, SameStatement (m.findBy model criteria)
      (m.findByCallback model criteria) (m.findFutureBy model criteria) :=
    fun criteria => sameStatement_execSqlBinder _ _ _ _ _ _
  refine ⟨?_, fun criteria => sameStatement_execSqlBinder _ _ _ _ _ _, hfindBy,
    hfindBy Criteria.empty, fun criteria => sameStatement_execSqlBinder _ _ _ _ _ _,
    fun obj => sameStatement_execSqlBinder _ _ _ _ _ _, ?_, ?_, ?_, ?_, ?_⟩
  · intro key
    cases hv : model.primaryKeyIsVoid with
    | true =>
      simp only [Mapper.findByPrimaryKey, Mapper.findByPrimaryKeyCallback,
        Mapper.findFutureByPrimaryKey, hv, if_true]
      exact sameStatement_notCompiled
    | false =>
      simp only [Mapper.findByPrimaryKey, Mapper.findByPrimaryKeyCallback,
        Mapper.findFutureByPrimaryKey, hv, Bool.false_eq_true, if_false]
      exact sameStatement_execSqlBinder _ _ _ _ _ _
  · intro obj
    cases hv : model.primaryKeyIsVoid with
    | true =>
      simp only [Mapper.update, Mapper.updateCallback, Mapper.updateFuture, hv, if_true]
      exact sameStatement_notCompiled
    | false =>
      simp only [Mapper.update, Mapper.updateCallback, Mapper.updateFuture, hv,
        Bool.false_eq_true, if_false]
      exact sameStatement_execSqlBinder _ _ _ _ _ _
  · intro obj
    cases hv : model.primaryKeyIsVoid with
    | true =>
      simp only [Mapper.deleteOne, Mapper.deleteOneCallback, Mapper.deleteFutureOne, hv,
        if_true]
      exact sameStatement_notCompiled
    | false =>
      simp only [Mapper.deleteOne, Mapper.deleteOneCallback, Mapper.deleteFutureOne, hv,
        Bool.false_eq_true, if_false]
      exact sameStatement_execSqlBinder _ _ _ _ _ _
  · intro criteria
    cases hv : model.primaryKeyIsVoid with
    | true =>
      simp only [Mapper.deleteBy, Mapper.deleteByCallback, Mapper.deleteFutureBy, hv, if_true]
      exact sameStatement_notCompiled
    | false =>
      simp only [Mapper.deleteBy, Mapper.deleteByCallback, Mapper.deleteFutureBy, hv,
        Bool.false_eq_true, if_false]
      exact sameStatement_execSqlBinder _ _ _ _ _ _
  · intro criteria obj
    obtain ⟨_, _, h1, _, _⟩ := findOne_ran model m criteria
    obtain ⟨_, _, h2, _, _⟩ := findBy_ran model m criteria
    obtain ⟨_, _, h3, _, _⟩ := findBy_ran model m Criteria.empty
    obtain ⟨_, _, _, _, h4, _, _⟩ := count_ran model m criteria
    obtain ⟨_, _, h5, _, _⟩ := insert_ran model m obj
    refine ⟨?_, ?_, ?_, ?_, ?_⟩
    · rw [statement_of_ran h1]; simp
    · rw [statement_of_ran h2]; simp
    · rw [show m.findAll model = m.findBy model Criteria.empty from rfl, statement_of_ran h3]
      simp
    · rw [statement_of_ran h4]; simp
    · rw [statement_of_ran h5]; simp
  · intro hpk
    refine ⟨?_, ?_, ?_⟩
    · intro criteria
      obtain ⟨_, _, _, _, h1, _, _⟩ := deleteBy_ran model m criteria hpk
      rw [statement_of_ran h1]; simp
    · intro key hkey
      obtain ⟨_, _, h1, _, _⟩ := findByPrimaryKey_ran model m key hpk hkey
      rw [statement_of_ran h1]; simp
    · intro obj hkey
      obtain ⟨_, _, _, _, h1, _, _⟩ := update_ran model m obj hpk hkey
      obtain ⟨_, _, _, _, h2, _, _⟩ := deleteOne_ran model m obj hpk hkey
      constructor
      · rw [statement_of_ran h1]; simp
      · rw [statement_of_ran h2]; simp

/-- Witness of C33: `update` on the sample table hands over the same statement
in its three conventions. -/
theorem conventions_submit_identical_statement_witness :
    (sampleModel (PrimaryKeyName.single "num".toList)).primaryKeyIsVoid = false
    ∧ KeyMatches (sampleModel (PrimaryKeyName.single "num".toList)).primaryKeyName
        ((sampleModel (PrimaryKeyName.single "num".toList)).getPrimaryKey 7) = true
    ∧ (Mapper.update (sampleModel (PrimaryKeyName.single "num".toList))
        (Mapper.new (sampleClient ClientType.PostgreSQL (DbOutcome.result ⟨[], 1, 0⟩)))
        7).statement? ≠ none
    ∧ (Mapper.update (sampleModel (PrimaryKeyName.single "num".toList))
        (Mapper.new (sampleClient ClientType.PostgreSQL (DbOutcome.result ⟨[], 1, 0⟩)))
        7).statement?
      = some ("update orders set total = $1  where num = $2".toList,
          [SqlArg.size 7, SqlArg.size 7])
    ∧ (Mapper.updateFuture (sampleModel (PrimaryKeyName.single "num".toList))
        (Mapper.new (sampleClient ClientType.PostgreSQL (DbOutcome.result ⟨[], 1, 0⟩)))
        7).statement?
      = some ("update orders set total = $1  where num = $2".toList,
          [SqlArg.size 7, SqlArg.size 7]) :=
  ⟨rfl, rfl,
    (((conventions_submit_identical_statement
      (sampleModel (PrimaryKeyName.single "num".toList))
      (Mapper.new (sampleClient ClientType.PostgreSQL
        (DbOutcome.result ⟨[], 1, 0⟩)))).2.2.2.2.2.2.2.2.2.2 rfl).2.2 7 rfl).1,
    by decide, by decide⟩

/-! ## `findOne` and `findBy` -/

theorem foldl_push_back {α β : Type} (f : α → β) (rows : List α) :
    ∀ init : List β, rows.foldl (fun ret row => ret ++ [f row]) init = init ++ rows.map f := by
  induction rows with
  | nil => intro init; simp
  | cons row rows ih =>
    intro init
    rw [List.foldl_cons, ih]
    simp

/-- C34: for every criteria and call-state, `findOne` and `findBy` hand the same
text and the same bound values to the client, in each calling convention (so
`findOne` adds no limit of its own). They differ in the delivery of a result
`r`: `findBy` delivers the entities `T(row)` of all rows in result order, a
list as long as the result whose `i`-th element is `T` of the `i`-th row;
`findOne` delivers `T(r[0])` when `r` has exactly one row and fails with
`UnexpectedRows` when it has none or more than one. -/
theorem findOne_findBy_same_statement {T : Type} (model : Model T) (m : Mapper)
    (criteria : Criteria) :
    ∃ sql,
      ((m.findOne model criteria).submitted?
          = some ⟨sql, selectValues criteria m._limit m._offset, Mode.Blocking⟩
        ∧ (m.findBy model criteria).submitted?
          = some ⟨sql, selectValues criteria m._limit m._offset, Mode.Blocking⟩)
      ∧ ((m.findOneCallback model criteria).submitted?
          = some ⟨sql, selectValues criteria m._limit m._offset, Mode.NonBlocking⟩
        ∧ (m.findByCallback model criteria).submitted?
          = some ⟨sql, selectValues criteria m._limit m._offset, Mode.NonBlocking⟩)
      ∧ ((m.findFutureOne model criteria).submitted?
          = some ⟨sql, selectValues criteria m._limit m._offset, Mode.NonBlocking⟩
        ∧ (m.findFutureBy model criteria).submitted?
          = some ⟨sql, selectValues criteria m._limit m._offset, Mode.NonBlocking⟩)
      ∧ ∀ r, m._client.exec sql (selectValues criteria m._limit m._offset)
            = DbOutcome.result r →
          (Returns (m.findBy model criteria) (r.rows.map model.fromRow)
            ∧ CallsResult (m.findByCallback model criteria) (r.rows.map model.fromRow)
            ∧ ResolvesTo (m.findFutureBy model criteria) (r.rows.map model.fromRow))
          ∧ (r.rows.map model.fromRow).length = r.rows.length
          ∧ (∀ i : Nat, (r.rows.map model.fromRow)[i]? = (r.rows[i]?).map model.fromRow)
          ∧ (∀ row, r.rows = [row] →
              Returns (m.findOne model criteria) (model.fromRow row)
              ∧ CallsResult (m.findOneCallback model criteria) (model.fromRow row)
              ∧ ResolvesTo (m.findFutureOne model criteria) (model.fromRow row))
          ∧ (r.rows.length = 0 →
              Raises (m.findOne model criteria)
                (DbException.UnexpectedRows "0 rows found".toList)
              ∧ CallsException (m.findOneCallback model criteria)
                (DbException.UnexpectedRows "0 rows found".toList)
              ∧ Rejects (m.findFutureOne model criteria)
                (DbException.UnexpectedRows "0 rows found".toList))
          ∧ (2 ≤ r.rows.length →
              Raises (m.findOne model criteria)
                (DbException.UnexpectedRows "Found more than one row".toList)
              ∧ CallsException (m.findOneCallback model criteria)
                (DbException.UnexpectedRows "Found more than one row".toList)
              ∧ Rejects (m.findFutureOne model criteria)
                (DbException.UnexpectedRows "Found more than one row".toList)) := by
  obtain ⟨sql, hsql, a1, a2, a3⟩ := findOne_ran model m criteria
  obtain ⟨sql2, hsql2, b1, b2, b3⟩ := findBy_ran model m criteria
  have h12 : sql2 = sql := Option.some.inj (hsql2.symm.trans hsql)
  subst h12
  rw [selectArgs_eq] at a1 a2 a3 b1 b2 b3
  refine ⟨sql2, ⟨by rw [a1]; rfl, by rw [b1]; rfl⟩, ⟨by rw [a2]; rfl, by rw [b2]; rfl⟩,
    ⟨by rw [a3]; rfl, by rw [b3]; rfl⟩, ?_⟩
  intro r hexec
  obtain ⟨s1, s2, s3, _⟩ := singleRowBlocking_rows model r
  obtain ⟨c1, c2, c3, _⟩ := singleRowCallback_rows model r
  obtain ⟨f1, f2, f3, _⟩ := singleRowFuture_rows model r
  rw [a1, a2, a3, b1, b2, b3, hexec]
  unfold Returns CallsResult ResolvesTo Raises CallsException Rejects
  simp only [Outcome.delivery?]
  refine ⟨⟨?_, ?_, ?_⟩, List.length_map _ _, fun i => List.getElem?_map _ _ _, ?_, ?_, ?_⟩
  · simp [multipleRowsBlocking, foldl_push_back]
  · simp [multipleRowsCallback, foldl_push_back]
  · simp [multipleRowsFuture, foldl_push_back, Promise.set_value]
  · intro row hrow
    exact ⟨by rw [s3 row hrow], by rw [c3 row hrow], by rw [f3 row hrow]⟩
  · intro h0
    exact ⟨by rw [s1 h0], by rw [c1 h0], by rw [f1 h0]⟩
  · intro h2
    exact ⟨by rw [s2 h2], by rw [c2 h2], by rw [f2 h2]⟩

/-- Witness of C34: on a fresh mapper, against a client that answers with two
rows, `findOne` and `findBy` hand over the same statement without a limit;
`findBy` returns the two entities and `findOne` raises `UnexpectedRows`. -/
theorem findOne_findBy_same_statement_witness :
    (Mapper.findOne (sampleModel (PrimaryKeyName.single "num".toList))
        (Mapper.new (sampleClient ClientType.PostgreSQL
          (DbOutcome.result ⟨[sampleRow 3, sampleRow 8], 0, 0⟩)))
        (Criteria.cond "total > $?".toList [SqlArg.int 100])).submitted?
      = some ⟨"select * from orders where total > $1".toList, [SqlArg.int 100], Mode.Blocking⟩
    ∧ (2 : Nat) ≤ [sampleRow 3, sampleRow 8].length
    ∧ Returns
        (Mapper.findBy (sampleModel (PrimaryKeyName.single "num".toList))
          (Mapper.new (sampleClient ClientType.PostgreSQL
            (DbOutcome.result ⟨[sampleRow 3, sampleRow 8], 0, 0⟩)))
          (Criteria.cond "total > $?".toList [SqlArg.int 100]))
        [3, 8]
    ∧ Raises
        (Mapper.findOne (sampleModel (PrimaryKeyName.single "num".toList))
          (Mapper.new (sampleClient ClientType.PostgreSQL
            (DbOutcome.result ⟨[sampleRow 3, sampleRow 8], 0, 0⟩)))
          (Criteria.cond "total > $?".toList [SqlArg.int 100]))
        (DbException.UnexpectedRows "Found more than one row".toList) := by
  obtain ⟨sql, _, _, _, h⟩ := findOne_findBy_same_statement
    (sampleModel (PrimaryKeyName.single "num".toList))
    (Mapper.new (sampleClient ClientType.PostgreSQL
      (DbOutcome.result ⟨[sampleRow 3, sampleRow 8], 0, 0⟩)))
    (Criteria.cond "total > $?".toList [SqlArg.int 100])
  obtain ⟨h1, _, _, _, _, h6⟩ := h ⟨[sampleRow 3, sampleRow 8], 0, 0⟩ rfl
  exact ⟨by decide, by decide, h1.1, (h6 (by decide)).1⟩

/-! ## A composite key with one column -/

/-- C35: a composite primary key declared with the single column `k` renders
the same primary-key clause as the scalar key on `k`, ` where k = $?` with no
` and ` added, and with the one-component tuple `(v)` it binds the same single
value `v` as the scalar key does; so `findByPrimaryKey` is the same on the two
declarations, in every calling convention. -/
theorem single_column_composite_key_as_scalar {T : Type} (model : Model T) (m : Mapper)
    (k : Str) (v : SqlArg) (sql : Str) (binder : List SqlArg) :
    makePrimaryKeyCriteria (PrimaryKeyName.composite [k]) sql
        = sql ++ " where ".toList ++ k ++ " = $?".toList
    ∧ makePrimaryKeyCriteria (PrimaryKeyName.composite [k]) sql
        = makePrimaryKeyCriteria (PrimaryKeyName.single k) sql
    ∧ outputPrimeryKeyToBinder (PrimaryKeyName.composite [k]) (PrimaryKeyValue.tuple [v]) binder
        = some (binder ++ [v])
    ∧ outputPrimeryKeyToBinder (PrimaryKeyName.composite [k]) (PrimaryKeyValue.tuple [v]) binder
        = outputPrimeryKeyToBinder (PrimaryKeyName.single k) (PrimaryKeyValue.scalar v) binder
    ∧ m.findByPrimaryKey { model with primaryKeyName := PrimaryKeyName.composite [k] }
          (PrimaryKeyValue.tuple [v])
        = m.findByPrimaryKey { model with primaryKeyName := PrimaryKeyName.single k }
          (PrimaryKeyValue.scalar v)
    ∧ m.findByPrimaryKeyCallback { model with primaryKeyName := PrimaryKeyName.composite [k] }
          (PrimaryKeyValue.tuple [v])
        = m.findByPrimaryKeyCallback { model with primaryKeyName := PrimaryKeyName.single k }
          (PrimaryKeyValue.scalar v)
    ∧ m.findFutureByPrimaryKey { model with primaryKeyName := PrimaryKeyName.composite [k] }
          (PrimaryKeyValue.tuple [v])
        = m.findFutureByPrimaryKey { model with primaryKeyName := PrimaryKeyName.single k }
          (PrimaryKeyValue.scalar v) := by
  have hc : ∀ s : Str, makePrimaryKeyCriteria (PrimaryKeyName.composite [k]) s
      = makePrimaryKeyCriteria (PrimaryKeyName.single k) s := by
    intro s
    rw [makePrimaryKeyCriteria_eq, makePrimaryKeyCriteria_eq]
    simp [primaryKeyClause, PrimaryKeyName.columns, List.intercalate]
  have hb : ∀ b : List SqlArg,
      outputPrimeryKeyToBinder (PrimaryKeyName.composite [k]) (PrimaryKeyValue.tuple [v]) b
        = outputPrimeryKeyToBinder (PrimaryKeyName.single k) (PrimaryKeyValue.scalar v) b :=
    fun _ => rfl
  have hn : findByPrimaryKeyNeutral
        { model with primaryKeyName := PrimaryKeyName.composite [k] } m
      = findByPrimaryKeyNeutral { model with primaryKeyName := PrimaryKeyName.single k } m := by
    simp only [findByPrimaryKeyNeutral, hc]
  have hs1 : singleRowBlocking { model with primaryKeyName := PrimaryKeyName.composite [k] }
      = singleRowBlocking { model with primaryKeyName := PrimaryKeyName.single k } := by
    funext answer
    cases answer <;> rfl
  have hs2 : singleRowCallback { model with primaryKeyName := PrimaryKeyName.composite [k] }
      = singleRowCallback { model with primaryKeyName := PrimaryKeyName.single k } := by
    funext answer
    cases answer <;> rfl
  have hs3 : singleRowFuture { model with primaryKeyName := PrimaryKeyName.composite [k] }
      = singleRowFuture { model with primaryKeyName := PrimaryKeyName.single k } := by
    funext answer
    cases answer <;> rfl
  refine ⟨?_, hc sql, rfl, rfl, ?_, ?_, ?_⟩
  · rw [hc]; rfl
  · simp only [Mapper.findByPrimaryKey, hn, hb, hs1]
  · simp only [Mapper.findByPrimaryKeyCallback, hn, hb, hs2]
  · simp only [Mapper.findFutureByPrimaryKey, hn, hb, hs3]

/-! ## `count` -/

theorem countCellReported_of_ran {α : Type} {client : DbClient} {o : Outcome (Run α)}
    {sub : Submission} {after : Mapper} {handler : DbOutcome → Run α}
    {reports : Outcome (Run α) → Nat → Prop}
    (ho : o = Outcome.ran sub after (handler (client.exec sub.sql sub.args)))
    (h1 : ∀ r row, r.rows = [row] →
      reports (Outcome.ran sub after (handler (DbOutcome.result r)))
        (row.column "count".toList).asSizeT)
    (h2 : ∀ r, r.rows.length ≠ 1 → handler (DbOutcome.result r) = Run.assertFailed) :
    CountCellReported client o reports := by
  refine ⟨sub, by rw [ho]; rfl, ?_⟩
  intro r hexec
  rw [ho, hexec]
  refine ⟨h1 r, ?_⟩
  intro hr
  simp only [Outcome.delivery?]
  rw [h2 r hr]

/-- C37: `count`, in every calling convention, hands one statement to the
client, and for a result `r` of the client: when `r` has exactly one row it
delivers the cell `count` of that row converted with `as<size_t>()`, with no
other computation on the result; when `r` has no row or more than one row the
assertion `r.size() == 1` fails. -/
theorem count_reports_the_count_cell {T : Type} (model : Model T) (m : Mapper)
    (criteria : Criteria) :
    CountCellReported m._client (m.count model criteria) Returns
    ∧ CountCellReported m._client (m.countCallback model criteria) CallsResult
    ∧ CountCellReported m._client (m.countFuture model criteria) ResolvesTo := by
  obtain ⟨sql, args, _, _, h1, h2, h3⟩ := count_ran model m criteria
  refine ⟨countCellReported_of_ran h1 ?_ ?_, countCellReported_of_ran h2 ?_ ?_,
    countCellReported_of_ran h3 ?_ ?_⟩
  · intro r row hr
    simp [Returns, Outcome.delivery?, countBlocking, hr]
  · intro r hr
    obtain ⟨rows, a, i⟩ := r
    match rows, hr with
    | [], _ => rfl
    | _ :: _ :: _, _ => rfl
  · intro r row hr
    simp [CallsResult, Outcome.delivery?, countCallbackDelivery, hr]
  · intro r hr
    obtain ⟨rows, a, i⟩ := r
    match rows, hr with
    | [], _ => rfl
    | _ :: _ :: _, _ => rfl
  · intro r row hr
    simp [ResolvesTo, Outcome.delivery?, countFutureDelivery, hr, Promise.set_value]
  · intro r hr
    obtain ⟨rows, a, i⟩ := r
    match rows, hr with
    | [], _ => rfl
    | _ :: _ :: _, _ => rfl

/-- Witness of C37: against a client that answers with one row whose cell
`count` is 12, `count` on the sample table returns 12; against a client that
answers with no row, the assertion fails. -/
theorem count_reports_the_count_cell_witness :
    Returns
        (Mapper.count (sampleModel (PrimaryKeyName.single "num".toList))
          (Mapper.new (sampleClient ClientType.Sqlite3
            (DbOutcome.result ⟨[sampleRow 12], 0, 0⟩)))
          Criteria.empty)
        12
    ∧ (Mapper.count (sampleModel (PrimaryKeyName.single "num".toList))
          (Mapper.new (sampleClient ClientType.Sqlite3 (DbOutcome.result ⟨[], 0, 0⟩)))
          Criteria.empty).delivery?
        = some Run.assertFailed := by
  obtain ⟨sub, _, h⟩ := (count_reports_the_count_cell
    (sampleModel (PrimaryKeyName.single "num".toList))
    (Mapper.new (sampleClient ClientType.Sqlite3 (DbOutcome.result ⟨[sampleRow 12], 0, 0⟩)))
    Criteria.empty).1
  obtain ⟨sub2, _, h2⟩ := (count_reports_the_count_cell
    (sampleModel (PrimaryKeyName.single "num".toList))
    (Mapper.new (sampleClient ClientType.Sqlite3 (DbOutcome.result ⟨[], 0, 0⟩)))
    Criteria.empty).1
  exact ⟨(h ⟨[sampleRow 12], 0, 0⟩ rfl).1 (sampleRow 12) rfl,
    (h2 ⟨[], 0, 0⟩ rfl).2 (by decide)⟩

/-! ## Insert without columns -/

theorem insertNeutral_nil (t : Str) (type : ClientType) :
    insertNeutral t [] type
      = "insert into ".toList ++ t ++ " ) values )".toList
        ++ (if type = ClientType.PostgreSQL then " returning *".toList else []) := by
  have h1 : setLast ("insert into ".toList ++ t ++ " (".toList) ')'
      = "insert into ".toList ++ t ++ " )".toList := by
    have := setLast_append_singleton ("insert into ".toList ++ t ++ " ".toList) '(' ')'
    simpa using this
  have h2 : setLast ("insert into ".toList ++ t ++ " )".toList ++ " values (".toList) ')'
      = "insert into ".toList ++ t ++ " ) values )".toList := by
    have := setLast_append_singleton
      ("insert into ".toList ++ t ++ " ) values ".toList) '(' ')'
    simpa using this
  unfold insertNeutral
  simp only [List.foldl_nil, List.length_nil, List.range_zero, h1, h2]
  split_ifs
  · rfl
  · rw [List.append_nil]

theorem parenScan_filter (s : Str) : ∀ d, parenScan d s = parenScan d (s.filter isParen) := by
  induction s with
  | nil => intro d; rfl
  | cons c rest ih =>
    intro d
    by_cases h1 : c = '('
    · subst h1
      have : isParen '(' = true := rfl
      rw [List.filter_cons_of_pos this]
      simp only [parenScan, if_true]
      exact ih _
    · by_cases h2 : c = ')'
      · subst h2
        have : isParen ')' = true := rfl
        rw [List.filter_cons_of_pos this]
        simp only [parenScan, if_neg h1, if_true]
        cases d with
        | zero => rfl
        | succ k => exact ih k
      · have : ¬ isParen c = true := by
          simp [isParen, h1, h2]
        rw [List.filter_cons_of_neg this]
        simp only [parenScan, if_neg h1, if_neg h2]
        exact ih d

theorem filter_isParen_of_free (s : Str) (h : ∀ c ∈ s, isParen c = false) :
    s.filter isParen = [] := by
  rw [List.filter_eq_nil_iff]
  intro c hc
  simp [h c hc]

theorem intercalate_paren_free (sep : Str) (xs : List Str) (hsep : ∀ c ∈ sep, isParen c = false)
    (hxs : ∀ x ∈ xs, ∀ c ∈ x, isParen c = false) :
    ∀ c ∈ List.intercalate sep xs, isParen c = false := by
  cases xs with
  | nil => intro c hc; simp [List.intercalate] at hc
  | cons x xs =>
    rw [intercalate_cons_eq]
    intro c hc
    rcases List.mem_append.1 hc with hc | hc
    · exact hxs x (List.mem_cons_self _ _) c hc
    · obtain ⟨l, hl, hcl⟩ := List.mem_flatten.1 hc
      obtain ⟨y, hy, rfl⟩ := List.mem_map.1 hl
      rcases List.mem_append.1 hcl with hc2 | hc2
      · exact hsep c hc2
      · exact hxs y (List.mem_cons_of_mem _ hy) c hc2

theorem holders_paren_free (n : Nat) :
    ∀ c ∈ List.intercalate ",".toList (List.replicate n "$?".toList), isParen c = false := by
  apply intercalate_paren_free
  · decide
  · intro x hx
    rw [List.eq_of_mem_replicate hx]
    decide

theorem returning_filter (type : ClientType) :
    (if type = ClientType.PostgreSQL then " returning *".toList else []).filter isParen = [] := by
  split_ifs <;> rfl

/-- C36: for an entity whose insert-column list is empty, the step that
replaces the last comma overwrites the opening parenthesis instead, twice: the
text `insert` builds before translation is `insert into t ) values )`,
followed by ` returning *` on PostgreSQL, and this text (it carries no
placeholder) is what each calling convention hands to the client. With a table
name and column names that carry no parenthesis, the text that `insert` builds
is well-parenthesised exactly when the insert-column list is not empty. -/
theorem insert_without_columns_is_malformed {T : Type} (model : Model T) (m : Mapper)
    (obj : T) :
    (∀ t type, insertNeutral t [] type
        = "insert into ".toList ++ t ++ " ) values )".toList
          ++ (if type = ClientType.PostgreSQL then " returning *".toList else []))
    ∧ (model.insertColumns = [] → placeholderCount model.tableName = 0 →
        (m.insert model obj).submitted?
          = some ⟨"insert into ".toList ++ model.tableName ++ " ) values )".toList
              ++ (if m._client.type = ClientType.PostgreSQL then " returning *".toList
                  else []),
              model.outputArgs obj, Mode.Blocking⟩)
    ∧ ((∀ c ∈ model.tableName, isParen c = false) →
        (∀ col ∈ model.insertColumns, ∀ c ∈ col, isParen c = false) →
        (WellParenthesised
            (insertNeutral model.tableName model.insertColumns m._client.type)
          ↔ model.insertColumns ≠ [])) := by
  refine ⟨insertNeutral_nil, ?_, ?_⟩
  · intro hcols ht
    obtain ⟨sql, hsql, h1, _, _⟩ := insert_ran model m obj
    rw [hcols, insertNeutral_nil, replaceSqlPlaceHolder_eq_translated] at hsql
    have hcount : placeholderCount
        ("insert into ".toList ++ model.tableName ++ " ) values )".toList
          ++ (if m._client.type = ClientType.PostgreSQL then " returning *".toList else []))
        = 0 := by
      rw [placeholderCount_append _ _ (by split_ifs <;> simp),
        placeholderCount_append _ _ (by simp),
        placeholderCount_append _ _ (by simp), ht]
      split_ifs <;> rfl
    rw [translated_of_count_zero _ _ hcount] at hsql
    rw [h1, ← Option.some.inj hsql]
    rfl
  · intro ht hc
    unfold WellParenthesised
    rw [parenScan_filter]
    constructor
    · intro hwp hnil
      rw [hnil, insertNeutral_nil] at hwp
      simp only [List.filter_append, filter_isParen_of_free _ ht, returning_filter] at hwp
      revert hwp
      decide
    · intro hne
      rw [insertNeutral_eq _ _ _ hne]
      simp only [List.filter_append, filter_isParen_of_free _ ht, returning_filter,
        filter_isParen_of_free _ (intercalate_paren_free ",".toList model.insertColumns
          (by decide) hc),
        filter_isParen_of_free _ (holders_paren_free model.insertColumns.length)]
      decide

/-- Witness of C36: the sample entity type with its insert-column list emptied,
on PostgreSQL, and the sample entity type as it is. -/
theorem insert_without_columns_is_malformed_witness :
    ({ sampleModel (PrimaryKeyName.single "num".toList) with
        insertColumns := [] } : Model Nat).insertColumns = []
    ∧ (Mapper.insert
        { sampleModel (PrimaryKeyName.single "num".toList) with insertColumns := [] }
        (Mapper.new (sampleClient ClientType.PostgreSQL (DbOutcome.result ⟨[], 0, 0⟩)))
        5).submitted?
      = some ⟨"insert into orders ) values ) returning *".toList,
          [SqlArg.size 5, SqlArg.size 5, SqlArg.size 5], Mode.Blocking⟩
    ∧ ¬ WellParenthesised "insert into orders ) values ) returning *".toList
    ∧ WellParenthesised
        (insertNeutral "orders".toList ["shop".toList, "num".toList, "total".toList]
          ClientType.PostgreSQL) := by
  have h := insert_without_columns_is_malformed
    { sampleModel (PrimaryKeyName.single "num".toList) with insertColumns := [] }
    (Mapper.new (sampleClient ClientType.PostgreSQL (DbOutcome.result ⟨[], 0, 0⟩))) 5
  have h2 := insert_without_columns_is_malformed
    (sampleModel (PrimaryKeyName.single "num".toList))
    (Mapper.new (sampleClient ClientType.PostgreSQL (DbOutcome.result ⟨[], 0, 0⟩))) 5
  exact ⟨rfl, h.2.1 rfl (by decide), by decide,
    (h2.2.2 (by decide) (by decide)).2 (by decide)⟩

end drogon.orm
